import Mathlib

/-!
# Recipe catalogue: service-layer verification

A shallow embedding of the Go packages `models`, `repositories`, `services`,
`middleware`, `handlers` and `main` of the recipe catalogue, followed by
theorems about sorting, pagination, rating aggregation, rating ownership,
recipe storage, user uniqueness, filtering and search, authentication, the
token check of the middleware, the handlers and the route table.

Conventions of the embedding

* Go `int` is a 64-bit two's-complement integer: values are `Int`, and every
  arithmetic result is passed through `wrap64`.
* A finite `float64` is the rational number it stands for.  Conversion of an
  `int` to `float64` and `float64` division round the exact result to the
  nearest number with a 53-bit significand, ties to the even significand
  (`float64.round`).
* `time.Time` values are abstract instants (`Int`); `time.Now()` and
  `uuid.New().String()` are read from explicit arguments.
* A Go map is an association list (`GoMap`).  The order in which a `range`
  loop visits the entries is not fixed by the language, so every function
  that ranges over a map takes the visiting order `iter` as an argument; the
  runtime may pick any permutation of the entries.
* Slices that are written in place live in a `Heap` of backing arrays and are
  addressed through a `Slice` header, so that aliasing is visible.
* Go's `<` and `>` on strings are `stringLess` (with the arguments exchanged
  for `>`).
* `bcrypt.GenerateFromPassword` is an argument `hash` of the functions that
  call it; it may fail.  `bcrypt.CompareHashAndPassword` is an argument
  `verify`.
* The JWT library is an argument `lib : JWT` of the functions that call it;
  the instants a token carries are whole seconds.
* `unicode.ToLower` is an argument `lower` of the functions that lower-case.
* A handler maps the stores and a request to a response and the stores
  afterwards; what it reads from its surroundings (clock, new identifier,
  JSON decoding, visiting orders) is an `Env`.  The router tries the routes
  of `main` in the order of registration and the first match serves.
* A run-time panic is the `none` result of an `Option`.
* Go `error` values are their message strings, carried by `Except`.
-/

namespace Playground

/-! ## Machine integers -/

/-- Two's-complement reduction of an integer to the range of Go's 64-bit `int`. -/
def wrap64 (x : Int) : Int := (x + 2 ^ 63) % 2 ^ 64 - 2 ^ 63

/-- Largest value of Go's 64-bit `int`. -/
def maxInt : Int := 2 ^ 63 - 1

/-- Smallest value of Go's 64-bit `int`. -/
def minInt : Int := -(2 ^ 63)

/-! ## Floating point -/

namespace float64

/-- The integer nearest to a rational number; of two nearest integers, the
even one. -/
def roundHalfEven (x : ℚ) : Int :=
  let f := ⌊x⌋
  if x - f < 1 / 2 then f
  else if 1 / 2 < x - f then f + 1
  else if f % 2 = 0 then f else f + 1

/-- The distance between neighbouring `float64` numbers around `q`.  A number
with `2 ^ e ≤ |q| < 2 ^ (e + 1)` has a 53-bit significand in units of
`2 ^ (e - 52)`; below the smallest normal number `2 ^ (-1022)` the unit stays
`2 ^ (-1074)`. -/
def ulp (q : ℚ) : ℚ := (2 : ℚ) ^ (max (Int.log 2 |q|) (-1022) - 52)

/-- The `float64` nearest to the rational number `q` (IEEE 754 round to
nearest, ties to even), as long as that is a finite number: magnitudes beyond
the largest finite `float64`, which become infinities, are outside this
model.  The program rounds only 64-bit integers and quotients of two of them
with a divisor of at least 1, whose magnitude is at most `2 ^ 63`. -/
def round (q : ℚ) : ℚ := (roundHalfEven (q / ulp q) : ℚ) * ulp q

/-- The conversion `float64(n)` of an `int`. -/
def ofInt (n : Int) : ℚ := round (n : ℚ)

/-- The quotient `a / b` of two `float64` values, for `b` other than 0. -/
def div (a b : ℚ) : ℚ := round (a / b)

end float64

/-! ## Strings -/

/-- Lexicographic comparison of two character sequences by code point. -/
def charsLess : List Char → List Char → Bool
  | _, [] => false
  | [], _ :: _ => true
  | a :: as, b :: bs =>
    if a.toNat < b.toNat then true
    else if b.toNat < a.toNat then false
    else charsLess as bs

/-- Go's `a < b` on strings: lexicographic on the bytes, which for UTF-8 text
is the lexicographic order on the code points. -/
def stringLess (a b : String) : Bool := charsLess a.data b.data

namespace strings

/-- Whether the character sequence `s` begins with the sequence `p`. -/
def startsWith : List Char → List Char → Bool
  | _, [] => true
  | [], _ :: _ => false
  | a :: s, b :: p => if a = b then startsWith s p else false

/-- Whether the sequence `sub` occurs in `s`, searching from the left. -/
def occursIn (sub : List Char) : List Char → Bool
  | [] => startsWith [] sub
  | a :: s => startsWith (a :: s) sub || occursIn sub s

/-- `strings.Contains(s, substr)`.  Go compares bytes; in UTF-8 text the bytes
of `substr` occur in `s` exactly where its code points do. -/
def Contains (s substr : String) : Bool := occursIn substr.data s.data

/-- `strings.ToLower(s)`: every code point is mapped by `unicode.ToLower`,
for which the argument `lower` stands. -/
def ToLower (lower : Char → Char) (s : String) : String := ⟨s.data.map lower⟩

/-- `strings.HasPrefix(s, prefix)`. -/
def HasPrefix (s pre : String) : Bool := startsWith s.data pre.data

/-- `strings.TrimPrefix(s, prefix)`. -/
def TrimPrefix (s pre : String) : String :=
  if HasPrefix s pre then ⟨s.data.drop pre.data.length⟩ else s

end strings

namespace strconv

/-- The number written by a sequence of decimal digits, continuing from
`acc`; `none` if a character is not a digit. -/
def digits : List Char → Nat → Option Nat
  | [], acc => some acc
  | c :: rest, acc =>
    if 48 ≤ c.toNat ∧ c.toNat ≤ 57 then digits rest (10 * acc + (c.toNat - 48)) else none

/-- The digits after the sign of `strconv.Atoi`: at least one digit, and a
value within the range of `int`. -/
def Atoi.magnitude (negative : Bool) (cs : List Char) : Except String Int :=
  match cs with
  | [] => .error "invalid syntax"
  | _ :: _ =>
    match digits cs 0 with
    | none => .error "invalid syntax"
    | some n =>
      if negative then
        if (n : Int) ≤ 2 ^ 63 then .ok (-(n : Int)) else .error "value out of range"
      else
        if (n : Int) ≤ 2 ^ 63 - 1 then .ok (n : Int) else .error "value out of range"

/-- `strconv.Atoi(s)`: an optional sign followed by decimal digits; an error
for anything else and for a value outside the range of `int`. -/
def Atoi (s : String) : Except String Int :=
  match s.data with
  | '-' :: rest => Atoi.magnitude true rest
  | '+' :: rest => Atoi.magnitude false rest
  | cs => Atoi.magnitude false cs

end strconv

/-! ## Go maps -/

/-- A Go `map[string]V`: its entries, one per key. -/
abbrev GoMap (V : Type) := List (String × V)

/-- The comma-ok lookup `v, exists := m[k]`. -/
def mapLookup {V : Type} : GoMap V → String → Option V
  | [], _ => none
  | (k', v) :: rest, k => if k' = k then some v else mapLookup rest k

/-- The assignment `m[k] = v`: replaces the entry of `k` or adds one. -/
def mapStore {V : Type} : GoMap V → String → V → GoMap V
  | [], k, v => [(k, v)]
  | (k', v') :: rest, k, v =>
    if k' = k then (k, v) :: rest else (k', v') :: mapStore rest k v

/-- The statement `delete(m, k)`. -/
def mapDelete {V : Type} (m : GoMap V) (k : String) : GoMap V :=
  m.filter (fun e => decide (e.1 ≠ k))

/-! ## Heap of backing arrays -/

/-- Memory holding the backing arrays of slices with element type `T`,
indexed by address. -/
structure Heap (T : Type) where
  arrays : List (List T)
deriving DecidableEq, Repr

/-- A slice header: the address of the backing array and the length. -/
structure Slice where
  arr : Nat
  len : Nat
deriving DecidableEq, Repr

namespace Heap

variable {T : Type}

/-- The backing array a slice points to. -/
def backing (h : Heap T) (s : Slice) : List T := h.arrays.getD s.arr []

/-- The elements a slice denotes. -/
def cells (h : Heap T) (s : Slice) : List T := (h.backing s).take s.len

/-- The read `s[i]` (only used with `i < len(s)`). -/
def index [Inhabited T] (h : Heap T) (s : Slice) (i : Nat) : T :=
  (h.backing s).getD i default

/-- The write `s[i] = v` (only used with `i < len(s)`). -/
def store (h : Heap T) (s : Slice) (i : Nat) (v : T) : Heap T :=
  ⟨h.arrays.set s.arr ((h.backing s).set i v)⟩

/-- A fresh backing array with the given contents, and the slice over it. -/
def alloc (h : Heap T) (contents : List T) : Heap T × Slice :=
  (⟨h.arrays ++ [contents]⟩, ⟨h.arrays.length, contents.length⟩)

/-- The built-in `make([]T, n)`: a fresh array of `n` zero values. -/
def make [Inhabited T] (h : Heap T) (n : Nat) : Heap T × Slice :=
  h.alloc (List.replicate n default)

/-- The built-in `copy(dst, src)`: the first `min(len(dst), len(src))` elements
of `dst` become those of `src` (read before any element is written). -/
def copy (h : Heap T) (dst src : Slice) : Heap T :=
  let n := min dst.len src.len
  ⟨h.arrays.set dst.arr ((h.cells src).take n ++ (h.backing dst).drop n)⟩

/-- The built-in `append(s, v)` for a slice `s` whose array no other slice
shares: afterwards the array behind `s` holds the elements of `s` followed by
`v`.  (Go may move the elements to a larger array when the capacity is used
up; with no other slice on the array the move cannot be observed.) -/
def append (h : Heap T) (s : Slice) (v : T) : Heap T × Slice :=
  (⟨h.arrays.set s.arr (h.cells s ++ [v])⟩, ⟨s.arr, s.len + 1⟩)

/-- A slice header is valid when its array is allocated and holds at least
`len` elements (`len(s) <= cap(s)`). -/
def Valid (h : Heap T) (s : Slice) : Prop :=
  s.arr < h.arrays.length ∧ s.len ≤ (h.backing s).length

end Heap

/-! ## Package `models` -/

namespace models

/-- The struct `Recipe`. -/
structure Recipe where
  ID : String
  Title : String
  Description : String
  Ingredients : List String
  Instructions : List String
  PrepTime : Int
  CookTime : Int
  Servings : Int
  Tags : List String
  CreatedAt : Int
  UpdatedAt : Int
deriving DecidableEq, Repr

/-- The zero value `Recipe{}`. -/
instance : Inhabited Recipe :=
  ⟨⟨"", "", "", [], [], 0, 0, 0, [], 0, 0⟩⟩

/-- The struct `Rating`. -/
structure Rating where
  ID : String
  RecipeID : String
  UserID : String
  Score : Int
  Comment : String
  CreatedAt : Int
  UpdatedAt : Int
deriving DecidableEq, Repr

/-- The zero value `Rating{}`. -/
instance : Inhabited Rating :=
  ⟨⟨"", "", "", 0, "", 0, 0⟩⟩

/-- The struct `RatingInput`. -/
structure RatingInput where
  Score : Int
  Comment : String
deriving DecidableEq, Repr

/-- `NewRating`; `now` is the value of `time.Now()`. -/
def NewRating (now : Int) (id recipeID userID : String) (input : RatingInput) : Rating :=
  { ID := id
    RecipeID := recipeID
    UserID := userID
    Score := input.Score
    Comment := input.Comment
    CreatedAt := now
    UpdatedAt := now }

/-- `UpdateRating`; `now` is the value of `time.Now()`. -/
def UpdateRating (now : Int) (original : Rating) (input : RatingInput) : Rating :=
  { ID := original.ID
    RecipeID := original.RecipeID
    UserID := original.UserID
    Score := input.Score
    Comment := input.Comment
    CreatedAt := original.CreatedAt
    UpdatedAt := now }

/-- The struct `RecipeInput`. -/
structure RecipeInput where
  Title : String
  Description : String
  Ingredients : List String
  Instructions : List String
  PrepTime : Int
  CookTime : Int
  Servings : Int
  Tags : List String
deriving DecidableEq, Repr

/-- `NewRecipe`; `now` is the value of `time.Now()`. -/
def NewRecipe (now : Int) (id : String) (input : RecipeInput) : Recipe :=
  { ID := id
    Title := input.Title
    Description := input.Description
    Ingredients := input.Ingredients
    Instructions := input.Instructions
    PrepTime := input.PrepTime
    CookTime := input.CookTime
    Servings := input.Servings
    Tags := input.Tags
    CreatedAt := now
    UpdatedAt := now }

/-- `UpdateRecipe`; `now` is the value of `time.Now()`. -/
def UpdateRecipe (now : Int) (original : Recipe) (input : RecipeInput) : Recipe :=
  { ID := original.ID
    Title := input.Title
    Description := input.Description
    Ingredients := input.Ingredients
    Instructions := input.Instructions
    PrepTime := input.PrepTime
    CookTime := input.CookTime
    Servings := input.Servings
    Tags := input.Tags
    CreatedAt := original.CreatedAt
    UpdatedAt := now }

/-- The struct `User`; `Password` holds the hash. -/
structure User where
  ID : String
  Username : String
  Email : String
  Password : String
  Role : String
  CreatedAt : Int
  UpdatedAt : Int
deriving DecidableEq, Repr

/-- The zero value `User{}`. -/
instance : Inhabited User :=
  ⟨⟨"", "", "", "", "", 0, 0⟩⟩

/-- The struct `UserInput`. -/
structure UserInput where
  Username : String
  Email : String
  Password : String
  Role : String
deriving DecidableEq, Repr

/-- `NewUser`; `hash` stands for `bcrypt.GenerateFromPassword` at the default
cost (it may fail) and `now` is the value of `time.Now()`. -/
def NewUser (hash : String → Except String String) (now : Int) (id : String)
    (input : UserInput) : Except String User :=
  match hash input.Password with
  | .error err => .error err
  | .ok hashedPassword =>
    let role := if input.Role = "" then "user" else input.Role
    .ok
      { ID := id
        Username := input.Username
        Email := input.Email
        Password := hashedPassword
        Role := role
        CreatedAt := now
        UpdatedAt := now }

/-- `UpdateUser`; `hash` and `now` as for `NewUser`. -/
def UpdateUser (hash : String → Except String String) (now : Int) (original : User)
    (input : UserInput) : Except String User :=
  let updated := { original with
    Username := input.Username, Email := input.Email, UpdatedAt := now }
  let updated := if input.Role ≠ "" then { updated with Role := input.Role } else updated
  if input.Password ≠ "" then
    match hash input.Password with
    | .error err => .error err
    | .ok hashedPassword => .ok { updated with Password := hashedPassword }
  else .ok updated

/-- `(*User).CheckPassword`; `verify hash password` stands for
`bcrypt.CompareHashAndPassword(hash, password) == nil`. -/
def User.CheckPassword (verify : String → String → Bool) (u : User)
    (password : String) : Bool :=
  verify u.Password password

end models

/-! ## Package `repositories` -/

namespace repositories

open models

/-- The struct `InMemoryRecipeRepository` (the mutex is not modelled). -/
structure InMemoryRecipeRepository where
  recipes : GoMap Recipe
deriving DecidableEq, Repr

/-- The struct `InMemoryRatingRepository` (the mutex is not modelled). -/
structure InMemoryRatingRepository where
  ratings : GoMap Rating
deriving DecidableEq, Repr

/-- The struct `InMemoryUserRepository` (the mutex is not modelled). -/
structure InMemoryUserRepository where
  users : GoMap User
deriving DecidableEq, Repr

namespace InMemoryRecipeRepository

/-- `FindAll`: appends the recipe of every entry the range loop visits;
`iter` is the order in which the loop visits `r.recipes`. -/
def FindAll (iter : GoMap Recipe) : List Recipe :=
  iter.foldl (fun result e => result ++ [e.2]) []

/-- `FindByID`. -/
def FindByID (r : InMemoryRecipeRepository) (id : String) : Except String Recipe :=
  match mapLookup r.recipes id with
  | none => .error "recipe not found"
  | some recipe => .ok recipe

/-- `Create`; `now` and `id` are the values of `time.Now()` and
`uuid.New().String()`. -/
def Create (r : InMemoryRecipeRepository) (now : Int) (id : String)
    (input : RecipeInput) : Recipe × InMemoryRecipeRepository :=
  let recipe := NewRecipe now id input
  (recipe, ⟨mapStore r.recipes id recipe⟩)

/-- `Update`. -/
def Update (r : InMemoryRecipeRepository) (now : Int) (id : String)
    (input : RecipeInput) : Except String Recipe × InMemoryRecipeRepository :=
  match mapLookup r.recipes id with
  | none => (.error "recipe not found", r)
  | some original =>
    let updated := UpdateRecipe now original input
    (.ok updated, ⟨mapStore r.recipes id updated⟩)

/-- `Delete`; the result is the returned `error` (`none` for `nil`). -/
def Delete (r : InMemoryRecipeRepository) (id : String) :
    Option String × InMemoryRecipeRepository :=
  match mapLookup r.recipes id with
  | none => (some "recipe not found", r)
  | some _ => (none, ⟨mapDelete r.recipes id⟩)

end InMemoryRecipeRepository

namespace InMemoryRatingRepository

/-- `FindAll`: appends the rating of every entry the range loop visits;
`iter` is the order in which the loop visits `r.ratings`. -/
def FindAll (iter : GoMap Rating) : List Rating :=
  iter.foldl (fun result e => result ++ [e.2]) []

/-- `FindByID`. -/
def FindByID (r : InMemoryRatingRepository) (id : String) : Except String Rating :=
  match mapLookup r.ratings id with
  | none => .error "rating not found"
  | some rating => .ok rating

/-- `FindByRecipeID`; `iter` is the order in which the loop visits `r.ratings`. -/
def FindByRecipeID (iter : GoMap Rating) (recipeID : String) : List Rating :=
  iter.foldl
    (fun result e => if e.2.RecipeID = recipeID then result ++ [e.2] else result) []

/-- `Create`; `id` is the value of `uuid.New().String()`. -/
def Create (r : InMemoryRatingRepository) (now : Int) (id : String)
    (recipeID userID : String) (input : RatingInput) :
    Rating × InMemoryRatingRepository :=
  let rating := NewRating now id recipeID userID input
  (rating, ⟨mapStore r.ratings id rating⟩)

/-- `Update`. -/
def Update (r : InMemoryRatingRepository) (now : Int) (id : String)
    (input : RatingInput) : Except String Rating × InMemoryRatingRepository :=
  match mapLookup r.ratings id with
  | none => (.error "rating not found", r)
  | some original =>
    let updated := UpdateRating now original input
    (.ok updated, ⟨mapStore r.ratings id updated⟩)

/-- `Delete`; the result is the returned `error` (`none` for `nil`). -/
def Delete (r : InMemoryRatingRepository) (id : String) :
    Option String × InMemoryRatingRepository :=
  match mapLookup r.ratings id with
  | none => (some "rating not found", r)
  | some _ => (none, ⟨mapDelete r.ratings id⟩)

end InMemoryRatingRepository

namespace InMemoryUserRepository

/-- `FindAll`: appends the user of every entry the range loop visits;
`iter` is the order in which the loop visits `r.users`. -/
def FindAll (iter : GoMap User) : List User :=
  iter.foldl (fun result e => result ++ [e.2]) []

/-- `FindByID`. -/
def FindByID (r : InMemoryUserRepository) (id : String) : Except String User :=
  match mapLookup r.users id with
  | none => .error "user not found"
  | some user => .ok user

/-- `FindByUsername`; `iter` is the order in which the loop visits the users. -/
def FindByUsername (iter : GoMap User) (username : String) : Except String User :=
  match iter with
  | [] => .error "user not found"
  | (_, user) :: rest =>
    if user.Username = username then .ok user else FindByUsername rest username

/-- The loop of `Create` over the entries in visiting order: the error of the
first user that has the input's username or e-mail address, if any. -/
def Create.scan (input : UserInput) : GoMap User → Option String
  | [] => none
  | (_, user) :: rest =>
    if user.Username = input.Username then some "username already exists"
    else if user.Email = input.Email then some "email already exists"
    else Create.scan input rest

/-- `Create`; `iter` is the order in which the loop visits `r.users`, `hash`
stands for bcrypt, `now` and `id` are the values of `time.Now()` and
`uuid.New().String()`. -/
def Create (r : InMemoryUserRepository) (iter : GoMap User)
    (hash : String → Except String String) (now : Int) (id : String)
    (input : UserInput) : Except String User × InMemoryUserRepository :=
  match Create.scan input iter with
  | some err => (.error err, r)
  | none =>
    match NewUser hash now id input with
    | .error err => (.error err, r)
    | .ok user => (.ok user, ⟨mapStore r.users id user⟩)

/-- The first loop of `Update`: some other user has the username. -/
def Update.usernameTaken (id username : String) : GoMap User → Bool
  | [] => false
  | (_, user) :: rest =>
    if user.ID ≠ id ∧ user.Username = username then true
    else Update.usernameTaken id username rest

/-- The second loop of `Update`: some other user has the e-mail address. -/
def Update.emailTaken (id email : String) : GoMap User → Bool
  | [] => false
  | (_, user) :: rest =>
    if user.ID ≠ id ∧ user.Email = email then true
    else Update.emailTaken id email rest

/-- `Update`; `iterU` and `iterE` are the orders in which the two loops visit
`r.users`. -/
def Update (r : InMemoryUserRepository) (iterU iterE : GoMap User)
    (hash : String → Except String String) (now : Int) (id : String)
    (input : UserInput) : Except String User × InMemoryUserRepository :=
  match mapLookup r.users id with
  | none => (.error "user not found", r)
  | some original =>
    if input.Username ≠ original.Username ∧ Update.usernameTaken id input.Username iterU then
      (.error "username already exists", r)
    else if input.Email ≠ original.Email ∧ Update.emailTaken id input.Email iterE then
      (.error "email already exists", r)
    else
      match UpdateUser hash now original input with
      | .error err => (.error err, r)
      | .ok updated => (.ok updated, ⟨mapStore r.users id updated⟩)

/-- `Delete`; the result is the returned `error` (`none` for `nil`). -/
def Delete (r : InMemoryUserRepository) (id : String) :
    Option String × InMemoryUserRepository :=
  match mapLookup r.users id with
  | none => (some "user not found", r)
  | some _ => (none, ⟨mapDelete r.users id⟩)

end InMemoryUserRepository

end repositories

/-! ## Package `services` -/

namespace services

open models repositories

/-- The assignment `items[i], items[j] = items[j], items[i]`. -/
def swap {T : Type} [Inhabited T] (h : Heap T) (items : Slice) (i j : Nat) : Heap T :=
  let a := h.index items i
  let b := h.index items j
  (h.store items i b).store items j a

/-- The inner loop of `Sort` for a fixed `i`: `j` runs from `i + 1` to `n - 1`. -/
def sortInner {T : Type} [Inhabited T] (items : Slice)
    (less : Heap T → Nat → Nat → Bool) (i : Nat) (h : Heap T) : Heap T :=
  (List.range' (i + 1) (items.len - (i + 1))).foldl
    (fun h j => if less h j i then swap h items i j else h) h

/-- The generic `Sort` (the name is reserved in Lean, hence `SortSlice`): sorts
the slice `items` in place.  The closure `less` is evaluated in the memory as
it is at the time of the call. -/
def SortSlice {T : Type} [Inhabited T] (h : Heap T) (items : Slice)
    (less : Heap T → Nat → Nat → Bool) : Heap T :=
  (List.range items.len).foldl (fun h i => sortInner items less i h) h

/-- The type `SortBy`. -/
abbrev SortBy := String

/-- The constant `SortByPrepTime`. -/
def SortByPrepTime : SortBy := "prepTime"
/-- The constant `SortByCookTime`. -/
def SortByCookTime : SortBy := "cookTime"
/-- The constant `SortByTotalTime`. -/
def SortByTotalTime : SortBy := "totalTime"
/-- The constant `SortByTitle`. -/
def SortByTitle : SortBy := "title"
/-- The constant `SortByServings`. -/
def SortByServings : SortBy := "servings"

/-- The closure `less` of `SortRecipes`: it captures `criteria`, `ascending`
and the slice variable `allRecipes`, and reads `allRecipes[i]`, `allRecipes[j]`. -/
def SortRecipes.less (criteria : SortBy) (ascending : Bool) (allRecipes : Slice)
    (h : Heap Recipe) (i j : Nat) : Bool :=
  let ri := h.index allRecipes i
  let rj := h.index allRecipes j
  if criteria = SortByPrepTime then
    if ascending then decide (ri.PrepTime < rj.PrepTime)
    else decide (ri.PrepTime > rj.PrepTime)
  else if criteria = SortByCookTime then
    if ascending then decide (ri.CookTime < rj.CookTime)
    else decide (ri.CookTime > rj.CookTime)
  else if criteria = SortByTotalTime then
    let totalTimeI := wrap64 (ri.PrepTime + ri.CookTime)
    let totalTimeJ := wrap64 (rj.PrepTime + rj.CookTime)
    if ascending then decide (totalTimeI < totalTimeJ)
    else decide (totalTimeI > totalTimeJ)
  else if criteria = SortByTitle then
    if ascending then stringLess ri.Title rj.Title
    else stringLess rj.Title ri.Title
  else if criteria = SortByServings then
    if ascending then decide (ri.Servings < rj.Servings)
    else decide (ri.Servings > rj.Servings)
  else
    if ascending then stringLess ri.Title rj.Title
    else stringLess rj.Title ri.Title

/-- The process state a call of `SortRecipes` runs in: the recipe repository
behind the service and the memory of recipe slices. -/
structure World where
  repository : InMemoryRecipeRepository
  heap : Heap Recipe
deriving DecidableEq, Repr

/-- The state at the `return` of `SortRecipes`, with its two slice variables. -/
structure SortRecipesFrame where
  world : World
  allRecipes : Slice
  result : Slice
deriving DecidableEq, Repr

/-- The body of `RecipeService.SortRecipes`; `iter` is the order in which
`FindAll` visits the repository map during this call. -/
def SortRecipes.run (w : World) (iter : GoMap Recipe) (criteria : SortBy)
    (ascending : Bool) : SortRecipesFrame :=
  let (h1, allRecipes) := w.heap.alloc (InMemoryRecipeRepository.FindAll iter)
  let (h2, result) := h1.make allRecipes.len
  let h3 := h2.copy result allRecipes
  let h4 := SortSlice h3 result (SortRecipes.less criteria ascending allRecipes)
  ⟨⟨w.repository, h4⟩, allRecipes, result⟩

/-- The sequence `RecipeService.SortRecipes` returns. -/
def SortRecipes (w : World) (iter : GoMap Recipe) (criteria : SortBy)
    (ascending : Bool) : List Recipe :=
  let f := SortRecipes.run w iter criteria ascending
  f.world.heap.cells f.result

/-- `RecipeService.GetAllRecipes`; `iter` is the order in which `FindAll`
visits the repository map. -/
def RecipeService.GetAllRecipes (iter : GoMap Recipe) : List Recipe :=
  InMemoryRecipeRepository.FindAll iter

/-- `RecipeService.GetRecipeByID`. -/
def RecipeService.GetRecipeByID (r : InMemoryRecipeRepository) (id : String) :
    Except String Recipe :=
  r.FindByID id

/-- `SearchService.GetPaginatedRecipes`.  The slice expression
`allRecipes[start:end]` panics unless `0 <= start <= end <= cap(allRecipes)`;
the slice built by `FindAll` has capacity equal to its length. -/
def GetPaginatedRecipes (iter : GoMap Recipe) (page pageSize : Int) :
    Option (List Recipe) :=
  let allRecipes := RecipeService.GetAllRecipes iter
  let len : Int := allRecipes.length
  let start := wrap64 (wrap64 (page - 1) * pageSize)
  let endIdx := wrap64 (start + pageSize)
  if start ≥ len then some []
  else
    let endIdx := if endIdx > len then len else endIdx
    if 0 ≤ start ∧ start ≤ endIdx ∧ endIdx ≤ len then
      some ((allRecipes.drop start.toNat).take (endIdx - start).toNat)
    else none

/-- The message of the error `UpdateRating` and `DeleteRating` return for a
rating of another user. -/
def errUnauthorized : String := "unauthorized: rating belongs to another user"

/-- The message of the error of the rating repository for an absent id. -/
def errRatingNotFound : String := "rating not found"

/-- `RatingService.CreateRating`; `now` and `id` are the values of
`time.Now()` and `uuid.New().String()`. -/
def RatingService.CreateRating (recipes : InMemoryRecipeRepository)
    (r : InMemoryRatingRepository) (now : Int) (id : String)
    (recipeID userID : String) (input : RatingInput) :
    Except String Rating × InMemoryRatingRepository :=
  match RecipeService.GetRecipeByID recipes recipeID with
  | .error err => (.error err, r)
  | .ok _ =>
    let (rating, r') := r.Create now id recipeID userID input
    (.ok rating, r')

/-- `RatingService.UpdateRating`. -/
def RatingService.UpdateRating (r : InMemoryRatingRepository) (now : Int)
    (id userID : String) (input : RatingInput) :
    Except String Rating × InMemoryRatingRepository :=
  match r.FindByID id with
  | .error err => (.error err, r)
  | .ok rating =>
    if rating.UserID ≠ userID then (.error errUnauthorized, r)
    else r.Update now id input

/-- `RatingService.DeleteRating`; the first component is the returned `error`
(`none` for `nil`). -/
def RatingService.DeleteRating (r : InMemoryRatingRepository)
    (id userID : String) : Option String × InMemoryRatingRepository :=
  match r.FindByID id with
  | .error err => (some err, r)
  | .ok rating =>
    if rating.UserID ≠ userID then (some errUnauthorized, r)
    else r.Delete id

/-- The loop `for _, rating := range ratings { total += rating.Score }`. -/
def sumScores (ratings : List Rating) : Int :=
  ratings.foldl (fun total rating => wrap64 (total + rating.Score)) 0

/-- `RatingService.GetAverageRatingForRecipe`; `iter` is the order in which
`FindByRecipeID` visits the rating map.  The result is the `float64`
`float64(total) / float64(len(ratings))`: both conversions and the division
round to the nearest `float64`. -/
def GetAverageRatingForRecipe (iter : GoMap Rating) (recipeID : String) : ℚ :=
  let ratings := InMemoryRatingRepository.FindByRecipeID iter recipeID
  if ratings.length = 0 then 0
  else
    let total := sumScores ratings
    float64.div (float64.ofInt total) (float64.ofInt (ratings.length : Int))

/-- `RecipeService.CreateRecipe`. -/
def RecipeService.CreateRecipe (r : InMemoryRecipeRepository) (now : Int) (id : String)
    (input : RecipeInput) : Recipe × InMemoryRecipeRepository :=
  r.Create now id input

/-- `RecipeService.UpdateRecipe`. -/
def RecipeService.UpdateRecipe (r : InMemoryRecipeRepository) (now : Int) (id : String)
    (input : RecipeInput) : Except String Recipe × InMemoryRecipeRepository :=
  r.Update now id input

/-- `RecipeService.DeleteRecipe`. -/
def RecipeService.DeleteRecipe (r : InMemoryRecipeRepository) (id : String) :
    Option String × InMemoryRecipeRepository :=
  r.Delete id

/-- `RatingService.GetRatingByID`. -/
def RatingService.GetRatingByID (r : InMemoryRatingRepository) (id : String) :
    Except String Rating :=
  r.FindByID id

/-- `RatingService.GetRatingsByRecipeID`; `iter` is the order in which
`FindByRecipeID` visits the rating map. -/
def RatingService.GetRatingsByRecipeID (iter : GoMap Rating) (recipeID : String) :
    List Rating :=
  InMemoryRatingRepository.FindByRecipeID iter recipeID

/-- `UserService.CreateUser`. -/
def UserService.CreateUser (r : InMemoryUserRepository) (iter : GoMap User)
    (hash : String → Except String String) (now : Int) (id : String)
    (input : UserInput) : Except String User × InMemoryUserRepository :=
  r.Create iter hash now id input

/-- `UserService.UpdateUser`. -/
def UserService.UpdateUser (r : InMemoryUserRepository) (iterU iterE : GoMap User)
    (hash : String → Except String String) (now : Int) (id : String)
    (input : UserInput) : Except String User × InMemoryUserRepository :=
  r.Update iterU iterE hash now id input

/-- `UserService.DeleteUser`. -/
def UserService.DeleteUser (r : InMemoryUserRepository) (id : String) :
    Option String × InMemoryUserRepository :=
  r.Delete id

/-- The generic `Contains`: the loop returns at the first element that is
`==` to `item`. -/
def Contains {T : Type} [DecidableEq T] : List T → T → Bool
  | [], _ => false
  | i :: rest, item => if i = item then true else Contains rest item

/-- The generic `Filter` on slices in memory: `result` starts as a fresh
empty slice (`make([]T, 0)`), the loop reads `items[i]` and appends it to
`result` when the predicate holds.  The value is the memory afterwards and
the header of `result`. -/
def Filter.run {T : Type} [Inhabited T] (h : Heap T) (items : Slice)
    (predicate : T → Bool) : Heap T × Slice :=
  (List.range items.len).foldl
    (fun (st : Heap T × Slice) i =>
      let item := st.1.index items i
      if predicate item then st.1.append st.2 item else st)
    (h.make 0)

/-- The elements of the slice that `Filter` returns when it is called with a
slice that holds `items`. -/
def Filter {T : Type} [Inhabited T] (items : List T) (predicate : T → Bool) : List T :=
  let (h, s) := (⟨[]⟩ : Heap T).alloc items
  let (h', result) := Filter.run h s predicate
  h'.cells result

/-- `RecipeService.FilterRecipesByTag`; `iter` is the order in which
`FindAll` visits the recipe map. -/
def RecipeService.FilterRecipesByTag (iter : GoMap Recipe) (tag : String) : List Recipe :=
  let allRecipes := InMemoryRecipeRepository.FindAll iter
  Filter allRecipes (fun recipe => Contains recipe.Tags tag)

/-- The predicate of `SearchByIngredient`: the loop over the ingredients
returns at the first one whose lower-cased text contains the lower-cased
query. -/
def SearchService.SearchByIngredient.anyIngredient (lower : Char → Char)
    (ingredient : String) : List String → Bool
  | [] => false
  | ing :: rest =>
    if strings.Contains (strings.ToLower lower ing) (strings.ToLower lower ingredient) then true
    else SearchService.SearchByIngredient.anyIngredient lower ingredient rest

/-- `SearchService.SearchByIngredient`. -/
def SearchService.SearchByIngredient (lower : Char → Char) (iter : GoMap Recipe)
    (ingredient : String) : List Recipe :=
  let allRecipes := RecipeService.GetAllRecipes iter
  Filter allRecipes (fun recipe =>
    SearchService.SearchByIngredient.anyIngredient lower ingredient recipe.Ingredients)

/-- `SearchService.SearchByTag`. -/
def SearchService.SearchByTag (iter : GoMap Recipe) (tag : String) : List Recipe :=
  RecipeService.FilterRecipesByTag iter tag

/-- `SearchService.SearchByTitle`. -/
def SearchService.SearchByTitle (lower : Char → Char) (iter : GoMap Recipe)
    (title : String) : List Recipe :=
  let allRecipes := RecipeService.GetAllRecipes iter
  Filter allRecipes (fun recipe =>
    strings.Contains (strings.ToLower lower recipe.Title) (strings.ToLower lower title))

/-- `TokenClaims`: of the embedded `jwt.RegisteredClaims` the two dates that
`Authenticate` sets, then the user id and the role.  Instants are whole
seconds, the precision of the dates a token carries. -/
structure TokenClaims where
  ExpiresAt : Int
  IssuedAt : Int
  UserID : String
  Role : String
deriving DecidableEq, Repr

/-- The signing key `jwtSecret`. -/
def jwtSecret : String := "your-secret-key"

/-- `time.Hour`, in seconds. -/
def Hour : Int := 3600

/-- The two entry points of the library `github.com/golang-jwt/jwt/v4` that
the user service calls.  The library is outside the repository, so its
behaviour is an argument of the functions that call it. -/
structure JWT where
  /-- The call `jwt.NewWithClaims(jwt.SigningMethodHS256, claims).SignedString(key)`. -/
  SignedString : String → TokenClaims → Except String String
  /-- The call `jwt.ParseWithClaims(tokenString, &TokenClaims{}, keyFunc)` made
  at the instant `now` with a `keyFunc` that returns `key`: the error, or
  else `token.Valid` and the claims of the token. -/
  ParseWithClaims : String → Int → String → Except String (Bool × TokenClaims)

/-- `UserService.Authenticate`: the returned token and error (`none` for
`nil`), and the user store afterwards.  `iter` is the order in which
`FindByUsername` visits the users, `now1` and `now2` are the two readings of
`time.Now()`. -/
def UserService.Authenticate (lib : JWT) (verify : String → String → Bool)
    (r : InMemoryUserRepository) (iter : GoMap User) (now1 now2 : Int)
    (username password : String) : (String × Option String) × InMemoryUserRepository :=
  match InMemoryUserRepository.FindByUsername iter username with
  | .error _ => (("", some "invalid credentials"), r)
  | .ok user =>
    if !user.CheckPassword verify password then (("", some "invalid credentials"), r)
    else
      let claims : TokenClaims :=
        { ExpiresAt := now1 + 24 * Hour, IssuedAt := now2, UserID := user.ID, Role := user.Role }
      match lib.SignedString jwtSecret claims with
      | .error err => (("", some err), r)
      | .ok tokenString => ((tokenString, none), r)

/-- `UserService.ValidateToken` at the instant `now`.  The type assertion
`token.Claims.(*TokenClaims)` holds of every token that `ParseWithClaims`
returns, because the claims object it fills is the `&TokenClaims{}` passed in. -/
def UserService.ValidateToken (lib : JWT) (now : Int) (tokenString : String) :
    Except String TokenClaims :=
  match lib.ParseWithClaims jwtSecret now tokenString with
  | .error err => .error err
  | .ok (valid, claims) =>
    if !valid then .error "invalid token" else .ok claims

/-- Modelled from the spec: the behaviour of the JWT library
`github.com/golang-jwt/jwt/v4`, whose code is not part of the repository.
The spec says that a token is signed and carries its claims, that it is
verified "using the process-wide signing secret", that validation fails "if
signature invalid, malformed, or expired", and that on success it returns
"the embedded identifier and role".  So: a token signed with a key parses
under that key to its own claims, as valid, from the instant it was issued
until its expiry; it does not parse once it has expired; and a string parses
under a key only if it is a token signed with that key. -/
def JWT.Faithful (lib : JWT) : Prop :=
  (∀ key claims token now, lib.SignedString key claims = .ok token →
    claims.IssuedAt ≤ now → now < claims.ExpiresAt →
    lib.ParseWithClaims key now token = .ok (true, claims)) ∧
  (∀ key claims token now, lib.SignedString key claims = .ok token →
    claims.ExpiresAt ≤ now → ∃ err, lib.ParseWithClaims key now token = .error err) ∧
  (∀ key now token parsed, lib.ParseWithClaims key now token = .ok parsed →
    ∃ claims, lib.SignedString key claims = .ok token)

/-- The three repositories that `main` creates and hands to the services:
the recipe service holds `recipeRepo` only, the rating service holds
`ratingRepo` and the recipe service, the user service holds `userRepo`. -/
structure System where
  userRepo : InMemoryUserRepository
  recipeRepo : InMemoryRecipeRepository
  ratingRepo : InMemoryRatingRepository
deriving DecidableEq, Repr

/-- A call of `recipeService.DeleteRecipe` in the system wired by `main`. -/
def System.DeleteRecipe (s : System) (id : String) : Option String × System :=
  let (err, repo) := RecipeService.DeleteRecipe s.recipeRepo id
  (err, { s with recipeRepo := repo })

/-- A call of `ratingService.CreateRating` in the system wired by `main`. -/
def System.CreateRating (s : System) (now : Int) (id : String)
    (recipeID userID : String) (input : RatingInput) : Except String Rating × System :=
  let (res, repo) := RatingService.CreateRating s.recipeRepo s.ratingRepo now id
    recipeID userID input
  (res, { s with ratingRepo := repo })

end services

/-! ## Package `middleware` -/

namespace middleware

open services

/-- `ContextKey`. -/
abbrev ContextKey := String

/-- `UserIDKey`. -/
def UserIDKey : ContextKey := "userID"

/-- `UserRoleKey`. -/
def UserRoleKey : ContextKey := "userRole"

/-- A `context.Context` whose values are strings: the bindings, latest first. -/
structure Context where
  bindings : List (ContextKey × String) := []
deriving DecidableEq, Repr

/-- `context.WithValue(ctx, key, val)`. -/
def Context.WithValue (ctx : Context) (key : ContextKey) (val : String) : Context :=
  ⟨(key, val) :: ctx.bindings⟩

/-- `ctx.Value(key)`: the latest binding of the key. -/
def Context.Value (ctx : Context) (key : ContextKey) : Option String :=
  mapLookup ctx.bindings key

/-- What a handler reads of an `*http.Request`. -/
structure Request where
  Method : String := ""
  Path : String := ""
  Header : GoMap String := []
  Body : String := ""
  ctx : Context := {}
  /-- The parameters of the query string, `r.URL.Query()`. -/
  Query : GoMap String := []
  /-- The route variables, `mux.Vars(r)`; the router sets them. -/
  Vars : GoMap String := []
deriving DecidableEq, Repr

/-- `r.Header.Get(key)`: the value of the header, `""` when it is absent. -/
def Request.HeaderGet (r : Request) (key : String) : String :=
  (mapLookup r.Header key).getD ""

/-- `r.URL.Query().Get(key)`: the value of the parameter, `""` when it is absent. -/
def Request.QueryGet (r : Request) (key : String) : String :=
  (mapLookup r.Query key).getD ""

/-- `mux.Vars(r)[key]`: the value of the route variable, `""` when the map has
no such key. -/
def Request.VarsGet (r : Request) (key : String) : String :=
  (mapLookup r.Vars key).getD ""

/-- What a middleware does with a request: it answers by itself
(`http.Error(w, message, code)`), or it calls the next handler, once, with a
request (`next.ServeHTTP(w, r)`). -/
inductive Action
  | respond (code : Int) (message : String)
  | next (r : Request)
deriving DecidableEq, Repr

/-- `AuthMiddleware(userService)(next)` serving the request `r` at the
instant `now`. -/
def AuthMiddleware (lib : JWT) (now : Int) (r : Request) : Action :=
  let authorization := r.HeaderGet "Authorization"
  if authorization = "" then .respond 401 "Unauthorized"
  else if !strings.HasPrefix authorization "Bearer " then
    .respond 401 "Invalid authorization format"
  else
    let token := strings.TrimPrefix authorization "Bearer "
    match UserService.ValidateToken lib now token with
    | .error _ => .respond 401 "Invalid token"
    | .ok claims =>
      let ctx := r.ctx.WithValue UserIDKey claims.UserID
      let ctx := ctx.WithValue UserRoleKey claims.Role
      .next { r with ctx := ctx }

end middleware

/-! ## Package `handlers` -/

namespace handlers

open models repositories services middleware

/-- What a handler writes: the payload it hands to `respondWithJSON` (an error
message stands for `map[string]string{"error": message}`), or the text of
`http.Error`. -/
inductive Payload
  | error (message : String)
  | recipe (recipe : Recipe)
  | recipes (recipes : List Recipe)
  | rating (rating : Rating)
  | ratings (ratings : List Rating)
  | average (average : ℚ)
  | null
  | text (message : String)
deriving DecidableEq

/-- The status code and the payload of a response. -/
structure Response where
  code : Int
  payload : Payload
deriving DecidableEq

/-- `respondWithJSON`; `json.Marshal` does not fail on the payloads above. -/
def respondWithJSON (code : Int) (payload : Payload) : Response := ⟨code, payload⟩

/-- `respondWithError`. -/
def respondWithError (code : Int) (message : String) : Response :=
  respondWithJSON code (.error message)

/-- What serving a request reads besides the request and the stores: the JWT
library, the clock, the next identifier of `uuid.New()`, the JSON decoders
`json.NewDecoder(r.Body).Decode(&input)` for the two input types, and the
orders in which a `range` loop visits the recipe map and the rating map. -/
structure Env where
  lib : JWT
  now : Int
  id : String
  decodeRecipe : String → Except String RecipeInput
  decodeRating : String → Except String RatingInput
  orderRecipes : GoMap Recipe → GoMap Recipe
  orderRatings : GoMap Rating → GoMap Rating

/-- `RecipeHandler.GetAllRecipes`. -/
def RecipeHandler.GetAllRecipes (env : Env) (s : System) (_r : Request) : Response × System :=
  let recipes := RecipeService.GetAllRecipes (env.orderRecipes s.recipeRepo.recipes)
  (respondWithJSON 200 (.recipes recipes), s)

/-- `RecipeHandler.GetRecipeByID`. -/
def RecipeHandler.GetRecipeByID (_env : Env) (s : System) (r : Request) : Response × System :=
  let id := r.VarsGet "id"
  match RecipeService.GetRecipeByID s.recipeRepo id with
  | .error _ => (respondWithError 404 "Recipe not found", s)
  | .ok recipe => (respondWithJSON 200 (.recipe recipe), s)

/-- `RecipeHandler.CreateRecipe`. -/
def RecipeHandler.CreateRecipe (env : Env) (s : System) (r : Request) : Response × System :=
  match env.decodeRecipe r.Body with
  | .error _ => (respondWithError 400 "Invalid request payload", s)
  | .ok input =>
    let (recipe, repo) := RecipeService.CreateRecipe s.recipeRepo env.now env.id input
    (respondWithJSON 201 (.recipe recipe), { s with recipeRepo := repo })

/-- `RecipeHandler.UpdateRecipe`. -/
def RecipeHandler.UpdateRecipe (env : Env) (s : System) (r : Request) : Response × System :=
  let id := r.VarsGet "id"
  match env.decodeRecipe r.Body with
  | .error _ => (respondWithError 400 "Invalid request payload", s)
  | .ok input =>
    match RecipeService.UpdateRecipe s.recipeRepo env.now id input with
    | (.error _, repo) => (respondWithError 404 "Recipe not found", { s with recipeRepo := repo })
    | (.ok recipe, repo) => (respondWithJSON 200 (.recipe recipe), { s with recipeRepo := repo })

/-- `RecipeHandler.DeleteRecipe`. -/
def RecipeHandler.DeleteRecipe (_env : Env) (s : System) (r : Request) : Response × System :=
  let id := r.VarsGet "id"
  match RecipeService.DeleteRecipe s.recipeRepo id with
  | (some _, repo) => (respondWithError 404 "Recipe not found", { s with recipeRepo := repo })
  | (none, repo) => (respondWithJSON 204 .null, { s with recipeRepo := repo })

/-- `RatingHandler.GetRatingsByRecipeID`. -/
def RatingHandler.GetRatingsByRecipeID (env : Env) (s : System) (r : Request) :
    Response × System :=
  let recipeID := r.VarsGet "recipeId"
  let ratings := RatingService.GetRatingsByRecipeID (env.orderRatings s.ratingRepo.ratings)
    recipeID
  (respondWithJSON 200 (.ratings ratings), s)

/-- `RatingHandler.GetAverageRatingForRecipe`. -/
def RatingHandler.GetAverageRatingForRecipe (env : Env) (s : System) (r : Request) :
    Response × System :=
  let recipeID := r.VarsGet "recipeId"
  let average := services.GetAverageRatingForRecipe (env.orderRatings s.ratingRepo.ratings)
    recipeID
  (respondWithJSON 200 (.average average), s)

/-- `RatingHandler.CreateRating`. -/
def RatingHandler.CreateRating (env : Env) (s : System) (r : Request) : Response × System :=
  let recipeID := r.VarsGet "recipeId"
  match r.ctx.Value UserIDKey with
  | none => (respondWithError 401 "Unauthorized", s)
  | some userID =>
    match env.decodeRating r.Body with
    | .error _ => (respondWithError 400 "Invalid request payload", s)
    | .ok input =>
      if input.Score < 1 ∨ input.Score > 5 then
        (respondWithError 400 "Rating score must be between 1 and 5", s)
      else
        match RatingService.CreateRating s.recipeRepo s.ratingRepo env.now env.id recipeID
            userID input with
        | (.error err, repo) => (respondWithError 400 err, { s with ratingRepo := repo })
        | (.ok rating, repo) =>
          (respondWithJSON 201 (.rating rating), { s with ratingRepo := repo })

/-- `RatingHandler.UpdateRating`. -/
def RatingHandler.UpdateRating (env : Env) (s : System) (r : Request) : Response × System :=
  let id := r.VarsGet "id"
  match r.ctx.Value UserIDKey with
  | none => (respondWithError 401 "Unauthorized", s)
  | some userID =>
    match env.decodeRating r.Body with
    | .error _ => (respondWithError 400 "Invalid request payload", s)
    | .ok input =>
      if input.Score < 1 ∨ input.Score > 5 then
        (respondWithError 400 "Rating score must be between 1 and 5", s)
      else
        match RatingService.UpdateRating s.ratingRepo env.now id userID input with
        | (.error err, repo) => (respondWithError 400 err, { s with ratingRepo := repo })
        | (.ok rating, repo) =>
          (respondWithJSON 200 (.rating rating), { s with ratingRepo := repo })

/-- `RatingHandler.DeleteRating`. -/
def RatingHandler.DeleteRating (_env : Env) (s : System) (r : Request) : Response × System :=
  let id := r.VarsGet "id"
  match r.ctx.Value UserIDKey with
  | none => (respondWithError 401 "Unauthorized", s)
  | some userID =>
    match RatingService.DeleteRating s.ratingRepo id userID with
    | (some err, repo) => (respondWithError 400 err, { s with ratingRepo := repo })
    | (none, repo) => (respondWithJSON 204 .null, { s with ratingRepo := repo })

/-- `SearchHandler.GetPaginatedRecipes`; `none` is a panic of the service call. -/
def SearchHandler.GetPaginatedRecipes (env : Env) (s : System) (r : Request) :
    Option (Response × System) :=
  let pageParam := r.QueryGet "page"
  let pageResult : Except Response Int :=
    if pageParam ≠ "" then
      match strconv.Atoi pageParam with
      | .error _ => .error (respondWithError 400 "Invalid page parameter")
      | .ok pageVal =>
        if pageVal < 1 then .error (respondWithError 400 "Invalid page parameter")
        else .ok pageVal
    else .ok 1
  match pageResult with
  | .error response => some (response, s)
  | .ok page =>
    let pageSizeParam := r.QueryGet "pageSize"
    let pageSizeResult : Except Response Int :=
      if pageSizeParam ≠ "" then
        match strconv.Atoi pageSizeParam with
        | .error _ => .error (respondWithError 400 "Invalid pageSize parameter")
        | .ok pageSizeVal =>
          if pageSizeVal < 1 ∨ pageSizeVal > 100 then
            .error (respondWithError 400 "Invalid pageSize parameter")
          else .ok pageSizeVal
      else .ok 10
    match pageSizeResult with
    | .error response => some (response, s)
    | .ok pageSize =>
      match services.GetPaginatedRecipes (env.orderRecipes s.recipeRepo.recipes) page
          pageSize with
      | none => none
      | some recipes => some (respondWithJSON 200 (.recipes recipes), s)

end handlers

/-! ## The router -/

namespace mux

/-- A piece of a path template between two slashes: literal text, or a
variable `{name}`, which stands for one or more characters other than `/`. -/
inductive Segment
  | lit (text : String)
  | var (name : String)
deriving DecidableEq, Repr

/-- The pieces of a character sequence between its slashes. -/
def splitChars : List Char → List (List Char)
  | [] => [[]]
  | c :: rest =>
    if c = '/' then [] :: splitChars rest
    else
      match splitChars rest with
      | [] => [[c]]
      | seg :: segs => (c :: seg) :: segs

/-- The segments of a request path, which begins with a slash:
`"/api/recipes/7"` has the segments `api`, `recipes`, `7`, and a path that
ends in a slash has an empty last segment. -/
def segments (path : String) : Option (List String) :=
  match splitChars path.data with
  | [] :: rest => some (rest.map String.mk)
  | _ => none

/-- Matching a path against a template, segment by segment; the result is
the value of every variable, as `mux.Vars` reports them. -/
def matchTemplate : List Segment → List String → Option (GoMap String)
  | [], [] => some []
  | .lit text :: template, seg :: segs =>
    if seg = text then matchTemplate template segs else none
  | .var name :: template, seg :: segs =>
    if seg ≠ "" then
      match matchTemplate template segs with
      | some vars => some ((name, seg) :: vars)
      | none => none
    else none
  | _, _ => none

/-- A registered route: the full path template (the prefixes of the
subrouters included), the method of `Methods(...)`, whether the subrouter
uses `AuthMiddleware`, and the handler. -/
structure Route (H : Type) where
  template : List Segment
  method : String
  auth : Bool
  handler : H
deriving DecidableEq, Repr

/-- Whether a route matches a request. -/
def Route.accepts {H : Type} (method : String) (segs : List String) (route : Route H) : Bool :=
  decide (route.method = method) && (matchTemplate route.template segs).isSome

/-- The router tries the routes in the order of their registration; the
first one that matches method and path serves the request. -/
def Match {H : Type} (routes : List (Route H)) (method : String) (segs : List String) :
    Option (Route H × GoMap String) :=
  match routes.find? (Route.accepts method segs) with
  | none => none
  | some route => some (route, (matchTemplate route.template segs).getD [])

end mux

/-! ## Package `main` -/

namespace main

open models repositories services middleware handlers

/-- The handler methods that `main` registers. -/
inductive HandlerName
  | Register | Login
  | GetAllRecipes | GetRecipeByID | CreateRecipe | UpdateRecipe | DeleteRecipe
  | GetRatingsByRecipeID | GetAverageRatingForRecipe
  | CreateRating | UpdateRating | DeleteRating
  | SearchByIngredient | SearchByTag | SearchByTitle | GetPaginatedRecipes
  | SortRecipes
deriving DecidableEq, Repr

/-- The route table that `main` builds, in the order of registration. -/
def routes : List (mux.Route HandlerName) :=
  [ ⟨[.lit "api", .lit "auth", .lit "register"], "POST", false, .Register⟩,
    ⟨[.lit "api", .lit "auth", .lit "login"], "POST", false, .Login⟩,
    ⟨[.lit "api", .lit "recipes"], "GET", false, .GetAllRecipes⟩,
    ⟨[.lit "api", .lit "recipes", .lit ""], "GET", false, .GetAllRecipes⟩,
    ⟨[.lit "api", .lit "recipes", .var "id"], "GET", false, .GetRecipeByID⟩,
    ⟨[.lit "api", .lit "recipes"], "POST", false, .CreateRecipe⟩,
    ⟨[.lit "api", .lit "recipes", .lit ""], "POST", false, .CreateRecipe⟩,
    ⟨[.lit "api", .lit "recipes", .var "id"], "PUT", false, .UpdateRecipe⟩,
    ⟨[.lit "api", .lit "recipes", .var "id"], "DELETE", false, .DeleteRecipe⟩,
    ⟨[.lit "api", .lit "recipes"], "POST", true, .CreateRecipe⟩,
    ⟨[.lit "api", .lit "recipes", .lit ""], "POST", true, .CreateRecipe⟩,
    ⟨[.lit "api", .lit "recipes", .var "id"], "PUT", true, .UpdateRecipe⟩,
    ⟨[.lit "api", .lit "recipes", .var "id"], "DELETE", true, .DeleteRecipe⟩,
    ⟨[.lit "api", .lit "recipes", .var "id", .lit "ratings"], "GET", false,
      .GetRatingsByRecipeID⟩,
    ⟨[.lit "api", .lit "recipes", .var "id", .lit "ratings", .lit "average"], "GET", false,
      .GetAverageRatingForRecipe⟩,
    ⟨[.lit "api", .lit "recipes", .var "id", .lit "ratings"], "POST", true, .CreateRating⟩,
    ⟨[.lit "api", .lit "recipes", .var "id", .lit "ratings", .var "ratingId"], "PUT", true,
      .UpdateRating⟩,
    ⟨[.lit "api", .lit "recipes", .var "id", .lit "ratings", .var "ratingId"], "DELETE", true,
      .DeleteRating⟩,
    ⟨[.lit "api", .lit "search", .lit "ingredient"], "GET", false, .SearchByIngredient⟩,
    ⟨[.lit "api", .lit "search", .lit "tag"], "GET", false, .SearchByTag⟩,
    ⟨[.lit "api", .lit "search", .lit "title"], "GET", false, .SearchByTitle⟩,
    ⟨[.lit "api", .lit "search", .lit "paginated"], "GET", false, .GetPaginatedRecipes⟩,
    ⟨[.lit "api", .lit "sort", .lit "recipes"], "GET", false, .SortRecipes⟩ ]

/-- The handler behind a name; `none` is a panic.  The handlers of the
authentication, sort and query-search routes are the argument `other`. -/
def dispatch (env : Env) (other : HandlerName → System → Request → Response × System)
    (name : HandlerName) (s : System) (r : Request) : Option (Response × System) :=
  match name with
  | .GetAllRecipes => some (RecipeHandler.GetAllRecipes env s r)
  | .GetRecipeByID => some (RecipeHandler.GetRecipeByID env s r)
  | .CreateRecipe => some (RecipeHandler.CreateRecipe env s r)
  | .UpdateRecipe => some (RecipeHandler.UpdateRecipe env s r)
  | .DeleteRecipe => some (RecipeHandler.DeleteRecipe env s r)
  | .GetRatingsByRecipeID => some (RatingHandler.GetRatingsByRecipeID env s r)
  | .GetAverageRatingForRecipe => some (RatingHandler.GetAverageRatingForRecipe env s r)
  | .CreateRating => some (RatingHandler.CreateRating env s r)
  | .UpdateRating => some (RatingHandler.UpdateRating env s r)
  | .DeleteRating => some (RatingHandler.DeleteRating env s r)
  | .GetPaginatedRecipes => SearchHandler.GetPaginatedRecipes env s r
  | name => some (other name s r)

/-- The router of `main` serving one request.  A matched handler runs inside
`RecoveryMiddleware`, which turns a panic into the answer 500, and behind
`AuthMiddleware` if its subrouter uses it; `LoggingMiddleware` only writes to
the log.  What the router answers when no route matches is the argument
`noMatch`. -/
def ServeHTTP (env : Env) (other : HandlerName → System → Request → Response × System)
    (noMatch : Request → Response) (s : System) (r : Request) : Response × System :=
  match (mux.segments r.Path).bind (mux.Match routes r.Method) with
  | none => (noMatch r, s)
  | some (route, vars) =>
    let r := { r with Vars := vars }
    let recovered := fun (r' : Request) =>
      match dispatch env other route.handler s r' with
      | none => ((⟨500, .text "Internal Server Error"⟩ : Response), s)
      | some result => result
    if route.auth then
      match AuthMiddleware env.lib env.now r with
      | .respond code message => (⟨code, .text message⟩, s)
      | .next r' => recovered r'
    else recovered r

end main

open models repositories services

/-- A recipe with the four fields the sort test sets. -/
def mkRecipe (id title : String) (prep cook servings : Int) : Recipe :=
  ⟨id, title, "", [], [], prep, cook, servings, [], 0, 0⟩

/-- The three recipes of `TestSortRecipes`. -/
def pasta : Recipe := mkRecipe "1" "Pasta Carbonara" 15 20 4
/-- Second recipe of `TestSortRecipes`. -/
def salad : Recipe := mkRecipe "2" "Quick Salad" 10 0 2
/-- Third recipe of `TestSortRecipes`. -/
def stew : Recipe := mkRecipe "3" "Beef Stew" 30 120 6

/-- An empty world. -/
def emptyWorld : World := ⟨⟨[]⟩, ⟨[]⟩⟩

/-- A rating store with the scores 5, 5, 5, 1 for recipe `"r"` and one rating
of another recipe. -/
def fiveFiveFiveOne : InMemoryRatingRepository :=
  ⟨[("a", ⟨"a", "r", "u1", 5, "", 0, 0⟩), ("b", ⟨"b", "r", "u2", 5, "", 0, 0⟩),
    ("x", ⟨"x", "q", "u1", 2, "", 0, 0⟩), ("c", ⟨"c", "r", "u3", 5, "", 0, 0⟩),
    ("d", ⟨"d", "r", "u4", 1, "", 0, 0⟩)]⟩

/-- A stand-in for bcrypt in examples: it never fails and tags the password. -/
def exampleHash (password : String) : Except String String :=
  .ok ("hashed:" ++ password)

/-- A stand-in for bcrypt that refuses passwords of more than 72 bytes, as
`bcrypt.GenerateFromPassword` does, and tags the others. -/
def boundedHash (password : String) : Except String String :=
  if 72 < password.utf8ByteSize then .error "bcrypt: password length exceeds 72 bytes"
  else .ok ("hashed:" ++ password)

/-- The user store after `"alice"` has been created under the id `"1"`. -/
def oneUser : InMemoryUserRepository :=
  (InMemoryUserRepository.Create ⟨[]⟩ [] exampleHash 1 "1"
    ⟨"alice", "alice@example.com", "pw1", ""⟩).2

/-- The user store after `"alice"` and then `"bob"` have been created. -/
def twoUsers : InMemoryUserRepository :=
  (InMemoryUserRepository.Create oneUser oneUser.users exampleHash 2 "2"
    ⟨"bob", "bob@example.com", "pw2", "admin"⟩).2

/-- A recipe with a title and tags, as `TestFilterRecipesByTag` creates them. -/
def tagged (id title : String) (tags : List String) : Recipe :=
  { mkRecipe id title 0 0 0 with Tags := tags }

/-- The recipe map of `TestFilterRecipesByTag`, in one visiting order. -/
def tagStore : GoMap Recipe :=
  [("1", tagged "1" "Recipe 1" ["vegetarian", "quick"]),
    ("2", tagged "2" "Recipe 2" ["meat", "dinner"]),
    ("3", tagged "3" "Recipe 3" ["vegetarian", "dinner"])]

/-- A recipe map for the ingredient search: the first recipe has two
ingredients that contain "tomato", the second has none. -/
def tomatoStore : GoMap Recipe :=
  [("1", { mkRecipe "1" "Tomato Soup" 0 0 0 with
      Ingredients := ["Tomato sauce", "salt", "Cherry TOMATOES"] }),
    ("2", { mkRecipe "2" "Pancakes" 0 0 0 with Ingredients := ["flour", "milk"] })]

/-- A stand-in for `bcrypt.CompareHashAndPassword` in examples, matching
`exampleHash`. -/
def exampleVerify (hashed password : String) : Bool :=
  hashed == "hashed:" ++ password

/-- The user store of `TestAuthenticate`. -/
def testUserStore : InMemoryUserRepository :=
  (InMemoryUserRepository.Create ⟨[]⟩ [] exampleHash 0 "1"
    ⟨"testuser", "test@example.com", "password123", "user"⟩).2

/-- The claims of the one token that `exampleJWT` issues. -/
def exampleClaims : TokenClaims :=
  { ExpiresAt := 24 * Hour, IssuedAt := 0, UserID := "1", Role := "user" }

/-- A stand-in for the JWT library in examples: under the key `jwtSecret` it
signs `exampleClaims`, as the string "token-1", and nothing else. -/
def exampleJWT : JWT where
  SignedString key claims :=
    if key = jwtSecret ∧ claims = exampleClaims then .ok "token-1" else .error "cannot sign"
  ParseWithClaims key now tokenString :=
    if key = jwtSecret ∧ tokenString = "token-1" then
      if exampleClaims.IssuedAt ≤ now ∧ now < exampleClaims.ExpiresAt then
        .ok (true, exampleClaims)
      else .error "token is expired"
    else .error "signature is invalid"

/-- A stand-in for the JWT library that signs everything, as the string
"token", and parses nothing. -/
def signingJWT : JWT where
  SignedString _ _ := .ok "token"
  ParseWithClaims _ _ _ := .error "signature is invalid"

/-- The predicate `n%2 == 0` of `TestFilter`. -/
def isEven (n : Int) : Bool := Int.tmod n 2 == 0

/-- The list `l` after `l[i], l[j] = l[j], l[i]`. -/
def listSwap {T : Type} [Inhabited T] (l : List T) (i j : Nat) : List T :=
  (l.set i (l.getD j default)).set j (l.getD i default)

/-- What `Sort` keeps of the memory `h0` it started in, whatever `less` answers:
no array is allocated or freed, arrays other than the one behind `items` are
untouched, the array behind `items` keeps its size and its elements past
`len(items)`, and the elements of `items` are rearranged. -/
def SortFrame {T : Type} (h0 : Heap T) (items : Slice) (h : Heap T) : Prop :=
  h.arrays.length = h0.arrays.length ∧
  (∀ a, a ≠ items.arr → h.arrays.getD a [] = h0.arrays.getD a []) ∧
  (h.backing items).length = (h0.backing items).length ∧
  (h.backing items).drop items.len = (h0.backing items).drop items.len ∧
  (h.cells items).Perm (h0.cells items)

/-- Positions below `m` hold keys that are minimal among everything to their right. -/
def SortedUpTo {T K : Type} [Inhabited T] [LinearOrder K] (key : T → K)
    (items : Slice) (m : Nat) (h : Heap T) : Prop :=
  ∀ p k, p < m → p < k → k < items.len →
    key (h.index items p) ≤ key (h.index items k)

/-- The states of the rating store that are reachable from the empty store by
repository calls (`Create`, `Update`, `Delete`) and service calls
(`CreateRating`, `UpdateRating`, `DeleteRating`), successful or not.  The
second component is a history variable: under each id, the rating as it was
returned by the latest successful create for that id. -/
inductive RatingReachable : InMemoryRatingRepository → GoMap Rating → Prop
  | empty : RatingReachable ⟨[]⟩ []
  | create {r : InMemoryRatingRepository} {born : GoMap Rating} (now : Int)
      (id recipeID userID : String) (input : RatingInput) :
      RatingReachable r born →
      RatingReachable (r.Create now id recipeID userID input).2
        (mapStore born id (r.Create now id recipeID userID input).1)
  | update {r : InMemoryRatingRepository} {born : GoMap Rating} (now : Int) (id : String)
      (input : RatingInput) :
      RatingReachable r born → RatingReachable (r.Update now id input).2 born
  | delete {r : InMemoryRatingRepository} {born : GoMap Rating} (id : String) :
      RatingReachable r born → RatingReachable (r.Delete id).2 born
  | createRating {r : InMemoryRatingRepository} {born : GoMap Rating}
      (recipes : InMemoryRecipeRepository) (now : Int) (id recipeID userID : String)
      (input : RatingInput) :
      RatingReachable r born →
      RatingReachable (RatingService.CreateRating recipes r now id recipeID userID input).2
        (match (RatingService.CreateRating recipes r now id recipeID userID input).1 with
          | .ok rating => mapStore born id rating
          | .error _ => born)
  | updateRating {r : InMemoryRatingRepository} {born : GoMap Rating} (now : Int)
      (id userID : String) (input : RatingInput) :
      RatingReachable r born →
      RatingReachable (RatingService.UpdateRating r now id userID input).2 born
  | deleteRating {r : InMemoryRatingRepository} {born : GoMap Rating} (id userID : String) :
      RatingReachable r born →
      RatingReachable (RatingService.DeleteRating r id userID).2 born

/-- The ownership invariant of the rating store with its history variable:
a rating stored under an id agrees in `UserID`, `RecipeID`, `ID` and
`CreatedAt` with the rating that the latest create for that id returned. -/
def RatingInv (r : InMemoryRatingRepository) (born : GoMap Rating) : Prop :=
  ∀ id rating, mapLookup r.ratings id = some rating →
    ∃ created, mapLookup born id = some created ∧
      (∃ now0 recipeID0 userID0 input0,
        created = NewRating now0 id recipeID0 userID0 input0) ∧
      rating.UserID = created.UserID ∧ rating.RecipeID = created.RecipeID ∧
      rating.ID = created.ID ∧ rating.CreatedAt = created.CreatedAt

/-- The states of the user store that are reachable from the empty store by
`Create`, `Update` and `Delete`, successful or not; every loop visits the
entries of the store in some order. -/
inductive UserReachable : InMemoryUserRepository → Prop
  | empty : UserReachable ⟨[]⟩
  | create {r : InMemoryUserRepository} (iter : GoMap User)
      (hash : String → Except String String) (now : Int) (id : String) (input : UserInput) :
      UserReachable r → iter.Perm r.users →
      UserReachable (r.Create iter hash now id input).2
  | update {r : InMemoryUserRepository} (iterU iterE : GoMap User)
      (hash : String → Except String String) (now : Int) (id : String) (input : UserInput) :
      UserReachable r → iterU.Perm r.users → iterE.Perm r.users →
      UserReachable (r.Update iterU iterE hash now id input).2
  | delete {r : InMemoryUserRepository} (id : String) :
      UserReachable r → UserReachable (r.Delete id).2

/-- The invariant of the user store: every user is stored under its own `ID`,
and two entries differ in key, username and e-mail address. -/
def UserInv (l : GoMap User) : Prop :=
  (∀ e ∈ l, e.2.ID = e.1) ∧
  l.Pairwise (fun a b =>
    a.1 ≠ b.1 ∧ a.2.Username ≠ b.2.Username ∧ a.2.Email ≠ b.2.Email)

/-- The states of the recipe store that are reachable from the empty store by
`Create`, `Update` and `Delete`, successful or not. -/
inductive RecipeReachable : InMemoryRecipeRepository → Prop
  | empty : RecipeReachable ⟨[]⟩
  | create {r : InMemoryRecipeRepository} (now : Int) (id : String) (input : RecipeInput) :
      RecipeReachable r → RecipeReachable (r.Create now id input).2
  | update {r : InMemoryRecipeRepository} (now : Int) (id : String) (input : RecipeInput) :
      RecipeReachable r → RecipeReachable (r.Update now id input).2
  | delete {r : InMemoryRecipeRepository} (id : String) :
      RecipeReachable r → RecipeReachable (r.Delete id).2

/-- Key/identifier consistency of a map: every entry holds an entity whose
identifier is the key, and no key occurs twice. -/
def KeyInv {V : Type} (ident : V → String) (l : GoMap V) : Prop :=
  (∀ e ∈ l, ident e.2 = e.1) ∧ (l.map Prod.fst).Nodup

/-- An environment for serving requests in examples: the JWT library of the
examples at the instant 3600, the next identifier `"x9"`, a recipe decoder
that knows one body and a rating decoder that knows the scores 5 and 6. -/
def exampleEnv : handlers.Env where
  lib := exampleJWT
  now := 3600
  id := "x9"
  decodeRecipe body :=
    if body = "soup" then .ok ⟨"Soup", "", ["water"], [], 1, 2, 3, []⟩
    else .error "invalid character"
  decodeRating body :=
    if body = "five" then .ok ⟨5, "good"⟩
    else if body = "six" then .ok ⟨6, "too good"⟩
    else .error "invalid character"
  orderRecipes m := m
  orderRatings m := m

/-- A system with the user of `TestAuthenticate`, one recipe `"r1"` and one
rating `"x1"` of that recipe by that user. -/
def exampleSystem : System where
  userRepo := testUserStore
  recipeRepo := ⟨[("r1", mkRecipe "r1" "Pasta Carbonara" 15 20 4)]⟩
  ratingRepo := ⟨[("x1", ⟨"x1", "r1", "1", 4, "fine", 10, 10⟩)]⟩

/-- A system whose recipe store holds five recipes. -/
def fiveRecipeSystem : System :=
  { exampleSystem with
    recipeRepo := ⟨[("1", pasta), ("2", salad), ("3", stew), ("4", pasta), ("5", salad)]⟩ }

/-! ## Loops -/

/-- A property kept by every step of a loop holds when the loop ends. -/
theorem foldl_preserves {σ α : Type} (P : σ → Prop) (f : σ → α → σ) (l : List α) (s : σ)
    (h0 : P s) (hstep : ∀ s a, a ∈ l → P s → P (f s a)) : P (l.foldl f s) := by
  induction l generalizing s with
  | nil => simpa using h0
  | cons a l ih =>
    simp only [List.foldl_cons]
    apply ih
    · exact hstep s a (List.mem_cons_self _ _) h0
    · intro s b hb hs
      exact hstep s b (List.mem_cons_of_mem _ hb) hs

/-- Loop invariant rule for a counting loop `for j := start; j < start + count; j++`. -/
theorem foldl_range'_invariant {σ : Type} (P : Nat → σ → Prop) (f : σ → Nat → σ)
    (count start : Nat) (s : σ) (h0 : P start s)
    (hstep : ∀ j s, start ≤ j → j < start + count → P j s → P (j + 1) (f s j)) :
    P (start + count) ((List.range' start count).foldl f s) := by
  induction count generalizing start s with
  | zero => simpa using h0
  | succ n ih =>
    simp only [List.range', List.foldl_cons]
    have h1 : P (start + 1) (f s start) := hstep start s (le_refl _) (by omega) h0
    have h2 := ih (start + 1) (f s start) h1
      (fun j s hj hlt hp => hstep j s (by omega) (by omega) hp)
    have e : start + 1 + n = start + (n + 1) := by omega
    rw [e] at h2
    exact h2

/-! ## Lists with two positions exchanged -/

theorem getD_set_eq {T : Type} (l : List T) (i k : Nat) (v d : T) :
    (l.set i v).getD k d = if i = k ∧ i < l.length then v else l.getD k d := by
  simp only [List.getD_eq_getElem?_getD, List.getElem?_set]
  by_cases hik : i = k
  · subst hik
    by_cases hlt : i < l.length
    · simp [hlt]
    · have : l.length ≤ i := by omega
      simp [hlt, List.getElem?_eq_none this]
  · simp [hik]

theorem length_listSwap {T : Type} [Inhabited T] (l : List T) (i j : Nat) :
    (listSwap l i j).length = l.length := by
  simp [listSwap]

theorem getD_listSwap {T : Type} [Inhabited T] (l : List T) (i j k : Nat)
    (hi : i < l.length) (hj : j < l.length) :
    (listSwap l i j).getD k default =
      if k = j then l.getD i default else if k = i then l.getD j default
      else l.getD k default := by
  unfold listSwap
  rw [getD_set_eq, getD_set_eq]
  by_cases h1 : k = j
  · subst h1; simp [hj]
  · by_cases h2 : k = i
    · subst h2
      have : ¬ j = k := fun e => h1 e.symm
      simp [this, hi, h1]
    · have a : ¬ j = k := fun e => h1 e.symm
      have b : ¬ i = k := fun e => h2 e.symm
      simp [a, b, h1, h2]

theorem cons_set_perm {T : Type} (t : List T) (x y : T) (d : T) (j : Nat)
    (hj : j < t.length) (hy : t.getD j d = y) : (y :: t.set j x).Perm (x :: t) := by
  induction t generalizing j with
  | nil => simp at hj
  | cons z t ih =>
    cases j with
    | zero =>
      simp at hy
      subst hy
      simpa using List.Perm.swap _ _ _
    | succ k =>
      simp only [List.length_cons, Nat.add_lt_add_iff_right] at hj
      have hy2 : t.getD k d = y := by simpa using hy
      have h1 := ih k hj hy2
      simp only [List.set_cons_succ]
      exact ((List.Perm.swap z y _).trans (h1.cons z)).trans (List.Perm.swap x z _)

theorem listSwap_perm_lt {T : Type} [Inhabited T] (l : List T) (i j : Nat)
    (hij : i < j) (hj : j < l.length) : (listSwap l i j).Perm l := by
  induction l generalizing i j with
  | nil => simp at hj
  | cons a l ih =>
    cases j with
    | zero => omega
    | succ j =>
      cases i with
      | zero =>
        simp only [listSwap, List.set_cons_zero, List.set_cons_succ]
        simp at hj
        apply cons_set_perm l _ _ default j hj
        simp
      | succ i =>
        simp at hj
        have h1 := ih i j (by omega) hj
        simp only [listSwap, List.set_cons_succ] at h1 ⊢
        simpa using h1

theorem listSwap_perm {T : Type} [Inhabited T] (l : List T) (i j : Nat)
    (hi : i < l.length) (hj : j < l.length) : (listSwap l i j).Perm l := by
  rcases Nat.lt_trichotomy i j with h | h | h
  · exact listSwap_perm_lt l i j h hj
  · subst h
    have : listSwap l i i = l := by
      apply List.ext_getElem?
      intro k
      simp only [listSwap, List.getElem?_set, List.getD_eq_getElem?_getD]
      by_cases hk : i = k
      · subst hk; simp [hi]
      · simp [hk]
    rw [this]
  · have e : listSwap l i j = listSwap l j i := by
      unfold listSwap
      have hne : i ≠ j := by omega
      exact List.set_comm _ _ l hne
    rw [e]
    exact listSwap_perm_lt l j i h hi

/-! ## Heap lemmas -/

theorem Heap.backing_store_same {T : Type} (h : Heap T) (s : Slice) (i : Nat) (v : T)
    (hs : s.arr < h.arrays.length) :
    (h.store s i v).backing s = (h.backing s).set i v := by
  simp [Heap.store, Heap.backing, List.getD_eq_getElem?_getD, hs]

theorem Heap.getD_store_other {T : Type} (h : Heap T) (s : Slice) (i : Nat) (v : T)
    (a : Nat) (ha : a ≠ s.arr) :
    (h.store s i v).arrays.getD a [] = h.arrays.getD a [] := by
  have : ¬ s.arr = a := fun e => ha e.symm
  simp [Heap.store, List.getD_eq_getElem?_getD, List.getElem?_set, this]

theorem Heap.length_store {T : Type} (h : Heap T) (s : Slice) (i : Nat) (v : T) :
    (h.store s i v).arrays.length = h.arrays.length := by
  simp [Heap.store]

theorem swap_backing {T : Type} [Inhabited T] (h : Heap T) (s : Slice) (i j : Nat)
    (hs : s.arr < h.arrays.length) :
    (swap h s i j).backing s = listSwap (h.backing s) i j := by
  unfold swap
  simp only []
  rw [Heap.backing_store_same _ _ _ _ (by rw [Heap.length_store]; exact hs),
    Heap.backing_store_same _ _ _ _ hs]
  rfl

theorem swap_getD_other {T : Type} [Inhabited T] (h : Heap T) (s : Slice) (i j : Nat)
    (a : Nat) (ha : a ≠ s.arr) :
    (swap h s i j).arrays.getD a [] = h.arrays.getD a [] := by
  unfold swap
  simp only []
  rw [Heap.getD_store_other _ _ _ _ _ ha, Heap.getD_store_other _ _ _ _ _ ha]

theorem swap_length {T : Type} [Inhabited T] (h : Heap T) (s : Slice) (i j : Nat) :
    (swap h s i j).arrays.length = h.arrays.length := by
  unfold swap
  simp only [Heap.length_store]

theorem take_listSwap {T : Type} [Inhabited T] (l : List T) (n i j : Nat)
    (hi : i < n) (hj : j < n) : (listSwap l i j).take n = listSwap (l.take n) i j := by
  have e : ∀ k, k < n → (l.take n).getD k default = l.getD k default := by
    intro k hk
    simp only [List.getD_eq_getElem?_getD, List.getElem?_take_of_lt hk]
  unfold listSwap
  rw [List.set_take, List.set_take, e i hi, e j hj]

theorem drop_listSwap {T : Type} [Inhabited T] (l : List T) (n i j : Nat)
    (hi : i < n) (hj : j < n) : (listSwap l i j).drop n = l.drop n := by
  unfold listSwap
  rw [List.drop_set_of_lt _ _ hj, List.drop_set_of_lt _ _ hi]

theorem SortFrame.refl {T : Type} (h0 : Heap T) (items : Slice) : SortFrame h0 items h0 :=
  ⟨rfl, fun _ _ => rfl, rfl, rfl, List.Perm.refl _⟩

theorem SortFrame.swap {T : Type} [Inhabited T] (h0 h : Heap T) (items : Slice) (i j : Nat)
    (hv : h0.Valid items) (hi : i < items.len) (hj : j < items.len)
    (hf : SortFrame h0 items h) : SortFrame h0 items (swap h items i j) := by
  obtain ⟨h1, h2, h3, h4, h5⟩ := hf
  have hlen : items.len ≤ (h.backing items).length := by rw [h3]; exact hv.2
  have hb := swap_backing h items i j (by rw [h1]; exact hv.1)
  refine ⟨by rw [swap_length, h1], ?_, ?_, ?_, ?_⟩
  · intro a ha
    rw [swap_getD_other _ _ _ _ _ ha]
    exact h2 a ha
  · rw [hb, length_listSwap, h3]
  · rw [hb, drop_listSwap _ _ i j hi hj, h4]
  · unfold Heap.cells at h5 ⊢
    rw [hb, take_listSwap _ _ i j hi hj]
    refine (listSwap_perm _ i j ?_ ?_).trans h5
    · rw [List.length_take]; omega
    · rw [List.length_take]; omega

theorem sortInner_frame {T : Type} [Inhabited T] (h0 h : Heap T) (items : Slice)
    (less : Heap T → Nat → Nat → Bool) (i : Nat)
    (hv : h0.Valid items) (hi : i < items.len) (hf : SortFrame h0 items h) :
    SortFrame h0 items (sortInner items less i h) := by
  unfold sortInner
  apply foldl_preserves (SortFrame h0 items) _ _ _ hf
  intro s j hj hs
  rw [List.mem_range'_1] at hj
  by_cases hl : less s j i = true
  · simp only [hl, if_true]
    exact SortFrame.swap h0 s items i j hv hi (by omega) hs
  · simp only [hl]
    exact hs

theorem SortSlice_frame {T : Type} [Inhabited T] (h : Heap T) (items : Slice)
    (less : Heap T → Nat → Nat → Bool) (hv : h.Valid items) :
    SortFrame h items (SortSlice h items less) := by
  unfold SortSlice
  apply foldl_preserves (SortFrame h items) _ _ _ (SortFrame.refl h items)
  intro s i hi hs
  rw [List.mem_range] at hi
  exact sortInner_frame h s items less i hv hi hs

theorem index_swap {T : Type} [Inhabited T] (h : Heap T) (s : Slice) (i j k : Nat)
    (hs : s.arr < h.arrays.length) (hi : i < (h.backing s).length)
    (hj : j < (h.backing s).length) :
    (swap h s i j).index s k =
      if k = j then h.index s i else if k = i then h.index s j else h.index s k := by
  unfold Heap.index
  rw [swap_backing h s i j hs, getD_listSwap _ i j k hi hj]

theorem SortFrame.length_backing {T : Type} (h0 h : Heap T) (items : Slice)
    (hv : h0.Valid items) (hf : SortFrame h0 items h) :
    items.len ≤ (h.backing items).length := by
  rw [hf.2.2.1]; exact hv.2

theorem SortFrame.cells_perm {T : Type} (h0 h : Heap T) (items : Slice)
    (hf : SortFrame h0 items h) : (h.cells items).Perm (h0.cells items) :=
  hf.2.2.2.2

theorem sortInner_sorted {T K : Type} [Inhabited T] [LinearOrder K] (key : T → K)
    (h0 h : Heap T) (items : Slice) (less : Heap T → Nat → Nat → Bool)
    (hless : ∀ g i j, less g i j = decide (key (g.index items i) < key (g.index items j)))
    (i : Nat) (hv : h0.Valid items) (hi : i < items.len)
    (hf : SortFrame h0 items h) (hp : SortedUpTo key items i h) :
    SortFrame h0 items (sortInner items less i h) ∧
      SortedUpTo key items (i + 1) (sortInner items less i h) := by
  have main := foldl_range'_invariant
    (fun j g => SortFrame h0 items g ∧ SortedUpTo key items i g ∧
      ∀ k, i < k → k < j → key (g.index items i) ≤ key (g.index items k))
    (fun g j => if less g j i then swap g items i j else g)
    (items.len - (i + 1)) (i + 1) h
    ⟨hf, hp, fun k h1 h2 => by omega⟩
    (by
      intro j g hj1 hj2 ⟨gf, gp, gi⟩
      have hjn : j < items.len := by omega
      have hij : i < j := by omega
      have hlen := SortFrame.length_backing h0 g items hv gf
      have hs : items.arr < g.arrays.length := by rw [gf.1]; exact hv.1
      have hidx := fun k => index_swap g items i j k hs (by omega) (by omega)
      by_cases hl : key (g.index items j) < key (g.index items i)
      · have hl2 : less g j i = true := by rw [hless]; simpa using hl
        simp only [hl2, if_true]
        refine ⟨SortFrame.swap h0 g items i j hv hi hjn gf, ?_, ?_⟩
        · intro p k hp1 hpk hk
          have e1 : (swap g items i j).index items p = g.index items p := by
            rw [hidx p, if_neg (by omega), if_neg (by omega)]
          rw [e1, hidx k]
          by_cases c1 : k = j
          · rw [if_pos c1]; exact gp p i hp1 (by omega) hi
          · rw [if_neg c1]
            by_cases c2 : k = i
            · rw [if_pos c2]; exact gp p j hp1 (by omega) hjn
            · rw [if_neg c2]; exact gp p k hp1 hpk hk
        · intro k hk1 hk2
          have e1 : (swap g items i j).index items i = g.index items j := by
            rw [hidx i, if_neg (by omega), if_pos rfl]
          rw [e1, hidx k]
          by_cases c1 : k = j
          · rw [if_pos c1]; exact le_of_lt hl
          · rw [if_neg c1, if_neg (by omega)]
            exact le_trans (le_of_lt hl) (gi k hk1 (by omega))
      · have hl2 : less g j i = false := by rw [hless]; simpa using hl
        simp only [hl2]
        refine ⟨gf, gp, ?_⟩
        intro k hk1 hk2
        by_cases c1 : k = j
        · subst c1; exact not_lt.mp hl
        · exact gi k hk1 (by omega))
  have e : i + 1 + (items.len - (i + 1)) = items.len := by omega
  rw [e] at main
  obtain ⟨mf, mp, mi⟩ := main
  refine ⟨mf, ?_⟩
  intro p k hp1 hpk hk
  by_cases c : p = i
  · subst c; exact mi k hpk hk
  · exact mp p k (by omega) hpk hk

theorem SortSlice_sorted {T K : Type} [Inhabited T] [LinearOrder K] (key : T → K)
    (h : Heap T) (items : Slice) (less : Heap T → Nat → Nat → Bool)
    (hless : ∀ g i j, less g i j = decide (key (g.index items i) < key (g.index items j)))
    (hv : h.Valid items) :
    SortFrame h items (SortSlice h items less) ∧
      SortedUpTo key items items.len (SortSlice h items less) := by
  unfold SortSlice
  rw [List.range_eq_range']
  have main := foldl_range'_invariant
    (fun m g => SortFrame h items g ∧ SortedUpTo key items m g)
    (fun g i => sortInner items less i g) items.len 0 h
    ⟨SortFrame.refl h items, fun p k hp _ _ => by omega⟩
    (by
      intro i g _ hi ⟨gf, gp⟩
      exact sortInner_sorted key h g items less hless i hv (by omega) gf gp)
  simpa using main

/-! ## `FindAll` and the memory of `SortRecipes` -/

theorem foldl_append_values {V : Type} (iter : GoMap V) (acc : List V) :
    iter.foldl (fun result e => result ++ [e.2]) acc = acc ++ iter.map Prod.snd := by
  induction iter generalizing acc with
  | nil => simp
  | cons e rest ih => simp [ih]

theorem FindAll_eq_values (iter : GoMap Recipe) :
    InMemoryRecipeRepository.FindAll iter = iter.map Prod.snd := by
  unfold InMemoryRecipeRepository.FindAll
  rw [foldl_append_values]
  simp

/-- The memory in which `SortRecipes` calls `Sort`: the snapshot of `FindAll`
and, behind it, its copy. -/
theorem SortRecipes.copy_heap (h : Heap Recipe) (all : List Recipe) :
    ((h.alloc all).1.make (h.alloc all).2.len).1.copy
        ((h.alloc all).1.make (h.alloc all).2.len).2 (h.alloc all).2
      = ⟨h.arrays ++ [all, all]⟩ := by
  simp only [Heap.alloc, Heap.make, Heap.copy, Heap.cells, Heap.backing,
    List.length_append, List.length_singleton, List.length_replicate, min_self,
    List.getD_eq_getElem?_getD]
  have e1 : (h.arrays ++ [all] ++ [List.replicate all.length default])[h.arrays.length]?
      = some all := by
    rw [List.append_assoc, List.getElem?_append_right (le_refl _)]
    simp
  have e2 : (h.arrays ++ [all] ++ [List.replicate all.length default])[h.arrays.length + 1]?
      = some (List.replicate all.length default) := by
    rw [List.append_assoc, List.getElem?_append_right (by omega)]
    simp
  rw [e1, e2]
  simp only [Option.getD_some, List.take_length]
  have e3 : List.drop all.length (List.replicate all.length (default : Recipe)) = [] := by
    simp
  rw [e3, List.append_nil]
  have e4 : h.arrays.length + 1 = (h.arrays ++ [all]).length := by simp
  rw [e4, List.set_append_right _ _ (le_refl _)]
  simp

theorem SortRecipes.run_eq (w : World) (iter : GoMap Recipe) (criteria : SortBy)
    (ascending : Bool) :
    SortRecipes.run w iter criteria ascending =
      ⟨⟨w.repository,
          SortSlice ⟨w.heap.arrays ++
              [InMemoryRecipeRepository.FindAll iter, InMemoryRecipeRepository.FindAll iter]⟩
            ⟨w.heap.arrays.length + 1, (InMemoryRecipeRepository.FindAll iter).length⟩
            (SortRecipes.less criteria ascending
              ⟨w.heap.arrays.length, (InMemoryRecipeRepository.FindAll iter).length⟩)⟩,
        ⟨w.heap.arrays.length, (InMemoryRecipeRepository.FindAll iter).length⟩,
        ⟨w.heap.arrays.length + 1, (InMemoryRecipeRepository.FindAll iter).length⟩⟩ := by
  have e := SortRecipes.copy_heap w.heap (InMemoryRecipeRepository.FindAll iter)
  unfold SortRecipes.run
  simp only []
  rw [e]
  simp [Heap.alloc, Heap.make]

theorem SortRecipes.result_valid (arrays : List (List Recipe)) (all : List Recipe) :
    Heap.Valid ⟨arrays ++ [all, all]⟩ ⟨arrays.length + 1, all.length⟩ := by
  constructor
  · simp
  · simp only [Heap.backing, List.getD_eq_getElem?_getD]
    rw [List.getElem?_append_right (by omega)]
    simp

/-! ## Sorting: the claims -/

/-- C1 (evaluation at the failing input).  When `FindAll` lists the three
recipes of `TestSortRecipes` in the order Quick Salad, Beef Stew, Pasta
Carbonara, `SortRecipes(SortByTitle, true)` returns the titles Pasta
Carbonara, Quick Salad, Beef Stew: the closure `less` compares positions of
the untouched snapshot `allRecipes` while `Sort` exchanges positions of the
copy, so the last adjacent pair is out of order and the order the test
expects is not produced. -/
theorem C1_SortRecipes_title_ascending_unsorted :
    (SortRecipes emptyWorld [("2", salad), ("3", stew), ("1", pasta)] SortByTitle true).map
        (fun r => r.Title) = ["Pasta Carbonara", "Quick Salad", "Beef Stew"] ∧
    stringLess "Beef Stew" "Quick Salad" = true ∧
    (SortRecipes emptyWorld [("2", salad), ("3", stew), ("1", pasta)] SortByTitle true).map
        (fun r => r.Title) ≠ ["Beef Stew", "Pasta Carbonara", "Quick Salad"] := by
  decide

/-- C2.  The generic `Sort` is correct when `less(i, j)` compares the elements
currently at positions `i` and `j` of the slice being sorted by a key in a
strict total order: for every allocated slice (`len <= cap`), on return no
adjacent pair is out of order (`less(k+1, k)` is false for every `k`) and the
slice holds a permutation of its original elements. -/
theorem C2_Sort_sorted_and_permutation {T K : Type} [Inhabited T] [LinearOrder K]
    (key : T → K) (h : Heap T) (items : Slice) (less : Heap T → Nat → Nat → Bool)
    (hv : h.Valid items)
    (hless : ∀ g i j, less g i j = decide (key (g.index items i) < key (g.index items j))) :
    (∀ k, k + 1 < items.len → less (SortSlice h items less) (k + 1) k = false) ∧
    ((SortSlice h items less).cells items).Perm (h.cells items) := by
  obtain ⟨hf, hs⟩ := SortSlice_sorted key h items less hless hv
  refine ⟨?_, SortFrame.cells_perm h _ items hf⟩
  intro k hk
  rw [hless]
  have := hs k (k + 1) (by omega) (by omega) hk
  simpa using this

/-- C2, witness: the slice `[3, 1, 2]` of integers, of capacity 4, with `less`
comparing the current elements. -/
theorem C2_Sort_sorted_and_permutation_witness :
    (∀ k, k + 1 < 3 →
      (fun (g : Heap Int) i j => decide (g.index ⟨0, 3⟩ i < g.index ⟨0, 3⟩ j))
        (SortSlice ⟨[[3, 1, 2, 0]]⟩ ⟨0, 3⟩
          (fun g i j => decide (g.index ⟨0, 3⟩ i < g.index ⟨0, 3⟩ j))) (k + 1) k = false) ∧
    ((SortSlice (⟨[[3, 1, 2, 0]]⟩ : Heap Int) ⟨0, 3⟩
        (fun g i j => decide (g.index ⟨0, 3⟩ i < g.index ⟨0, 3⟩ j))).cells ⟨0, 3⟩).Perm
      ((⟨[[3, 1, 2, 0]]⟩ : Heap Int).cells ⟨0, 3⟩) :=
  C2_Sort_sorted_and_permutation (fun x : Int => x) ⟨[[3, 1, 2, 0]]⟩ ⟨0, 3⟩
    (fun g i j => decide (g.index ⟨0, 3⟩ i < g.index ⟨0, 3⟩ j))
    ⟨by decide, by decide⟩ (fun _ _ _ => rfl)

/-- C3.  For every store content (every order `iter` in which `FindAll` may
list it), every criterion and either direction, `SortRecipes` returns a
permutation of what `FindAll` returned, hence a sequence of the same length;
the three recipes of the test give three results. -/
theorem C3_SortRecipes_permutation (w : World) (iter : GoMap Recipe) (criteria : SortBy)
    (ascending : Bool) :
    (SortRecipes w iter criteria ascending).Perm (InMemoryRecipeRepository.FindAll iter) ∧
    (SortRecipes w iter criteria ascending).length =
      (InMemoryRecipeRepository.FindAll iter).length ∧
    (iter.length = 3 → (SortRecipes w iter criteria ascending).length = 3) := by
  have hp : (SortRecipes w iter criteria ascending).Perm
      (InMemoryRecipeRepository.FindAll iter) := by
    unfold SortRecipes
    simp only [SortRecipes.run_eq]
    have hv := SortRecipes.result_valid w.heap.arrays (InMemoryRecipeRepository.FindAll iter)
    have hf := SortSlice_frame _ _
      (SortRecipes.less criteria ascending
        ⟨w.heap.arrays.length, (InMemoryRecipeRepository.FindAll iter).length⟩) hv
    have hc := SortFrame.cells_perm _ _ _ hf
    refine hc.trans ?_
    have e : (⟨w.heap.arrays ++ [InMemoryRecipeRepository.FindAll iter,
        InMemoryRecipeRepository.FindAll iter]⟩ : Heap Recipe).cells
        ⟨w.heap.arrays.length + 1, (InMemoryRecipeRepository.FindAll iter).length⟩
        = InMemoryRecipeRepository.FindAll iter := by
      simp only [Heap.cells, Heap.backing, List.getD_eq_getElem?_getD]
      rw [List.getElem?_append_right (by omega)]
      simp
    rw [e]
  refine ⟨hp, hp.length_eq, ?_⟩
  intro h3
  rw [hp.length_eq, FindAll_eq_values]
  simpa using h3

/-- C4 (counterexample).  The criterion `"calories"` is none of the five
recognised ones, and with `ascending = false` on the snapshot Beef Stew, Pasta
Carbonara the call returns Pasta Carbonara, Beef Stew, whereas
`SortRecipes(SortByTitle, true)` returns Beef Stew, Pasta Carbonara. -/
theorem C4_unrecognised_descending_differs :
    ("calories" ≠ SortByPrepTime ∧ "calories" ≠ SortByCookTime ∧
      "calories" ≠ SortByTotalTime ∧ "calories" ≠ SortByTitle ∧
      "calories" ≠ SortByServings) ∧
    SortRecipes emptyWorld [("3", stew), ("1", pasta)] "calories" false = [pasta, stew] ∧
    SortRecipes emptyWorld [("3", stew), ("1", pasta)] SortByTitle true = [stew, pasta] ∧
    SortRecipes emptyWorld [("3", stew), ("1", pasta)] "calories" false ≠
      SortRecipes emptyWorld [("3", stew), ("1", pasta)] SortByTitle true := by
  decide

/-- C4 (amended).  For every criterion that is not one of the five recognised
ones, `SortRecipes(criterion, ascending)` returns the same sequence as
`SortRecipes(SortByTitle, ascending)` on the same `FindAll` snapshot: an
unrecognised criterion defaults to title, in the requested direction. -/
theorem C4_unrecognised_defaults_to_title (w : World) (iter : GoMap Recipe)
    (criteria : SortBy) (ascending : Bool)
    (h1 : criteria ≠ SortByPrepTime) (h2 : criteria ≠ SortByCookTime)
    (h3 : criteria ≠ SortByTotalTime) (h4 : criteria ≠ SortByTitle)
    (h5 : criteria ≠ SortByServings) :
    SortRecipes w iter criteria ascending = SortRecipes w iter SortByTitle ascending := by
  have e : ∀ s, SortRecipes.less criteria ascending s = SortRecipes.less SortByTitle ascending s := by
    intro s
    funext g i j
    have t1 : SortByTitle ≠ SortByPrepTime := by decide
    have t2 : SortByTitle ≠ SortByCookTime := by decide
    have t3 : SortByTitle ≠ SortByTotalTime := by decide
    simp only [SortRecipes.less, if_neg h1, if_neg h2, if_neg h3, if_neg h4, if_neg h5,
      if_neg t1, if_neg t2, if_neg t3, if_true]
  unfold SortRecipes SortRecipes.run
  simp only [e]

/-- C4 (amended), witness: the criterion `"calories"` in descending order. -/
theorem C4_unrecognised_defaults_to_title_witness :
    SortRecipes emptyWorld [("3", stew), ("1", pasta)] "calories" false =
      SortRecipes emptyWorld [("3", stew), ("1", pasta)] SortByTitle false :=
  C4_unrecognised_defaults_to_title emptyWorld [("3", stew), ("1", pasta)] "calories" false
    (by decide) (by decide) (by decide) (by decide) (by decide)

/-- C5.  `SortRecipes` never mutates the backing collection: the recipe map of
the repository is the same after the call, the slice obtained from `FindAll`
inside the call still holds the recipes in the order `FindAll` produced, the
sorted slice is a different array, and every array that existed before the
call is unchanged. -/
theorem C5_SortRecipes_does_not_mutate (w : World) (iter : GoMap Recipe)
    (criteria : SortBy) (ascending : Bool) :
    (SortRecipes.run w iter criteria ascending).world.repository = w.repository ∧
    (SortRecipes.run w iter criteria ascending).world.heap.cells
        (SortRecipes.run w iter criteria ascending).allRecipes
      = InMemoryRecipeRepository.FindAll iter ∧
    (SortRecipes.run w iter criteria ascending).result.arr ≠
      (SortRecipes.run w iter criteria ascending).allRecipes.arr ∧
    (∀ a, a < w.heap.arrays.length →
      (SortRecipes.run w iter criteria ascending).world.heap.arrays.getD a []
        = w.heap.arrays.getD a []) := by
  rw [SortRecipes.run_eq]
  simp only []
  have hv := SortRecipes.result_valid w.heap.arrays (InMemoryRecipeRepository.FindAll iter)
  have hf := SortSlice_frame _ _
    (SortRecipes.less criteria ascending
      ⟨w.heap.arrays.length, (InMemoryRecipeRepository.FindAll iter).length⟩) hv
  refine ⟨trivial, ?_, by omega, ?_⟩
  · simp only [Heap.cells, Heap.backing]
    rw [hf.2.1 w.heap.arrays.length (by simp)]
    simp only [List.getD_eq_getElem?_getD]
    rw [List.getElem?_append_right (le_refl _)]
    simp
  · intro a ha
    rw [hf.2.1 a (by simp; omega)]
    simp only [List.getD_eq_getElem?_getD]
    rw [List.getElem?_append_left ha]

/-! ## Machine integers: lemmas -/

theorem wrap64_of_range (x : Int) (h1 : minInt ≤ x) (h2 : x ≤ maxInt) : wrap64 x = x := by
  unfold minInt at h1
  unfold maxInt at h2
  unfold wrap64
  norm_num at h1 h2 ⊢
  omega

theorem wrap64_add_left (a b : Int) : wrap64 (wrap64 a + b) = wrap64 (a + b) := by
  unfold wrap64
  norm_num
  omega

/-! ## Pagination -/

/-- The page computed by `GetPaginatedRecipes` when `page >= 1`,
`pageSize >= 0` and `page * pageSize` fits in an `int`. -/
theorem GetPaginatedRecipes_eq (iter : GoMap Recipe) (page pageSize : Int)
    (hp : 1 ≤ page) (hpm : page ≤ maxInt) (hs : 0 ≤ pageSize)
    (hprod : page * pageSize ≤ maxInt) :
    GetPaginatedRecipes iter page pageSize =
      some (if ((InMemoryRecipeRepository.FindAll iter).length : Int) ≤ (page - 1) * pageSize
        then []
        else ((InMemoryRecipeRepository.FindAll iter).drop ((page - 1) * pageSize).toNat).take
          (min ((page - 1) * pageSize + pageSize)
            (InMemoryRecipeRepository.FindAll iter).length - (page - 1) * pageSize).toNat) := by
  have hmax : maxInt = 9223372036854775807 := by unfold maxInt; norm_num
  have hmin : minInt = -9223372036854775808 := by unfold minInt; norm_num
  have h0 : 0 ≤ (page - 1) * pageSize := Int.mul_nonneg (by omega) hs
  have h1 : (page - 1) * pageSize + pageSize = page * pageSize := by ring
  have w1 : wrap64 (page - 1) = page - 1 := wrap64_of_range _ (by omega) (by omega)
  have w2 : wrap64 ((page - 1) * pageSize) = (page - 1) * pageSize :=
    wrap64_of_range _ (by omega) (by omega)
  have w3 : wrap64 ((page - 1) * pageSize + pageSize) = (page - 1) * pageSize + pageSize :=
    wrap64_of_range _ (by omega) (by omega)
  unfold GetPaginatedRecipes RecipeService.GetAllRecipes
  simp only [w1, w2, w3]
  generalize (page - 1) * pageSize = start at *
  generalize InMemoryRecipeRepository.FindAll iter = L at *
  by_cases c1 : (L.length : Int) ≤ start
  · simp [c1]
  · have c1b : ¬ (start ≥ (L.length : Int)) := by omega
    simp only [c1, c1b, if_false]
    by_cases c2 : start + pageSize > (L.length : Int)
    · have e : min (start + pageSize) (L.length : Int) = L.length := by omega
      have g : 0 ≤ start ∧ start ≤ (L.length : Int) ∧ (L.length : Int) ≤ L.length := by omega
      simp only [c2, if_true, e, g, and_self]
    · have e : min (start + pageSize) (L.length : Int) = start + pageSize := by omega
      have g : 0 ≤ start ∧ start ≤ start + pageSize ∧ start + pageSize ≤ (L.length : Int) := by
        omega
      simp only [c2, if_false, e, g, and_self, if_true]

/-- C6.  For every list `L` that `FindAll` returns and every `page >= 1` and
`pageSize >= 1` whose product does not overflow, `GetPaginatedRecipes` returns
a sequence `r` that is empty when `start >= len L`, has
`min(start + pageSize, len L) - start` elements otherwise, and whose `k`-th
element is the element of `L` at position `start + k`, where
`start = (page - 1) * pageSize`.  With five recipes and `pageSize = 2`, page 2
is the third and fourth item, page 3 the fifth item only, page 4 nothing. -/
theorem C6_GetPaginatedRecipes_page (iter : GoMap Recipe) (page pageSize : Int)
    (hp : 1 ≤ page) (hs : 1 ≤ pageSize) (hprod : page * pageSize ≤ maxInt) :
    (∃ r, GetPaginatedRecipes iter page pageSize = some r ∧
      (((InMemoryRecipeRepository.FindAll iter).length : Int) ≤ (page - 1) * pageSize →
        r = []) ∧
      ((page - 1) * pageSize < ((InMemoryRecipeRepository.FindAll iter).length : Int) →
        (r.length : Int) =
          min ((page - 1) * pageSize + pageSize) (InMemoryRecipeRepository.FindAll iter).length
            - (page - 1) * pageSize) ∧
      (∀ k, k < r.length →
        r[k]? = (InMemoryRecipeRepository.FindAll iter)[((page - 1) * pageSize).toNat + k]?)) ∧
    (∀ e1 e2 e3 e4 e5 : String × Recipe,
      GetPaginatedRecipes [e1, e2, e3, e4, e5] 2 2 = some [e3.2, e4.2] ∧
      GetPaginatedRecipes [e1, e2, e3, e4, e5] 3 2 = some [e5.2] ∧
      GetPaginatedRecipes [e1, e2, e3, e4, e5] 4 2 = some []) := by
  have hmax : maxInt = 9223372036854775807 := by unfold maxInt; norm_num
  have hpm : page ≤ maxInt := by
    have : page * 1 ≤ page * pageSize := Int.mul_le_mul_of_nonneg_left hs (by omega)
    omega
  constructor
  · rw [GetPaginatedRecipes_eq iter page pageSize hp hpm (by omega) hprod]
    have h0 : 0 ≤ (page - 1) * pageSize := Int.mul_nonneg (by omega) (by omega)
    generalize (page - 1) * pageSize = start at *
    generalize InMemoryRecipeRepository.FindAll iter = L at *
    refine ⟨_, rfl, ?_, ?_, ?_⟩
    · intro h; simp [h]
    · intro h
      have c : ¬ ((L.length : Int) ≤ start) := by omega
      simp only [c, if_false, List.length_take, List.length_drop]
      omega
    · intro k hk
      by_cases c : (L.length : Int) ≤ start
      · simp [c] at hk
      · simp only [c, if_false] at hk ⊢
        simp only [List.length_take] at hk
        rw [List.getElem?_take_of_lt (by omega), List.getElem?_drop]
  · intro e1 e2 e3 e4 e5
    have b : ∀ q : Int, 1 ≤ q → q ≤ 4 → q * 2 ≤ maxInt := by intro q _ _; omega
    have m : ∀ q : Int, 1 ≤ q → q ≤ 4 → q ≤ maxInt := by intro q _ _; omega
    refine ⟨?_, ?_, ?_⟩
    · rw [GetPaginatedRecipes_eq _ 2 2 (by decide) (m 2 (by decide) (by decide)) (by decide)
        (b 2 (by decide) (by decide))]
      simp [FindAll_eq_values]
    · rw [GetPaginatedRecipes_eq _ 3 2 (by decide) (m 3 (by decide) (by decide)) (by decide)
        (b 3 (by decide) (by decide))]
      simp [FindAll_eq_values]
    · rw [GetPaginatedRecipes_eq _ 4 2 (by decide) (m 4 (by decide) (by decide)) (by decide)
        (b 4 (by decide) (by decide))]
      simp [FindAll_eq_values]

/-- C6, witness: five stored recipes, page 2 of size 2. -/
theorem C6_GetPaginatedRecipes_page_witness :
    ((1 : Int) ≤ 2 ∧ (2 : Int) * 2 ≤ maxInt) ∧
    GetPaginatedRecipes
      [("1", pasta), ("2", salad), ("3", stew), ("4", pasta), ("5", salad)] 2 2
      = some [stew, pasta] :=
  ⟨⟨by decide, by decide⟩,
    ((C6_GetPaginatedRecipes_page
        [("1", pasta), ("2", salad), ("3", stew), ("4", pasta), ("5", salad)] 2 2
        (by decide) (by decide) (by decide)).2
      ("1", pasta) ("2", salad) ("3", stew) ("4", pasta) ("5", salad)).1⟩

/-- C7 (counterexample).  `GetPaginatedRecipes` ends in a slice-bounds panic
for `page = 0, pageSize = 1` (`allRecipes[-1:0]`, even on an empty store) and
for `page = 1, pageSize = -1` on a store of one recipe (`allRecipes[0:-1]`). -/
theorem C7_GetPaginatedRecipes_panics :
    GetPaginatedRecipes [] 0 1 = none ∧
    GetPaginatedRecipes [("1", pasta)] 1 (-1) = none := by
  constructor
  · simp [GetPaginatedRecipes, RecipeService.GetAllRecipes, InMemoryRecipeRepository.FindAll,
      wrap64]
  · simp [GetPaginatedRecipes, RecipeService.GetAllRecipes, InMemoryRecipeRepository.FindAll,
      wrap64]

/-- C7 (amended).  For every `page >= 1` and `pageSize >= 0` (both of type
`int`) whose product does not overflow, and every store content,
`GetPaginatedRecipes` returns a sequence and does not panic: the sequence is
empty when `start` is past the end, and otherwise it has at most `pageSize`
elements and stops at the end of the collection. -/
theorem C7_GetPaginatedRecipes_no_fault (iter : GoMap Recipe) (page pageSize : Int)
    (hp : 1 ≤ page) (hpm : page ≤ maxInt) (hs : 0 ≤ pageSize)
    (hprod : page * pageSize ≤ maxInt) :
    ∃ r, GetPaginatedRecipes iter page pageSize = some r ∧
      (((InMemoryRecipeRepository.FindAll iter).length : Int) ≤ (page - 1) * pageSize →
        r = []) ∧
      (r.length : Int) ≤ pageSize ∧
      ((page - 1) * pageSize + (r.length : Int) ≤ (InMemoryRecipeRepository.FindAll iter).length
        ∨ r = []) := by
  rw [GetPaginatedRecipes_eq iter page pageSize hp hpm hs hprod]
  have h0 : 0 ≤ (page - 1) * pageSize := Int.mul_nonneg (by omega) hs
  generalize (page - 1) * pageSize = start at *
  generalize InMemoryRecipeRepository.FindAll iter = L at *
  refine ⟨_, rfl, ?_, ?_, ?_⟩
  · intro h; simp [h]
  · by_cases c : (L.length : Int) ≤ start
    · simp only [c, if_true, List.length_nil]; omega
    · simp only [c, if_false, List.length_take, List.length_drop]; omega
  · by_cases c : (L.length : Int) ≤ start
    · right; simp [c]
    · left
      simp only [c, if_false, List.length_take, List.length_drop]; omega

/-- C7 (amended), witness: page 1 of size 0 over one stored recipe. -/
theorem C7_GetPaginatedRecipes_no_fault_witness :
    ((1 : Int) ≤ 1 ∧ (1 : Int) ≤ maxInt ∧ (0 : Int) ≤ 0 ∧ (1 : Int) * 0 ≤ maxInt) ∧
    ∃ r, GetPaginatedRecipes [("1", pasta)] 1 0 = some r ∧
      (((InMemoryRecipeRepository.FindAll [("1", pasta)]).length : Int) ≤ (1 - 1) * 0 →
        r = []) ∧
      (r.length : Int) ≤ 0 ∧
      ((1 - 1) * 0 + (r.length : Int) ≤ (InMemoryRecipeRepository.FindAll [("1", pasta)]).length
        ∨ r = []) :=
  ⟨⟨by decide, by decide, by decide, by decide⟩,
    C7_GetPaginatedRecipes_no_fault [("1", pasta)] 1 0 (by decide) (by decide) (by decide)
      (by decide)⟩

/-! ## Floating point: lemmas -/

namespace float64

/-- Rounding to an integer does not pass an integer below the number. -/
theorem le_roundHalfEven (x : ℚ) (n : Int) (h : (n : ℚ) ≤ x) : n ≤ roundHalfEven x := by
  have hf : n ≤ ⌊x⌋ := Int.le_floor.mpr h
  unfold roundHalfEven
  simp only
  split_ifs <;> omega

/-- Rounding to an integer does not pass an integer above the number. -/
theorem roundHalfEven_le (x : ℚ) (n : Int) (h : x ≤ (n : ℚ)) : roundHalfEven x ≤ n := by
  have hf : ⌊x⌋ ≤ n := by exact_mod_cast (Int.floor_le x).trans h
  unfold roundHalfEven
  simp only
  by_cases hlt : x - ⌊x⌋ < 1 / 2
  · rw [if_pos hlt]; exact hf
  · have hne : ⌊x⌋ ≠ n := by
      intro e
      rw [e] at hlt
      apply hlt
      linarith
    have : ⌊x⌋ + 1 ≤ n := by omega
    rw [if_neg hlt]
    split_ifs <;> omega

/-- An integer rounds to itself. -/
theorem roundHalfEven_intCast (n : Int) : roundHalfEven (n : ℚ) = n :=
  le_antisymm (roundHalfEven_le _ _ le_rfl) (le_roundHalfEven _ _ le_rfl)

/-- The spacing is positive. -/
theorem ulp_pos (q : ℚ) : 0 < ulp q := by
  unfold ulp
  positivity

/-- Zero is a `float64`. -/
theorem round_zero : round 0 = 0 := by
  unfold round roundHalfEven
  simp

/-- Every multiple of `2 ^ j` is a multiple of the spacing at `q`, when `q`
lies below `2 ^ (j + 53)` and `j` is at least the exponent of the smallest
subnormal number. -/
theorem ulp_grid (q : ℚ) (m j : Int) (h0 : q ≠ 0) (hj : -1074 ≤ j)
    (hq : |q| < (2 : ℚ) ^ (j + 53)) :
    ∃ z : Int, (m : ℚ) * (2 : ℚ) ^ j = (z : ℚ) * ulp q := by
  have hpos : 0 < |q| := abs_pos.mpr h0
  have hlog := (Int.lt_zpow_iff_log_lt (b := 2) (by norm_num) hpos (x := j + 53)).mp
    (by simpa using hq)
  have hk : max (Int.log 2 |q|) (-1022) - 52 ≤ j := by omega
  obtain ⟨d, hd⟩ := Int.eq_ofNat_of_zero_le (sub_nonneg.mpr hk)
  refine ⟨m * 2 ^ d, ?_⟩
  have hj2 : j = (d : Int) + (max (Int.log 2 |q|) (-1022) - 52) := by omega
  unfold ulp
  rw [hj2, zpow_add₀ (by norm_num : (2 : ℚ) ≠ 0)]
  push_cast
  rw [zpow_natCast]
  ring

/-- Rounding does not pass a multiple of the spacing below the number. -/
theorem le_round (a q : ℚ) (haq : a ≤ q) (z : Int) (ha : a = (z : ℚ) * ulp q) :
    a ≤ round q := by
  have hu := ulp_pos q
  have h1 : (z : ℚ) ≤ q / ulp q := by
    rw [le_div_iff₀ hu, ← ha]
    exact haq
  have h2 := le_roundHalfEven _ _ h1
  unfold round
  rw [ha]
  exact mul_le_mul_of_nonneg_right (by exact_mod_cast h2) hu.le

/-- Rounding does not pass a multiple of the spacing above the number. -/
theorem round_le (q b : ℚ) (hqb : q ≤ b) (z : Int) (hb : b = (z : ℚ) * ulp q) :
    round q ≤ b := by
  have hu := ulp_pos q
  have h1 : q / ulp q ≤ (z : ℚ) := by
    rw [div_le_iff₀ hu, ← hb]
    exact hqb
  have h2 := roundHalfEven_le _ _ h1
  unfold round
  rw [hb]
  exact mul_le_mul_of_nonneg_right (by exact_mod_cast h2) hu.le

/-- A number `m * 2 ^ j` with `|m| < 2 ^ 53` and `j` at least the exponent of the
smallest subnormal number is a `float64`: rounding leaves it as it is. -/
theorem round_exact (m j : Int) (hj : -1074 ≤ j) (hm : |m| < 2 ^ 53) :
    round ((m : ℚ) * (2 : ℚ) ^ j) = (m : ℚ) * (2 : ℚ) ^ j := by
  by_cases h0 : (m : ℚ) * (2 : ℚ) ^ j = 0
  · rw [h0, round_zero]
  · have hq : |(m : ℚ) * (2 : ℚ) ^ j| < (2 : ℚ) ^ (j + 53) := by
      rw [abs_mul, abs_of_pos (by positivity : (0 : ℚ) < (2 : ℚ) ^ j),
        zpow_add₀ (by norm_num : (2 : ℚ) ≠ 0), mul_comm]
      apply mul_lt_mul_of_pos_left _ (by positivity)
      have : ((|m| : Int) : ℚ) < ((2 ^ 53 : Int) : ℚ) := by exact_mod_cast hm
      rw [Int.cast_abs] at this
      rw [show (53 : Int) = ((53 : Nat) : Int) by rfl, zpow_natCast]
      exact_mod_cast this
    obtain ⟨z, hz⟩ := ulp_grid _ m j h0 hj hq
    exact le_antisymm (round_le _ _ le_rfl z hz) (le_round _ _ le_rfl z hz)

/-- Integers of magnitude up to `2 ^ 53` are converted exactly. -/
theorem ofInt_exact (n : Int) (hn : |n| ≤ 2 ^ 53) : ofInt n = (n : ℚ) := by
  unfold ofInt
  by_cases hlt : |n| < 2 ^ 53
  · have := round_exact n 0 (by norm_num) hlt
    simpa using this
  · have hcases : n = 2 ^ 53 ∨ n = -2 ^ 53 := by
      have : |n| = 2 ^ 53 := by omega
      rcases abs_cases n with ⟨h, _⟩ | ⟨h, _⟩ <;> omega
    rcases hcases with h | h
    · have := round_exact 1 53 (by norm_num) (by norm_num)
      rw [h]
      norm_num at this ⊢
      exact this
    · have := round_exact (-1) 53 (by norm_num) (by norm_num)
      rw [h]
      norm_num at this ⊢
      exact this

/-- Rounding keeps a number between two multiples `a = m * 2 ^ j` and
`b = n * 2 ^ j` that enclose it. -/
theorem round_mem_Icc (q : ℚ) (m n j : Int) (hj : -1074 ≤ j)
    (hq : |q| < (2 : ℚ) ^ (j + 53))
    (hlo : (m : ℚ) * (2 : ℚ) ^ j ≤ q) (hhi : q ≤ (n : ℚ) * (2 : ℚ) ^ j) :
    (m : ℚ) * (2 : ℚ) ^ j ≤ round q ∧ round q ≤ (n : ℚ) * (2 : ℚ) ^ j := by
  by_cases h0 : q = 0
  · subst h0
    rw [round_zero]
    exact ⟨hlo, hhi⟩
  · obtain ⟨z1, hz1⟩ := ulp_grid q m j h0 hj hq
    obtain ⟨z2, hz2⟩ := ulp_grid q n j h0 hj hq
    exact ⟨le_round _ _ hlo z1 hz1, round_le _ _ hhi z2 hz2⟩

/-- The spacing in the binade `2 ^ e ≤ |q| < 2 ^ (e + 1)` of a normal number. -/
theorem ulp_binade (q : ℚ) (e : Int) (he : -1022 ≤ e) (hlo : (2 : ℚ) ^ e ≤ |q|)
    (hhi : |q| < (2 : ℚ) ^ (e + 1)) : ulp q = (2 : ℚ) ^ (e - 52) := by
  have hpos : 0 < |q| := lt_of_lt_of_le (by positivity) hlo
  have h1 := (Int.zpow_le_iff_le_log (b := 2) (by norm_num) hpos (x := e)).mp
    (by simpa using hlo)
  have h2 := (Int.lt_zpow_iff_log_lt (b := 2) (by norm_num) hpos (x := e + 1)).mp
    (by simpa using hhi)
  have h3 : Int.log 2 |q| = e := by omega
  unfold ulp
  rw [h3, max_eq_left he]

/-- Rounding to an integer moves a number by at most 1/2. -/
theorem abs_roundHalfEven_sub_le (x : ℚ) : |(roundHalfEven x : ℚ) - x| ≤ 1 / 2 := by
  have h1 := Int.floor_le x
  have h2 := Int.lt_floor_add_one x
  unfold roundHalfEven
  simp only
  rw [abs_le]
  split_ifs <;> push_cast <;> constructor <;> linarith

/-- Rounding moves a number by at most half the spacing: the result is a
nearest `float64`. -/
theorem abs_round_sub_le (q : ℚ) : |round q - q| ≤ ulp q / 2 := by
  have hu := ulp_pos q
  have h := abs_roundHalfEven_sub_le (q / ulp q)
  have e : round q - q = ((roundHalfEven (q / ulp q) : ℚ) - q / ulp q) * ulp q := by
    unfold round
    field_simp
  rw [e, abs_mul, abs_of_pos hu]
  calc |(roundHalfEven (q / ulp q) : ℚ) - q / ulp q| * ulp q ≤ 1 / 2 * ulp q :=
        mul_le_mul_of_nonneg_right h hu.le
    _ = ulp q / 2 := by ring

/-- The `float64` nearest to 4/3. -/
theorem round_four_thirds :
    round (4 / 3) = 6004799503160661 / 4503599627370496 := by
  have hu : ulp (4 / 3) = (2 : ℚ) ^ ((0 : Int) - 52) :=
    ulp_binade (4 / 3) 0 (by norm_num) (by norm_num [abs_of_pos]) (by norm_num [abs_of_pos])
  have hv : (2 : ℚ) ^ ((0 : Int) - 52) = 1 / 4503599627370496 := by
    norm_num [zpow_neg]
  have hf : ⌊(4 / 3 : ℚ) / (1 / 4503599627370496)⌋ = 6004799503160661 := by
    rw [Int.floor_eq_iff]
    constructor <;> norm_num
  unfold round
  rw [hu, hv]
  unfold roundHalfEven
  simp only [hf]
  norm_num

/-- Rounding a number of magnitude at most `2 ^ 63` gives a number of
magnitude at most `2 ^ 63`. -/
theorem abs_round_le (q : ℚ) (h : |q| ≤ 2 ^ 63) : |round q| ≤ 2 ^ 63 := by
  have h2 := abs_le.1 h
  have hin := round_mem_Icc q (-1) 1 63 (by norm_num)
    (lt_of_le_of_lt h (by norm_num))
    (by norm_num; linarith) (by norm_num; linarith)
  rw [abs_le]
  constructor
  · have := hin.1
    norm_num at this
    linarith
  · have := hin.2
    norm_num at this
    linarith

/-- Rounding a number that is at least 1 gives a number that is at least 1. -/
theorem one_le_round (q : ℚ) (h : 1 ≤ q) : 1 ≤ round q := by
  have hpos : 0 < |q| := by rw [abs_of_pos (by linarith)]; linarith
  have habs : |q| = q := abs_of_pos (by linarith)
  have hlog : 0 ≤ Int.log 2 |q| := by
    apply (Int.zpow_le_iff_le_log (b := 2) (by norm_num) hpos (x := 0)).mp
    rw [habs]
    simpa using h
  have hle : (2 : ℚ) ^ (Int.log 2 |q|) ≤ q := by
    have := Int.zpow_log_le_self (b := 2) (by norm_num) hpos
    rw [habs] at this ⊢
    simpa using this
  have hu : ulp q = (2 : ℚ) ^ (Int.log 2 |q| - 52) := by
    unfold ulp
    rw [max_eq_left (by omega)]
  have hgrid : (2 : ℚ) ^ (Int.log 2 |q|) = ((2 ^ 52 : Int) : ℚ) * ulp q := by
    rw [hu, zpow_sub₀ (by norm_num : (2 : ℚ) ≠ 0)]
    norm_num
    ring
  have h1 := le_round _ q hle _ hgrid
  have h2 : (1 : ℚ) ≤ (2 : ℚ) ^ (Int.log 2 |q|) := one_le_zpow₀ (by norm_num) hlog
  linarith

/-- The conversion of `2^53 + 1` to `float64` gives `2^53`. -/
theorem ofInt_inexact : ofInt 9007199254740993 = 9007199254740992 := by
  have hu : ulp (9007199254740993 : ℚ) = (2 : ℚ) ^ ((53 : Int) - 52) :=
    ulp_binade _ 53 (by norm_num) (by norm_num [abs_of_pos])
      (by norm_num [abs_of_pos])
  have hf : ⌊(9007199254740993 : ℚ) / 2⌋ = 4503599627370496 := by
    rw [Int.floor_eq_iff]
    constructor <;> norm_num
  unfold ofInt round
  push_cast
  rw [hu]
  norm_num
  unfold roundHalfEven
  simp only [hf]
  norm_num

end float64

/-! ## Ratings -/

theorem foldl_filter_values (iter : GoMap Rating) (recipeID : String) (acc : List Rating) :
    iter.foldl
        (fun result e => if e.2.RecipeID = recipeID then result ++ [e.2] else result) acc
      = acc ++ (iter.map Prod.snd).filter (fun x => decide (x.RecipeID = recipeID)) := by
  induction iter generalizing acc with
  | nil => simp
  | cons e rest ih =>
    simp only [List.foldl_cons, List.map_cons, List.filter_cons]
    by_cases c : e.2.RecipeID = recipeID
    · simp [c, ih]
    · simp [c, ih]

theorem FindByRecipeID_eq_filter (iter : GoMap Rating) (recipeID : String) :
    InMemoryRatingRepository.FindByRecipeID iter recipeID =
      (iter.map Prod.snd).filter (fun x => decide (x.RecipeID = recipeID)) := by
  unfold InMemoryRatingRepository.FindByRecipeID
  rw [foldl_filter_values]
  simp

theorem foldl_sumScores (ratings : List Rating) (acc : Int) :
    ratings.foldl (fun total rating => wrap64 (total + rating.Score)) (wrap64 acc)
      = wrap64 (acc + (ratings.map (fun x => x.Score)).sum) := by
  induction ratings generalizing acc with
  | nil => simp
  | cons x rest ih =>
    simp only [List.foldl_cons, List.map_cons, List.sum_cons]
    rw [wrap64_add_left, ih, add_assoc]

theorem sumScores_eq (ratings : List Rating) :
    sumScores ratings = wrap64 ((ratings.map (fun x => x.Score)).sum) := by
  have h := foldl_sumScores ratings 0
  have z : wrap64 0 = 0 := by unfold wrap64; norm_num
  rw [z] at h
  unfold sumScores
  rw [h]
  simp

/-- What `GetAverageRatingForRecipe` computes, in terms of the stored ratings
with the recipe id. -/
theorem GetAverageRatingForRecipe_eq (iter : GoMap Rating) (recipeID : String) :
    GetAverageRatingForRecipe iter recipeID =
      if ((iter.map Prod.snd).filter (fun x => decide (x.RecipeID = recipeID))).length = 0
      then 0
      else float64.div
        (float64.ofInt (wrap64 ((((iter.map Prod.snd).filter
          (fun x => decide (x.RecipeID = recipeID))).map (fun x => x.Score)).sum)))
        (float64.ofInt ((((iter.map Prod.snd).filter
          (fun x => decide (x.RecipeID = recipeID))).length : Nat) : Int)) := by
  unfold GetAverageRatingForRecipe
  simp only [FindByRecipeID_eq_filter, sumScores_eq]

/-- The `int` range of `wrap64`. -/
theorem wrap64_range (x : Int) : minInt ≤ wrap64 x ∧ wrap64 x ≤ maxInt := by
  unfold wrap64 minInt maxInt
  norm_num
  omega

/-- The value of `GetAverageRatingForRecipe` has a magnitude of at most
`2 ^ 63`: no conversion and no division leaves the finite `float64` numbers. -/
theorem GetAverageRatingForRecipe_finite (iter : GoMap Rating) (recipeID : String) :
    |GetAverageRatingForRecipe iter recipeID| ≤ 2 ^ 63 := by
  rw [GetAverageRatingForRecipe_eq]
  generalize (iter.map Prod.snd).filter (fun x => decide (x.RecipeID = recipeID)) = sel
  split_ifs with h
  · norm_num
  · have hw := wrap64_range (sel.map (fun x => x.Score)).sum
    generalize wrap64 (sel.map (fun x => x.Score)).sum = total at hw
    unfold minInt maxInt at hw
    have ht : |(total : ℚ)| ≤ 2 ^ 63 := by
      rw [abs_le]
      constructor
      · have : ((-(2 ^ 63) : Int) : ℚ) ≤ (total : ℚ) := by exact_mod_cast hw.1
        simpa using this
      · have : (total : ℚ) ≤ ((2 ^ 63 - 1 : Int) : ℚ) := by exact_mod_cast hw.2
        push_cast at this
        linarith
    have ha := float64.abs_round_le _ ht
    have hlen : (1 : ℚ) ≤ (((sel.length : Nat) : Int) : ℚ) := by
      have : 1 ≤ sel.length := by omega
      exact_mod_cast this
    have hb := float64.one_le_round _ hlen
    unfold float64.div float64.ofInt
    apply float64.abs_round_le
    have hbpos : 0 < float64.round (((sel.length : Nat) : Int) : ℚ) := by linarith
    rw [abs_div, abs_of_pos hbpos, div_le_iff₀ hbpos]
    calc |float64.round (total : ℚ)| ≤ 2 ^ 63 := ha
      _ ≤ 2 ^ 63 * float64.round (((sel.length : Nat) : Int) : ℚ) := by nlinarith

/-- C8 (counterexample).  Three stored ratings of one recipe with the scores
1, 1 and 2: the function returns the `float64` nearest to 4/3, which is
`6004799503160661 / 2^52`, not the exact quotient 4/3 of the sum of the
scores by their count.  One stored rating with the score `2^53 + 1`: the
conversion `float64(total)` rounds to `2^53`, which the function returns.
And two stored ratings with the scores `2^62` and `2^62`: the loop
`total += rating.Score` wraps to `-2^63`, so the function returns `-2^62`,
whereas the quotient of the sum by the count is `2^62`. -/
theorem C8_average_not_exact :
    (GetAverageRatingForRecipe
        [("a", ⟨"a", "r", "u", 1, "", 0, 0⟩), ("b", ⟨"b", "r", "v", 1, "", 0, 0⟩),
         ("c", ⟨"c", "r", "w", 2, "", 0, 0⟩)] "r"
      = 6004799503160661 / 4503599627370496 ∧
    GetAverageRatingForRecipe
        [("a", ⟨"a", "r", "u", 1, "", 0, 0⟩), ("b", ⟨"b", "r", "v", 1, "", 0, 0⟩),
         ("c", ⟨"c", "r", "w", 2, "", 0, 0⟩)] "r"
      ≠ (((1 + 1 + 2 : Int) : ℚ) / ((3 : Nat) : ℚ))) ∧
    (GetAverageRatingForRecipe [("a", ⟨"a", "r", "u", 9007199254740993, "", 0, 0⟩)] "r"
      = 9007199254740992 ∧
    GetAverageRatingForRecipe [("a", ⟨"a", "r", "u", 9007199254740993, "", 0, 0⟩)] "r"
      ≠ (((9007199254740993 : Int) : ℚ) / ((1 : Nat) : ℚ))) ∧
    (GetAverageRatingForRecipe
        [("a", ⟨"a", "r", "u", 4611686018427387904, "", 0, 0⟩),
         ("b", ⟨"b", "r", "v", 4611686018427387904, "", 0, 0⟩)] "r"
      = -4611686018427387904 ∧
    GetAverageRatingForRecipe
        [("a", ⟨"a", "r", "u", 4611686018427387904, "", 0, 0⟩),
         ("b", ⟨"b", "r", "v", 4611686018427387904, "", 0, 0⟩)] "r"
      ≠ (((4611686018427387904 + 4611686018427387904 : Int) : ℚ) / ((2 : Nat) : ℚ))) := by
  have e1 : GetAverageRatingForRecipe
        [("a", ⟨"a", "r", "u", 1, "", 0, 0⟩), ("b", ⟨"b", "r", "v", 1, "", 0, 0⟩),
         ("c", ⟨"c", "r", "w", 2, "", 0, 0⟩)] "r"
      = 6004799503160661 / 4503599627370496 := by
    have hw : wrap64 4 = 4 := by unfold wrap64; norm_num
    have h4 := float64.ofInt_exact 4 (by norm_num)
    have h3 := float64.ofInt_exact 3 (by norm_num)
    rw [GetAverageRatingForRecipe_eq]
    simp only [List.map_cons, List.map_nil, decide_True, List.filter_cons_of_pos,
      List.filter_nil, List.length_cons, List.length_nil, List.sum_cons, List.sum_nil]
    norm_num
    rw [hw, h4, h3]
    unfold float64.div
    push_cast
    exact float64.round_four_thirds
  have e2 : GetAverageRatingForRecipe
        [("a", ⟨"a", "r", "u", 4611686018427387904, "", 0, 0⟩),
         ("b", ⟨"b", "r", "v", 4611686018427387904, "", 0, 0⟩)] "r"
      = -4611686018427387904 := by
    have hw : wrap64 9223372036854775808 = -9223372036854775808 := by
      unfold wrap64; norm_num
    have h2 := float64.ofInt_exact 2 (by norm_num)
    have ht : float64.ofInt (-9223372036854775808) = -9223372036854775808 := by
      have := float64.round_exact (-1) 63 (by norm_num) (by norm_num)
      unfold float64.ofInt
      norm_num at this ⊢
      exact this
    have hq : float64.round (-4611686018427387904) = -4611686018427387904 := by
      have := float64.round_exact (-1) 62 (by norm_num) (by norm_num)
      norm_num at this ⊢
      exact this
    rw [GetAverageRatingForRecipe_eq]
    simp only [List.map_cons, List.map_nil, decide_True, List.filter_cons_of_pos,
      List.filter_nil, List.length_cons, List.length_nil, List.sum_cons, List.sum_nil]
    norm_num
    rw [hw, ht, h2]
    unfold float64.div
    norm_num
    exact hq
  have e3 : GetAverageRatingForRecipe
        [("a", ⟨"a", "r", "u", 9007199254740993, "", 0, 0⟩)] "r" = 9007199254740992 := by
    have hw : wrap64 9007199254740993 = 9007199254740993 := by unfold wrap64; norm_num
    have h1 := float64.ofInt_exact 1 (by norm_num)
    have hq : float64.round 9007199254740992 = 9007199254740992 := by
      have := float64.round_exact 1 53 (by norm_num) (by norm_num)
      norm_num at this ⊢
      exact this
    rw [GetAverageRatingForRecipe_eq]
    simp only [List.map_cons, List.map_nil, decide_True, List.filter_cons_of_pos,
      List.filter_nil, List.length_cons, List.length_nil, List.sum_cons, List.sum_nil]
    norm_num
    rw [hw, float64.ofInt_inexact, h1]
    unfold float64.div
    norm_num
    exact hq
  refine ⟨⟨e1, ?_⟩, ⟨e3, ?_⟩, e2, ?_⟩
  · rw [e1]
    norm_num
  · rw [e3]
    norm_num
  · rw [e2]
    norm_num

/-- C8 (amended).  For every rating store and recipe id, whatever the order
`iter` in which the ratings are enumerated, `GetAverageRatingForRecipe`
returns 0 when no stored rating has that recipe id.  Otherwise, with `total`
the integer sum of the scores of the ratings with that recipe id and `count`
their number: when `total` fits in an `int`, the result is the `float64`
quotient `float64(total) / float64(count)`; when the magnitude of `total` and
`count` are at most `2^53`, it is the `float64` nearest to the exact quotient
`total / count`, at most half a unit in the last place away from it, and it
is the exact quotient whenever that is itself a `float64` (a number
`m * 2^j` with `|m| < 2^53` and `j ≥ -1074`).  In every case the result is
the same for every order of enumeration. -/
theorem C8_average_rating (r : InMemoryRatingRepository) (iter : GoMap Rating)
    (recipeID : String) (hiter : iter.Perm r.ratings) :
    ((∀ e ∈ r.ratings, e.2.RecipeID ≠ recipeID) →
      GetAverageRatingForRecipe iter recipeID = 0) ∧
    ((∃ e ∈ r.ratings, e.2.RecipeID = recipeID) →
      ∀ (total : Int) (count : Nat),
        total = (((r.ratings.map Prod.snd).filter
          (fun x => decide (x.RecipeID = recipeID))).map (fun x => x.Score)).sum →
        count = ((r.ratings.map Prod.snd).filter
          (fun x => decide (x.RecipeID = recipeID))).length →
        (minInt ≤ total → total ≤ maxInt →
          GetAverageRatingForRecipe iter recipeID =
            float64.div (float64.ofInt total) (float64.ofInt (count : Int))) ∧
        (|total| ≤ 2 ^ 53 → (count : Int) ≤ 2 ^ 53 →
          GetAverageRatingForRecipe iter recipeID
            = float64.round ((total : ℚ) / (count : ℚ)) ∧
          |GetAverageRatingForRecipe iter recipeID - (total : ℚ) / (count : ℚ)|
            ≤ float64.ulp ((total : ℚ) / (count : ℚ)) / 2 ∧
          (∀ m j : Int, -1074 ≤ j → |m| < 2 ^ 53 →
            (total : ℚ) / (count : ℚ) = (m : ℚ) * (2 : ℚ) ^ j →
            GetAverageRatingForRecipe iter recipeID = (total : ℚ) / (count : ℚ)))) ∧
    (∀ iter2 : GoMap Rating, iter2.Perm r.ratings →
      GetAverageRatingForRecipe iter2 recipeID = GetAverageRatingForRecipe iter recipeID) := by
  have hperm : ((iter.map Prod.snd).filter (fun x => decide (x.RecipeID = recipeID))).Perm
      ((r.ratings.map Prod.snd).filter (fun x => decide (x.RecipeID = recipeID))) :=
    (hiter.map Prod.snd).filter _
  refine ⟨?_, ?_, ?_⟩
  · intro hnone
    have e : (r.ratings.map Prod.snd).filter (fun x => decide (x.RecipeID = recipeID)) = [] := by
      rw [List.filter_eq_nil_iff]
      intro x hx
      rw [List.mem_map] at hx
      obtain ⟨e, he, rfl⟩ := hx
      simpa using hnone e he
    rw [e] at hperm
    unfold GetAverageRatingForRecipe
    simp only [FindByRecipeID_eq_filter]
    rw [hperm.eq_nil]
    simp
  · intro hsome total count htotal hcount
    obtain ⟨e, he, hid⟩ := hsome
    have hmem : e.2 ∈ (r.ratings.map Prod.snd).filter
        (fun x => decide (x.RecipeID = recipeID)) := by
      rw [List.mem_filter]
      exact ⟨List.mem_map_of_mem _ he, by simpa using hid⟩
    have hpos : 0 < count := by
      rw [hcount]
      exact List.length_pos_of_mem hmem
    have hgen : minInt ≤ total → total ≤ maxInt →
        GetAverageRatingForRecipe iter recipeID =
          float64.div (float64.ofInt total) (float64.ofInt (count : Int)) := by
      intro hlo hhi
      rw [GetAverageRatingForRecipe_eq, (hperm.map (fun x => x.Score)).sum_eq,
        hperm.length_eq, ← htotal, ← hcount, wrap64_of_range _ hlo hhi]
      rw [if_neg (by omega)]
    refine ⟨hgen, ?_⟩
    intro ht hc
    have ht2 := abs_le.1 ht
    have hround : GetAverageRatingForRecipe iter recipeID
        = float64.round ((total : ℚ) / (count : ℚ)) := by
      rw [hgen (by unfold minInt; omega) (by unfold maxInt; omega),
        float64.ofInt_exact total ht,
        float64.ofInt_exact (count : Int) (by rw [abs_of_nonneg (by omega)]; exact hc)]
      unfold float64.div
      push_cast
      rfl
    refine ⟨hround, ?_, ?_⟩
    · rw [hround]
      exact float64.abs_round_sub_le _
    · intro m j hj hm hq
      rw [hround, hq]
      exact float64.round_exact m j hj hm
  · intro iter2 h2
    have hp2 : ((iter2.map Prod.snd).filter (fun x => decide (x.RecipeID = recipeID))).Perm
        ((iter.map Prod.snd).filter (fun x => decide (x.RecipeID = recipeID))) :=
      ((h2.trans hiter.symm).map Prod.snd).filter _
    rw [GetAverageRatingForRecipe_eq, GetAverageRatingForRecipe_eq,
      (hp2.map (fun x => x.Score)).sum_eq, hp2.length_eq]

/-- C8 (amended), witness: the ratings 5, 5, 5, 1 of recipe `"r"`, stored next
to a rating of another recipe and enumerated in another order, average to 4. -/
theorem C8_average_rating_witness :
    (List.Perm
      [("d", (⟨"d", "r", "u4", 1, "", 0, 0⟩ : Rating)), ("x", ⟨"x", "q", "u1", 2, "", 0, 0⟩),
        ("c", ⟨"c", "r", "u3", 5, "", 0, 0⟩), ("b", ⟨"b", "r", "u2", 5, "", 0, 0⟩),
        ("a", ⟨"a", "r", "u1", 5, "", 0, 0⟩)]
      fiveFiveFiveOne.ratings) ∧
    GetAverageRatingForRecipe
      [("d", ⟨"d", "r", "u4", 1, "", 0, 0⟩), ("x", ⟨"x", "q", "u1", 2, "", 0, 0⟩),
        ("c", ⟨"c", "r", "u3", 5, "", 0, 0⟩), ("b", ⟨"b", "r", "u2", 5, "", 0, 0⟩),
        ("a", ⟨"a", "r", "u1", 5, "", 0, 0⟩)] "r" = 4 := by
  have hp : List.Perm
      [("d", (⟨"d", "r", "u4", 1, "", 0, 0⟩ : Rating)), ("x", ⟨"x", "q", "u1", 2, "", 0, 0⟩),
        ("c", ⟨"c", "r", "u3", 5, "", 0, 0⟩), ("b", ⟨"b", "r", "u2", 5, "", 0, 0⟩),
        ("a", ⟨"a", "r", "u1", 5, "", 0, 0⟩)]
      fiveFiveFiveOne.ratings := by
    unfold fiveFiveFiveOne
    decide
  refine ⟨hp, ?_⟩
  have h := (((C8_average_rating fiveFiveFiveOne _ "r" hp).2.1
    ⟨("a", ⟨"a", "r", "u1", 5, "", 0, 0⟩), by simp [fiveFiveFiveOne], rfl⟩
    16 4 (by simp [fiveFiveFiveOne]) (by simp [fiveFiveFiveOne])).2
    (by norm_num) (by norm_num)).2.2 4 0 (by norm_num) (by norm_num) (by norm_num)
  rw [h]
  norm_num

/-! ## Rating ownership -/

theorem mapLookup_mapStore_same {V : Type} (m : GoMap V) (k : String) (v : V) :
    mapLookup (mapStore m k v) k = some v := by
  induction m with
  | nil => simp [mapStore, mapLookup]
  | cons e rest ih =>
    obtain ⟨k', v'⟩ := e
    by_cases c : k' = k
    · simp [mapStore, mapLookup, c]
    · simp [mapStore, mapLookup, c, ih]

/-- The outcome of `UpdateRating` by cases on the lookup of `id`. -/
theorem UpdateRating_cases (r : InMemoryRatingRepository) (now : Int) (id userID : String)
    (input : RatingInput) :
    (mapLookup r.ratings id = none ∧
      RatingService.UpdateRating r now id userID input = (.error errRatingNotFound, r)) ∨
    (∃ rating, mapLookup r.ratings id = some rating ∧ rating.UserID ≠ userID ∧
      RatingService.UpdateRating r now id userID input = (.error errUnauthorized, r)) ∨
    (∃ rating, mapLookup r.ratings id = some rating ∧ rating.UserID = userID ∧
      RatingService.UpdateRating r now id userID input =
        (.ok (UpdateRating now rating input),
          ⟨mapStore r.ratings id (UpdateRating now rating input)⟩)) := by
  cases h : mapLookup r.ratings id with
  | none =>
    left
    simp [RatingService.UpdateRating, InMemoryRatingRepository.FindByID, h, errRatingNotFound]
  | some rating =>
    right
    by_cases c : rating.UserID = userID
    · right
      exact ⟨rating, rfl, c, by
        simp [RatingService.UpdateRating, InMemoryRatingRepository.FindByID,
          InMemoryRatingRepository.Update, h, c]⟩
    · left
      exact ⟨rating, rfl, c, by
        simp [RatingService.UpdateRating, InMemoryRatingRepository.FindByID, h, c]⟩

/-- The outcome of `DeleteRating` by cases on the lookup of `id`. -/
theorem DeleteRating_cases (r : InMemoryRatingRepository) (id userID : String) :
    (mapLookup r.ratings id = none ∧
      RatingService.DeleteRating r id userID = (some errRatingNotFound, r)) ∨
    (∃ rating, mapLookup r.ratings id = some rating ∧ rating.UserID ≠ userID ∧
      RatingService.DeleteRating r id userID = (some errUnauthorized, r)) ∨
    (∃ rating, mapLookup r.ratings id = some rating ∧ rating.UserID = userID ∧
      RatingService.DeleteRating r id userID = (none, ⟨mapDelete r.ratings id⟩)) := by
  cases h : mapLookup r.ratings id with
  | none =>
    left
    simp [RatingService.DeleteRating, InMemoryRatingRepository.FindByID, h, errRatingNotFound]
  | some rating =>
    right
    by_cases c : rating.UserID = userID
    · right
      exact ⟨rating, rfl, c, by
        simp [RatingService.DeleteRating, InMemoryRatingRepository.FindByID,
          InMemoryRatingRepository.Delete, h, c]⟩
    · left
      exact ⟨rating, rfl, c, by
        simp [RatingService.DeleteRating, InMemoryRatingRepository.FindByID, h, c]⟩

/-- C9.  `UpdateRating` and `DeleteRating` are atomic on failure: whenever
either returns an error, the rating store after the call equals the store
before it.  In particular, after user A has created a rating, an update or a
delete attempted by another user B fails with the unauthorized error and
leaves the store, and so the stored rating, unchanged. -/
theorem C9_rating_mutation_atomic_on_failure (r : InMemoryRatingRepository) (now : Int)
    (id userID : String) (input : RatingInput) :
    (∀ err, (RatingService.UpdateRating r now id userID input).1 = .error err →
      (RatingService.UpdateRating r now id userID input).2 = r) ∧
    (∀ err, (RatingService.DeleteRating r id userID).1 = some err →
      (RatingService.DeleteRating r id userID).2 = r) ∧
    (∀ (recipes : InMemoryRecipeRepository) (now0 : Int) (recipeID userA : String)
        (input0 : RatingInput) (rating : Rating) (r1 : InMemoryRatingRepository),
      RatingService.CreateRating recipes r now0 id recipeID userA input0 = (.ok rating, r1) →
      userA ≠ userID →
      mapLookup r1.ratings id = some rating ∧
      RatingService.UpdateRating r1 now id userID input = (.error errUnauthorized, r1) ∧
      RatingService.DeleteRating r1 id userID = (some errUnauthorized, r1)) := by
  refine ⟨?_, ?_, ?_⟩
  · intro err herr
    rcases UpdateRating_cases r now id userID input with ⟨_, e⟩ | ⟨_, _, _, e⟩ | ⟨_, _, _, e⟩
    · rw [e]
    · rw [e]
    · rw [e] at herr
      cases herr
  · intro err herr
    rcases DeleteRating_cases r id userID with ⟨_, e⟩ | ⟨_, _, _, e⟩ | ⟨_, _, _, e⟩
    · rw [e]
    · rw [e]
    · rw [e] at herr
      cases herr
  · intro recipes now0 recipeID userA input0 rating r1 hc hne
    have hcreated : rating = NewRating now0 id recipeID userA input0 ∧
        r1 = ⟨mapStore r.ratings id (NewRating now0 id recipeID userA input0)⟩ := by
      unfold RatingService.CreateRating at hc
      cases hg : RecipeService.GetRecipeByID recipes recipeID with
      | error e => rw [hg] at hc; simp at hc
      | ok v =>
        rw [hg] at hc
        simp only [InMemoryRatingRepository.Create, Prod.mk.injEq, Except.ok.injEq] at hc
        exact ⟨hc.1.symm, hc.2.symm⟩
    obtain ⟨e1, e2⟩ := hcreated
    have hl : mapLookup r1.ratings id = some rating := by
      rw [e2, e1]
      exact mapLookup_mapStore_same _ _ _
    have hu : rating.UserID ≠ userID := by
      rw [e1]
      exact hne
    refine ⟨hl, ?_, ?_⟩
    · rcases UpdateRating_cases r1 now id userID input with
        ⟨h, _⟩ | ⟨_, _, _, e⟩ | ⟨x, h, hx, _⟩
      · rw [hl] at h; cases h
      · exact e
      · rw [hl] at h
        cases h
        exact absurd hx hu
    · rcases DeleteRating_cases r1 id userID with ⟨h, _⟩ | ⟨_, _, _, e⟩ | ⟨x, h, hx, _⟩
      · rw [hl] at h; cases h
      · exact e
      · rw [hl] at h
        cases h
        exact absurd hx hu

/-- C10.  `UpdateRating` and `DeleteRating` fail in exactly two cases, with
distinct errors: with "rating not found" iff no rating is stored under the id
(whatever the user id), and with the unauthorized error iff a rating is stored
under the id and its `UserID` differs from the caller; they succeed iff a
rating is stored under the id and its `UserID` equals the caller. -/
theorem C10_rating_mutation_errors (r : InMemoryRatingRepository) (now : Int)
    (id userID : String) (input : RatingInput) :
    errRatingNotFound ≠ errUnauthorized ∧
    ((RatingService.UpdateRating r now id userID input).1 = .error errRatingNotFound ↔
      mapLookup r.ratings id = none) ∧
    ((RatingService.UpdateRating r now id userID input).1 = .error errUnauthorized ↔
      ∃ rating, mapLookup r.ratings id = some rating ∧ rating.UserID ≠ userID) ∧
    ((∃ updated, (RatingService.UpdateRating r now id userID input).1 = .ok updated) ↔
      ∃ rating, mapLookup r.ratings id = some rating ∧ rating.UserID = userID) ∧
    ((RatingService.DeleteRating r id userID).1 = some errRatingNotFound ↔
      mapLookup r.ratings id = none) ∧
    ((RatingService.DeleteRating r id userID).1 = some errUnauthorized ↔
      ∃ rating, mapLookup r.ratings id = some rating ∧ rating.UserID ≠ userID) ∧
    ((RatingService.DeleteRating r id userID).1 = none ↔
      ∃ rating, mapLookup r.ratings id = some rating ∧ rating.UserID = userID) := by
  have hd : errRatingNotFound ≠ errUnauthorized := by decide
  refine ⟨hd, ?_, ?_, ?_, ?_, ?_, ?_⟩
  · rcases UpdateRating_cases r now id userID input with
      ⟨h, e⟩ | ⟨x, h, hx, e⟩ | ⟨x, h, hx, e⟩
    · simp [e, h]
    · rw [e, h]
      simp only [reduceCtorEq, iff_false]
      intro hh
      exact hd (Except.error.inj hh).symm
    · simp [e, h]
  · rcases UpdateRating_cases r now id userID input with
      ⟨h, e⟩ | ⟨x, h, hx, e⟩ | ⟨x, h, hx, e⟩
    · rw [e, h]
      simp only [reduceCtorEq, false_and, exists_false, iff_false]
      intro hh
      exact hd (Except.error.inj hh)
    · rw [e, h]
      simp [hx]
    · rw [e, h]
      simp [hx]
  · rcases UpdateRating_cases r now id userID input with
      ⟨h, e⟩ | ⟨x, h, hx, e⟩ | ⟨x, h, hx, e⟩
    · simp [e, h]
    · simp [e, h, hx]
    · simp [e, h, hx]
  · rcases DeleteRating_cases r id userID with ⟨h, e⟩ | ⟨x, h, hx, e⟩ | ⟨x, h, hx, e⟩
    · simp [e, h]
    · rw [e, h]
      simp only [reduceCtorEq, iff_false]
      intro hh
      exact hd (Option.some.inj hh).symm
    · simp [e, h]
  · rcases DeleteRating_cases r id userID with ⟨h, e⟩ | ⟨x, h, hx, e⟩ | ⟨x, h, hx, e⟩
    · rw [e, h]
      simp only [reduceCtorEq, false_and, exists_false, iff_false]
      intro hh
      exact hd (Option.some.inj hh)
    · rw [e, h]
      simp [hx]
    · rw [e, h]
      simp [hx]
  · rcases DeleteRating_cases r id userID with ⟨h, e⟩ | ⟨x, h, hx, e⟩ | ⟨x, h, hx, e⟩
    · simp [e, h]
    · simp [e, h, hx]
    · simp [e, h, hx]

/-! ## Go maps: lemmas -/

theorem mapLookup_mapStore_other {V : Type} (m : GoMap V) (k k' : String) (v : V)
    (h : k' ≠ k) : mapLookup (mapStore m k v) k' = mapLookup m k' := by
  have hk : ¬ k = k' := fun e => h e.symm
  induction m with
  | nil => simp [mapStore, mapLookup, hk]
  | cons e rest ih =>
    obtain ⟨k0, v0⟩ := e
    by_cases c : k0 = k
    · subst c
      simp [mapStore, mapLookup, hk]
    · by_cases d : k0 = k'
      · subst d
        simp [mapStore, mapLookup, c]
      · simp [mapStore, mapLookup, c, d, ih]

theorem mapDelete_cons {V : Type} (k0 : String) (v0 : V) (rest : GoMap V) (k : String) :
    mapDelete ((k0, v0) :: rest) k =
      if k0 = k then mapDelete rest k else (k0, v0) :: mapDelete rest k := by
  unfold mapDelete
  by_cases c : k0 = k
  · simp [List.filter_cons, c]
  · simp [List.filter_cons, c]

theorem mapLookup_mapDelete_same {V : Type} (m : GoMap V) (k : String) :
    mapLookup (mapDelete m k) k = none := by
  induction m with
  | nil => simp [mapDelete, mapLookup]
  | cons e rest ih =>
    obtain ⟨k0, v0⟩ := e
    rw [mapDelete_cons]
    by_cases c : k0 = k
    · simp only [c, if_true, ih]
    · simp only [c, if_false, mapLookup, ih]

theorem mapLookup_mapDelete_other {V : Type} (m : GoMap V) (k k' : String) (h : k' ≠ k) :
    mapLookup (mapDelete m k) k' = mapLookup m k' := by
  induction m with
  | nil => simp [mapDelete, mapLookup]
  | cons e rest ih =>
    obtain ⟨k0, v0⟩ := e
    rw [mapDelete_cons]
    by_cases c : k0 = k
    · have d : ¬ k0 = k' := fun e => h (e.symm.trans c)
      simp only [c, if_true, mapLookup, ih]
      rw [← c, if_neg d]
    · by_cases d : k0 = k'
      · subst d
        simp only [c, if_false, mapLookup, if_true]
      · simp only [c, if_false, mapLookup, d, ih]

theorem mapStore_of_absent {V : Type} (m : GoMap V) (k : String) (v : V)
    (h : mapLookup m k = none) : mapStore m k v = m ++ [(k, v)] := by
  induction m with
  | nil => simp [mapStore]
  | cons e rest ih =>
    obtain ⟨k0, v0⟩ := e
    by_cases c : k0 = k
    · simp [mapLookup, c] at h
    · simp only [mapLookup, c, if_false] at h
      simp [mapStore, c, ih h]

theorem mem_of_mapLookup {V : Type} (m : GoMap V) (k : String) (v : V)
    (h : mapLookup m k = some v) : (k, v) ∈ m := by
  induction m with
  | nil => simp [mapLookup] at h
  | cons e rest ih =>
    obtain ⟨k0, v0⟩ := e
    by_cases c : k0 = k
    · simp only [mapLookup, c, if_true, Option.some.injEq] at h
      simp [c, h]
    · simp only [mapLookup, c, if_false] at h
      exact List.mem_cons_of_mem _ (ih h)

theorem mem_mapStore {V : Type} (m : GoMap V) (k : String) (v : V) (x : String × V)
    (h : x ∈ mapStore m k v) : x = (k, v) ∨ x ∈ m := by
  induction m with
  | nil => simpa [mapStore] using h
  | cons e rest ih =>
    obtain ⟨k0, v0⟩ := e
    by_cases c : k0 = k
    · simp only [mapStore, c, if_true, List.mem_cons] at h
      rcases h with h | h
      · left; exact h
      · right; exact List.mem_cons_of_mem _ h
    · simp only [mapStore, c, if_false, List.mem_cons] at h
      rcases h with h | h
      · right; subst h; exact List.mem_cons_self _ _
      · rcases ih h with h | h
        · left; exact h
        · right; exact List.mem_cons_of_mem _ h

/-! ## Rating mutation by the owner, rating creation -/

/-- C11.  When the owner updates a rating, the returned rating is the one
stored under the id afterwards; it has the input's `Score` and `Comment` and
the original's `ID`, `RecipeID`, `UserID` and `CreatedAt`, and every other
stored rating is unchanged.  When the owner deletes a rating, a following
`GetRatingByID(id)` fails with "rating not found" and every other stored
rating is unchanged. -/
theorem C11_owner_update_and_delete (r : InMemoryRatingRepository) (now : Int)
    (id userID : String) (input : RatingInput) (original : Rating)
    (hstored : mapLookup r.ratings id = some original)
    (howner : original.UserID = userID) :
    (∃ updated,
      (RatingService.UpdateRating r now id userID input).1 = .ok updated ∧
      mapLookup (RatingService.UpdateRating r now id userID input).2.ratings id
        = some updated ∧
      updated.Score = input.Score ∧ updated.Comment = input.Comment ∧
      updated.ID = original.ID ∧ updated.RecipeID = original.RecipeID ∧
      updated.UserID = original.UserID ∧ updated.CreatedAt = original.CreatedAt ∧
      (∀ k, k ≠ id →
        mapLookup (RatingService.UpdateRating r now id userID input).2.ratings k
          = mapLookup r.ratings k)) ∧
    ((RatingService.DeleteRating r id userID).1 = none ∧
      RatingService.GetRatingByID (RatingService.DeleteRating r id userID).2 id
        = .error "rating not found" ∧
      (∀ k, k ≠ id →
        mapLookup (RatingService.DeleteRating r id userID).2.ratings k
          = mapLookup r.ratings k)) := by
  constructor
  · rcases UpdateRating_cases r now id userID input with
      ⟨h, _⟩ | ⟨x, h, hx, _⟩ | ⟨x, h, _, e⟩
    · rw [hstored] at h; cases h
    · rw [hstored] at h; cases h; exact absurd howner hx
    · rw [hstored] at h; cases h
      rw [e]
      refine ⟨UpdateRating now original input, rfl, mapLookup_mapStore_same _ _ _,
        rfl, rfl, rfl, rfl, rfl, rfl, ?_⟩
      intro k hk
      exact mapLookup_mapStore_other _ _ _ _ hk
  · rcases DeleteRating_cases r id userID with ⟨h, _⟩ | ⟨x, h, hx, _⟩ | ⟨x, h, _, e⟩
    · rw [hstored] at h; cases h
    · rw [hstored] at h; cases h; exact absurd howner hx
    · rw [e]
      refine ⟨rfl, ?_, ?_⟩
      · simp [RatingService.GetRatingByID, InMemoryRatingRepository.FindByID,
          mapLookup_mapDelete_same]
      · intro k hk
        exact mapLookup_mapDelete_other _ _ _ hk

/-- C11, witness: the owner `"u1"` updates the rating `"a"` of the store
`fiveFiveFiveOne`. -/
theorem C11_owner_update_and_delete_witness :
    (mapLookup fiveFiveFiveOne.ratings "a" = some ⟨"a", "r", "u1", 5, "", 0, 0⟩ ∧
      (⟨"a", "r", "u1", 5, "", 0, 0⟩ : Rating).UserID = "u1") ∧
    (RatingService.DeleteRating fiveFiveFiveOne "a" "u1").1 = none ∧
    RatingService.GetRatingByID (RatingService.DeleteRating fiveFiveFiveOne "a" "u1").2 "a"
      = .error "rating not found" :=
  ⟨⟨by decide, by decide⟩,
    (C11_owner_update_and_delete fiveFiveFiveOne 7 "a" "u1" ⟨3, "fine"⟩
      ⟨"a", "r", "u1", 5, "", 0, 0⟩ (by decide) (by decide)).2.1,
    (C11_owner_update_and_delete fiveFiveFiveOne 7 "a" "u1" ⟨3, "fine"⟩
      ⟨"a", "r", "u1", 5, "", 0, 0⟩ (by decide) (by decide)).2.2.1⟩

/-- The outcome of `CreateRating` by cases on the lookup of the recipe. -/
theorem CreateRating_cases (recipes : InMemoryRecipeRepository)
    (r : InMemoryRatingRepository) (now : Int) (id recipeID userID : String)
    (input : RatingInput) :
    (mapLookup recipes.recipes recipeID = none ∧
      RatingService.CreateRating recipes r now id recipeID userID input
        = (.error "recipe not found", r)) ∨
    ((∃ recipe, mapLookup recipes.recipes recipeID = some recipe) ∧
      RatingService.CreateRating recipes r now id recipeID userID input
        = (.ok (NewRating now id recipeID userID input),
            ⟨mapStore r.ratings id (NewRating now id recipeID userID input)⟩)) := by
  cases h : mapLookup recipes.recipes recipeID with
  | none =>
    left
    simp [RatingService.CreateRating, RecipeService.GetRecipeByID,
      InMemoryRecipeRepository.FindByID, h]
  | some recipe =>
    right
    refine ⟨⟨recipe, rfl⟩, ?_⟩
    simp [RatingService.CreateRating, RecipeService.GetRecipeByID,
      InMemoryRecipeRepository.FindByID, InMemoryRatingRepository.Create, h]

/-- C13.  `CreateRating` fails with "recipe not found" iff no recipe is stored
under `recipeID`, and then leaves the rating store unchanged.  Otherwise it
succeeds: the returned rating is the one `GetRatingByID` finds under its `ID`,
it has the given `RecipeID` and `UserID`, the input's `Score` and `Comment`,
and `CreatedAt = UpdatedAt`; the ratings under other ids are unchanged, and
when the generated identifier is new the store grows by exactly this one
entry. -/
theorem C13_CreateRating (recipes : InMemoryRecipeRepository)
    (r : InMemoryRatingRepository) (now : Int) (id recipeID userID : String)
    (input : RatingInput) :
    ((RatingService.CreateRating recipes r now id recipeID userID input).1
        = .error "recipe not found" ↔ mapLookup recipes.recipes recipeID = none) ∧
    (mapLookup recipes.recipes recipeID = none →
      (RatingService.CreateRating recipes r now id recipeID userID input).2 = r) ∧
    ((∃ recipe, mapLookup recipes.recipes recipeID = some recipe) →
      ∃ rating,
        (RatingService.CreateRating recipes r now id recipeID userID input).1 = .ok rating ∧
        RatingService.GetRatingByID
          (RatingService.CreateRating recipes r now id recipeID userID input).2 rating.ID
          = .ok rating ∧
        rating.ID = id ∧ rating.RecipeID = recipeID ∧ rating.UserID = userID ∧
        rating.Score = input.Score ∧ rating.Comment = input.Comment ∧
        rating.CreatedAt = rating.UpdatedAt ∧
        (∀ k, k ≠ id →
          mapLookup (RatingService.CreateRating recipes r now id recipeID userID input).2.ratings
            k = mapLookup r.ratings k) ∧
        (mapLookup r.ratings id = none →
          (RatingService.CreateRating recipes r now id recipeID userID input).2.ratings
            = r.ratings ++ [(id, rating)])) := by
  rcases CreateRating_cases recipes r now id recipeID userID input with
    ⟨h, e⟩ | ⟨⟨recipe, h⟩, e⟩
  · rw [e]
    refine ⟨by simp [h], fun _ => rfl, ?_⟩
    rintro ⟨recipe, h2⟩
    rw [h] at h2; cases h2
  · rw [e]
    refine ⟨by simp [h], ?_, ?_⟩
    · intro h2; rw [h] at h2; cases h2
    · intro _
      refine ⟨NewRating now id recipeID userID input, rfl, ?_, rfl, rfl, rfl, rfl, rfl, rfl,
        ?_, ?_⟩
      · simp [RatingService.GetRatingByID, InMemoryRatingRepository.FindByID, NewRating,
          mapLookup_mapStore_same]
      · intro k hk
        exact mapLookup_mapStore_other _ _ _ _ hk
      · intro hfresh
        exact mapStore_of_absent _ _ _ hfresh

/-! ## Ownership invariant of the rating store -/

theorem RatingInv_create (r : InMemoryRatingRepository) (born : GoMap Rating) (now : Int)
    (id recipeID userID : String) (input : RatingInput) (h : RatingInv r born) :
    RatingInv ⟨mapStore r.ratings id (NewRating now id recipeID userID input)⟩
      (mapStore born id (NewRating now id recipeID userID input)) := by
  intro k rating hk
  by_cases c : k = id
  · subst c
    rw [mapLookup_mapStore_same] at hk
    cases hk
    exact ⟨_, mapLookup_mapStore_same _ _ _, ⟨now, recipeID, userID, input, rfl⟩,
      rfl, rfl, rfl, rfl⟩
  · rw [mapLookup_mapStore_other _ _ _ _ c] at hk
    obtain ⟨created, h1, h2⟩ := h k rating hk
    exact ⟨created, by rw [mapLookup_mapStore_other _ _ _ _ c]; exact h1, h2⟩

theorem RatingInv_update (r : InMemoryRatingRepository) (born : GoMap Rating) (now : Int)
    (id : String) (input : RatingInput) (h : RatingInv r born) :
    RatingInv (r.Update now id input).2 born := by
  unfold InMemoryRatingRepository.Update
  cases hl : mapLookup r.ratings id with
  | none => exact h
  | some original =>
    intro k rating hk
    simp only [] at hk
    by_cases c : k = id
    · subst c
      rw [mapLookup_mapStore_same] at hk
      cases hk
      obtain ⟨created, h1, h2, h3, h4, h5, h6⟩ := h k original hl
      exact ⟨created, h1, h2, h3, h4, h5, h6⟩
    · rw [mapLookup_mapStore_other _ _ _ _ c] at hk
      exact h k rating hk

theorem RatingInv_delete (r : InMemoryRatingRepository) (born : GoMap Rating)
    (id : String) (h : RatingInv r born) : RatingInv (r.Delete id).2 born := by
  unfold InMemoryRatingRepository.Delete
  cases hl : mapLookup r.ratings id with
  | none => exact h
  | some original =>
    intro k rating hk
    simp only [] at hk
    by_cases c : k = id
    · subst c
      rw [mapLookup_mapDelete_same] at hk
      cases hk
    · rw [mapLookup_mapDelete_other _ _ _ c] at hk
      exact h k rating hk

theorem RatingInv_of_reachable (r : InMemoryRatingRepository) (born : GoMap Rating)
    (h : RatingReachable r born) : RatingInv r born := by
  induction h with
  | empty =>
    intro k rating hk
    simp [mapLookup] at hk
  | create now id recipeID userID input _ ih =>
    exact RatingInv_create _ _ now id recipeID userID input ih
  | update now id input _ ih => exact RatingInv_update _ _ now id input ih
  | delete id _ ih => exact RatingInv_delete _ _ id ih
  | @createRating r born recipes now id recipeID userID input _ ih =>
    rcases CreateRating_cases recipes r now id recipeID userID input with
      ⟨_, e⟩ | ⟨_, e⟩
    · rw [e]; exact ih
    · rw [e]; exact RatingInv_create _ _ now id recipeID userID input ih
  | @updateRating r born now id userID input _ ih =>
    rcases UpdateRating_cases r now id userID input with
      ⟨_, e⟩ | ⟨_, _, _, e⟩ | ⟨x, hx, _, e⟩
    · rw [e]; exact ih
    · rw [e]; exact ih
    · have := RatingInv_update r born now id input ih
      unfold InMemoryRatingRepository.Update at this
      rw [hx] at this
      rw [e]
      exact this
  | @deleteRating r born id userID _ ih =>
    rcases DeleteRating_cases r id userID with ⟨_, e⟩ | ⟨_, _, _, e⟩ | ⟨x, hx, _, e⟩
    · rw [e]; exact ih
    · rw [e]; exact ih
    · have := RatingInv_delete r born id ih
      unfold InMemoryRatingRepository.Delete at this
      rw [hx] at this
      rw [e]
      exact this

/-- C12.  Ownership invariant: in every state reachable from the empty rating
store by any sequence of creates, updates and deletes (repository or service
calls, successful or not), a rating stored under an id has the `UserID`,
`RecipeID`, `ID` and `CreatedAt` of the rating that the latest create for that
id returned. -/
theorem C12_ownership_invariant (r : InMemoryRatingRepository) (born : GoMap Rating)
    (id : String) (rating : Rating) (hreach : RatingReachable r born)
    (hstored : mapLookup r.ratings id = some rating) :
    ∃ created, mapLookup born id = some created ∧
      (∃ now0 recipeID0 userID0 input0,
        created = NewRating now0 id recipeID0 userID0 input0) ∧
      rating.UserID = created.UserID ∧ rating.RecipeID = created.RecipeID ∧
      rating.ID = created.ID ∧ rating.CreatedAt = created.CreatedAt :=
  RatingInv_of_reachable r born hreach id rating hstored

/-- C12, witness: the store reached by creating the rating `"k1"` for user
`"uA"` at instant 10 and updating it at instant 20. -/
theorem C12_ownership_invariant_witness :
    (RatingReachable
        ((InMemoryRatingRepository.Create ⟨[]⟩ 10 "k1" "r" "uA" ⟨4, ""⟩).2.Update 20 "k1"
          ⟨2, "x"⟩).2
        (mapStore [] "k1" (InMemoryRatingRepository.Create ⟨[]⟩ 10 "k1" "r" "uA" ⟨4, ""⟩).1) ∧
      mapLookup
        ((InMemoryRatingRepository.Create ⟨[]⟩ 10 "k1" "r" "uA" ⟨4, ""⟩).2.Update 20 "k1"
          ⟨2, "x"⟩).2.ratings "k1" = some ⟨"k1", "r", "uA", 2, "x", 10, 20⟩) ∧
    ∃ created,
      mapLookup
        (mapStore [] "k1" (InMemoryRatingRepository.Create ⟨[]⟩ 10 "k1" "r" "uA" ⟨4, ""⟩).1)
        "k1" = some created ∧
      (∃ now0 recipeID0 userID0 input0,
        created = NewRating now0 "k1" recipeID0 userID0 input0) ∧
      (⟨"k1", "r", "uA", 2, "x", 10, 20⟩ : Rating).UserID = created.UserID ∧
      (⟨"k1", "r", "uA", 2, "x", 10, 20⟩ : Rating).RecipeID = created.RecipeID ∧
      (⟨"k1", "r", "uA", 2, "x", 10, 20⟩ : Rating).ID = created.ID ∧
      (⟨"k1", "r", "uA", 2, "x", 10, 20⟩ : Rating).CreatedAt = created.CreatedAt :=
  ⟨⟨RatingReachable.update 20 "k1" ⟨2, "x"⟩
      (RatingReachable.create 10 "k1" "r" "uA" ⟨4, ""⟩ RatingReachable.empty), by decide⟩,
    C12_ownership_invariant _ _ "k1" ⟨"k1", "r", "uA", 2, "x", 10, 20⟩
      (RatingReachable.update 20 "k1" ⟨2, "x"⟩
        (RatingReachable.create 10 "k1" "r" "uA" ⟨4, ""⟩ RatingReachable.empty))
      (by decide)⟩

/-! ## Score range -/

/-- C14 (counterexample).  With the recipe `"1"` stored, `CreateRating` with
the score 0 succeeds and stores a rating of score 0, and the owner's
`UpdateRating` with the score 6 succeeds and stores a rating of score 6: the
service rejects neither input. -/
theorem C14_service_accepts_out_of_range_scores :
    RatingService.CreateRating ⟨[("1", pasta)]⟩ ⟨[]⟩ 10 "k1" "1" "uA" ⟨0, "bad"⟩
      = (.ok ⟨"k1", "1", "uA", 0, "bad", 10, 10⟩,
          ⟨[("k1", ⟨"k1", "1", "uA", 0, "bad", 10, 10⟩)]⟩) ∧
    RatingService.UpdateRating ⟨[("k1", ⟨"k1", "1", "uA", 0, "bad", 10, 10⟩)]⟩ 20 "k1" "uA"
        ⟨6, "great"⟩
      = (.ok ⟨"k1", "1", "uA", 6, "great", 10, 20⟩,
          ⟨[("k1", ⟨"k1", "1", "uA", 6, "great", 10, 20⟩)]⟩) :=
  ⟨rfl, rfl⟩

/-- C14 (amended).  Every rating that `CreateRating` or `UpdateRating` stores
has the `Score` of its input.  Hence, for an input whose `Score` is between 1
and 5 (the range the rating handlers check before they call the service), the
stored rating has a `Score` between 1 and 5, and a store in which every rating
has such a score is again such a store after the call. -/
theorem C14_stored_score_is_input_score (recipes : InMemoryRecipeRepository)
    (r : InMemoryRatingRepository) (now : Int) (id recipeID userID : String)
    (input : RatingInput) (hlo : 1 ≤ input.Score) (hhi : input.Score ≤ 5) :
    (∀ rating r1,
      RatingService.CreateRating recipes r now id recipeID userID input = (.ok rating, r1) →
      mapLookup r1.ratings id = some rating ∧ rating.Score = input.Score ∧
      1 ≤ rating.Score ∧ rating.Score ≤ 5) ∧
    (∀ updated r1,
      RatingService.UpdateRating r now id userID input = (.ok updated, r1) →
      mapLookup r1.ratings id = some updated ∧ updated.Score = input.Score ∧
      1 ≤ updated.Score ∧ updated.Score ≤ 5) ∧
    ((∀ e ∈ r.ratings, 1 ≤ e.2.Score ∧ e.2.Score ≤ 5) →
      (∀ e ∈ (RatingService.CreateRating recipes r now id recipeID userID input).2.ratings,
        1 ≤ e.2.Score ∧ e.2.Score ≤ 5) ∧
      (∀ e ∈ (RatingService.UpdateRating r now id userID input).2.ratings,
        1 ≤ e.2.Score ∧ e.2.Score ≤ 5)) := by
  refine ⟨?_, ?_, ?_⟩
  · intro rating r1 h
    rcases CreateRating_cases recipes r now id recipeID userID input with
      ⟨_, e⟩ | ⟨_, e⟩
    · rw [e] at h; cases h
    · rw [e] at h
      cases h
      exact ⟨mapLookup_mapStore_same _ _ _, rfl, hlo, hhi⟩
  · intro updated r1 h
    rcases UpdateRating_cases r now id userID input with
      ⟨_, e⟩ | ⟨_, _, _, e⟩ | ⟨x, _, _, e⟩
    · rw [e] at h; cases h
    · rw [e] at h; cases h
    · rw [e] at h
      cases h
      exact ⟨mapLookup_mapStore_same _ _ _, rfl, hlo, hhi⟩
  · intro hall
    constructor
    · rcases CreateRating_cases recipes r now id recipeID userID input with
        ⟨_, e⟩ | ⟨_, e⟩
      · rw [e]; exact hall
      · rw [e]
        intro x hx
        rcases mem_mapStore _ _ _ _ hx with h | h
        · subst h; exact ⟨hlo, hhi⟩
        · exact hall x h
    · rcases UpdateRating_cases r now id userID input with
        ⟨_, e⟩ | ⟨_, _, _, e⟩ | ⟨x, _, _, e⟩
      · rw [e]; exact hall
      · rw [e]; exact hall
      · rw [e]
        intro y hy
        rcases mem_mapStore _ _ _ _ hy with h | h
        · subst h; exact ⟨hlo, hhi⟩
        · exact hall y h

/-- C14 (amended), witness: a rating of score 4 created for the stored recipe `"1"`. -/
theorem C14_stored_score_is_input_score_witness :
    ((1 : Int) ≤ (⟨4, "good"⟩ : RatingInput).Score ∧ (⟨4, "good"⟩ : RatingInput).Score ≤ 5) ∧
    mapLookup
      (RatingService.CreateRating ⟨[("1", pasta)]⟩ ⟨[]⟩ 10 "k1" "1" "uA" ⟨4, "good"⟩).2.ratings
      "k1" = some ⟨"k1", "1", "uA", 4, "good", 10, 10⟩ ∧
    (1 : Int) ≤ (⟨"k1", "1", "uA", 4, "good", 10, 10⟩ : Rating).Score ∧
    (⟨"k1", "1", "uA", 4, "good", 10, 10⟩ : Rating).Score ≤ 5 :=
  ⟨⟨by decide, by decide⟩,
    ((C14_stored_score_is_input_score ⟨[("1", pasta)]⟩ ⟨[]⟩ 10 "k1" "1" "uA" ⟨4, "good"⟩
      (by decide) (by decide)).1 ⟨"k1", "1", "uA", 4, "good", 10, 10⟩
        (RatingService.CreateRating ⟨[("1", pasta)]⟩ ⟨[]⟩ 10 "k1" "1" "uA" ⟨4, "good"⟩).2
        rfl).1,
    ((C14_stored_score_is_input_score ⟨[("1", pasta)]⟩ ⟨[]⟩ 10 "k1" "1" "uA" ⟨4, "good"⟩
      (by decide) (by decide)).1 ⟨"k1", "1", "uA", 4, "good", 10, 10⟩
        (RatingService.CreateRating ⟨[("1", pasta)]⟩ ⟨[]⟩ 10 "k1" "1" "uA" ⟨4, "good"⟩).2
        rfl).2.2⟩

/-! ## Recipes: create, update, delete -/

/-- C15.  When the identifier generator returns a non-empty identifier that is
not yet a key of the store, `CreateRecipe` followed by `GetRecipeByID` on the
returned `ID` yields the recipe that create returned; its eight content fields
are the input's, its `ID` is non-empty and differs from every key stored
before (and so from the `ID` of every recipe stored under its own `ID`), and
every recipe stored before is still stored, unchanged. -/
theorem C15_create_then_get (r : InMemoryRecipeRepository) (now : Int) (id : String)
    (input : RecipeInput) (hne : id ≠ "") (hfresh : mapLookup r.recipes id = none) :
    RecipeService.GetRecipeByID (RecipeService.CreateRecipe r now id input).2
        (RecipeService.CreateRecipe r now id input).1.ID
      = .ok (RecipeService.CreateRecipe r now id input).1 ∧
    ((RecipeService.CreateRecipe r now id input).1.Title = input.Title ∧
      (RecipeService.CreateRecipe r now id input).1.Description = input.Description ∧
      (RecipeService.CreateRecipe r now id input).1.Ingredients = input.Ingredients ∧
      (RecipeService.CreateRecipe r now id input).1.Instructions = input.Instructions ∧
      (RecipeService.CreateRecipe r now id input).1.PrepTime = input.PrepTime ∧
      (RecipeService.CreateRecipe r now id input).1.CookTime = input.CookTime ∧
      (RecipeService.CreateRecipe r now id input).1.Servings = input.Servings ∧
      (RecipeService.CreateRecipe r now id input).1.Tags = input.Tags) ∧
    (RecipeService.CreateRecipe r now id input).1.ID ≠ "" ∧
    (∀ k v, mapLookup r.recipes k = some v →
      (RecipeService.CreateRecipe r now id input).1.ID ≠ k ∧
      (v.ID = k → (RecipeService.CreateRecipe r now id input).1.ID ≠ v.ID) ∧
      mapLookup (RecipeService.CreateRecipe r now id input).2.recipes k = some v) ∧
    (RecipeService.CreateRecipe r now id input).2.recipes
      = r.recipes ++ [(id, (RecipeService.CreateRecipe r now id input).1)] := by
  have e : RecipeService.CreateRecipe r now id input
      = (NewRecipe now id input, ⟨mapStore r.recipes id (NewRecipe now id input)⟩) := rfl
  rw [e]
  refine ⟨?_, ⟨rfl, rfl, rfl, rfl, rfl, rfl, rfl, rfl⟩, hne, ?_, mapStore_of_absent _ _ _ hfresh⟩
  · simp [RecipeService.GetRecipeByID, InMemoryRecipeRepository.FindByID, NewRecipe,
      mapLookup_mapStore_same]
  · intro k v hk
    have hkid : k ≠ id := by
      intro c
      rw [c, hfresh] at hk
      cases hk
    refine ⟨fun c => hkid c.symm, ?_, ?_⟩
    · intro hv c
      exact hkid (hv.symm.trans c.symm)
    · simp only []
      rw [mapLookup_mapStore_other _ _ _ _ hkid]
      exact hk

/-- C15, witness: the recipe of `TestCreateRecipe` created in a store that
holds one recipe. -/
theorem C15_create_then_get_witness :
    (("7" : String) ≠ "" ∧ mapLookup (⟨[("1", pasta)]⟩ : InMemoryRecipeRepository).recipes "7"
      = none) ∧
    RecipeService.GetRecipeByID
        (RecipeService.CreateRecipe ⟨[("1", pasta)]⟩ 10 "7"
          ⟨"Test Recipe", "A test recipe for unit testing", ["ingredient1", "ingredient2"],
            ["step1", "step2"], 10, 20, 4, ["test", "unit-test"]⟩).2
        (RecipeService.CreateRecipe ⟨[("1", pasta)]⟩ 10 "7"
          ⟨"Test Recipe", "A test recipe for unit testing", ["ingredient1", "ingredient2"],
            ["step1", "step2"], 10, 20, 4, ["test", "unit-test"]⟩).1.ID
      = .ok (RecipeService.CreateRecipe ⟨[("1", pasta)]⟩ 10 "7"
          ⟨"Test Recipe", "A test recipe for unit testing", ["ingredient1", "ingredient2"],
            ["step1", "step2"], 10, 20, 4, ["test", "unit-test"]⟩).1 :=
  ⟨⟨by decide, by decide⟩,
    (C15_create_then_get ⟨[("1", pasta)]⟩ 10 "7"
      ⟨"Test Recipe", "A test recipe for unit testing", ["ingredient1", "ingredient2"],
        ["step1", "step2"], 10, 20, 4, ["test", "unit-test"]⟩ (by decide) (by decide)).1⟩

/-- C16.  For a stored id, `UpdateRecipe(id, input)` stores and returns a
recipe with the original `ID` and `CreatedAt`, the eight content fields of the
input, and `UpdatedAt` equal to the clock reading `now` of the update, which
is not earlier than the previous `UpdatedAt` when the clock has not gone
back; the recipes under other ids are unchanged.  For an id that is not
stored it fails with "recipe not found" and leaves the store unchanged. -/
theorem C16_UpdateRecipe (r : InMemoryRecipeRepository) (now : Int) (id : String)
    (input : RecipeInput) :
    (∀ original, mapLookup r.recipes id = some original →
      ∃ updated,
        (RecipeService.UpdateRecipe r now id input).1 = .ok updated ∧
        mapLookup (RecipeService.UpdateRecipe r now id input).2.recipes id = some updated ∧
        updated.ID = original.ID ∧ updated.CreatedAt = original.CreatedAt ∧
        (updated.Title = input.Title ∧ updated.Description = input.Description ∧
          updated.Ingredients = input.Ingredients ∧
          updated.Instructions = input.Instructions ∧
          updated.PrepTime = input.PrepTime ∧ updated.CookTime = input.CookTime ∧
          updated.Servings = input.Servings ∧ updated.Tags = input.Tags) ∧
        updated.UpdatedAt = now ∧
        (original.UpdatedAt ≤ now → original.UpdatedAt ≤ updated.UpdatedAt) ∧
        (∀ k, k ≠ id →
          mapLookup (RecipeService.UpdateRecipe r now id input).2.recipes k
            = mapLookup r.recipes k)) ∧
    (mapLookup r.recipes id = none →
      RecipeService.UpdateRecipe r now id input = (.error "recipe not found", r)) := by
  constructor
  · intro original h
    have e : RecipeService.UpdateRecipe r now id input
        = (.ok (UpdateRecipe now original input),
            ⟨mapStore r.recipes id (UpdateRecipe now original input)⟩) := by
      simp [RecipeService.UpdateRecipe, InMemoryRecipeRepository.Update, h]
    rw [e]
    refine ⟨UpdateRecipe now original input, rfl, mapLookup_mapStore_same _ _ _, rfl, rfl,
      ⟨rfl, rfl, rfl, rfl, rfl, rfl, rfl, rfl⟩, rfl, fun hle => hle, ?_⟩
    intro k hk
    exact mapLookup_mapStore_other _ _ _ _ hk
  · intro h
    simp [RecipeService.UpdateRecipe, InMemoryRecipeRepository.Update, h]

/-- C17.  If `id` is stored, `DeleteRecipe(id)` succeeds, a following
`GetRecipeByID(id)` fails with "recipe not found", and every recipe stored
under another id is unchanged; if `id` is not stored, `DeleteRecipe(id)` fails
with "recipe not found" and the store is unchanged. -/
theorem C17_DeleteRecipe (r : InMemoryRecipeRepository) (id : String) :
    ((∃ recipe, mapLookup r.recipes id = some recipe) →
      (RecipeService.DeleteRecipe r id).1 = none ∧
      RecipeService.GetRecipeByID (RecipeService.DeleteRecipe r id).2 id
        = .error "recipe not found" ∧
      (∀ k, k ≠ id →
        mapLookup (RecipeService.DeleteRecipe r id).2.recipes k = mapLookup r.recipes k)) ∧
    (mapLookup r.recipes id = none →
      RecipeService.DeleteRecipe r id = (some "recipe not found", r)) := by
  constructor
  · rintro ⟨recipe, h⟩
    have e : RecipeService.DeleteRecipe r id = (none, ⟨mapDelete r.recipes id⟩) := by
      simp [RecipeService.DeleteRecipe, InMemoryRecipeRepository.Delete, h]
    rw [e]
    refine ⟨rfl, ?_, ?_⟩
    · simp [RecipeService.GetRecipeByID, InMemoryRecipeRepository.FindByID,
        mapLookup_mapDelete_same]
    · intro k hk
      exact mapLookup_mapDelete_other _ _ _ hk
  · intro h
    simp [RecipeService.DeleteRecipe, InMemoryRecipeRepository.Delete, h]

/-- C18.  There is no cascading delete: after `DeleteRecipe(id)` has succeeded
the rating store (and the user store) is unchanged, so for every two orders of
enumeration, one before and one after the deletion, `GetRatingsByRecipeID(id)`
returns the same ratings and `GetAverageRatingForRecipe(id)` the same value,
while `CreateRating` for that recipe id now fails with "recipe not found" and
changes nothing. -/
theorem C18_no_cascading_delete (s : System) (id : String)
    (hdel : (System.DeleteRecipe s id).1 = none) :
    (System.DeleteRecipe s id).2.ratingRepo = s.ratingRepo ∧
    (System.DeleteRecipe s id).2.userRepo = s.userRepo ∧
    (∀ iter iter2 : GoMap Rating, iter.Perm s.ratingRepo.ratings →
      iter2.Perm (System.DeleteRecipe s id).2.ratingRepo.ratings →
      (RatingService.GetRatingsByRecipeID iter2 id).Perm
        (RatingService.GetRatingsByRecipeID iter id) ∧
      (iter2 = iter →
        RatingService.GetRatingsByRecipeID iter2 id
          = RatingService.GetRatingsByRecipeID iter id) ∧
      GetAverageRatingForRecipe iter2 id = GetAverageRatingForRecipe iter id) ∧
    (∀ (now : Int) (ratingID userID : String) (input : RatingInput),
      System.CreateRating (System.DeleteRecipe s id).2 now ratingID id userID input
        = (.error "recipe not found", (System.DeleteRecipe s id).2)) := by
  have hcases : (∃ recipe, mapLookup s.recipeRepo.recipes id = some recipe) := by
    cases h : mapLookup s.recipeRepo.recipes id with
    | none =>
      simp [System.DeleteRecipe, RecipeService.DeleteRecipe, InMemoryRecipeRepository.Delete,
        h] at hdel
    | some recipe => exact ⟨recipe, rfl⟩
  obtain ⟨recipe, h⟩ := hcases
  have e : System.DeleteRecipe s id
      = (none, { s with recipeRepo := ⟨mapDelete s.recipeRepo.recipes id⟩ }) := by
    simp [System.DeleteRecipe, RecipeService.DeleteRecipe, InMemoryRecipeRepository.Delete, h]
  rw [e]
  refine ⟨rfl, rfl, ?_, ?_⟩
  · intro iter iter2 h1 h2
    have hp : iter2.Perm iter := h2.trans h1.symm
    have hf : ((iter2.map Prod.snd).filter (fun x => decide (x.RecipeID = id))).Perm
        ((iter.map Prod.snd).filter (fun x => decide (x.RecipeID = id))) :=
      (hp.map Prod.snd).filter _
    refine ⟨?_, ?_, ?_⟩
    · simp only [RatingService.GetRatingsByRecipeID, FindByRecipeID_eq_filter]
      exact hf
    · intro h3; rw [h3]
    · rw [GetAverageRatingForRecipe_eq, GetAverageRatingForRecipe_eq,
        (hf.map (fun x => x.Score)).sum_eq, hf.length_eq]
  · intro now ratingID userID input
    simp [System.CreateRating, RatingService.CreateRating, RecipeService.GetRecipeByID,
      InMemoryRecipeRepository.FindByID, mapLookup_mapDelete_same]

/-- C18, witness: the recipe `"1"` is deleted while the ratings 5, 5, 5, 1 of
recipe `"r"` stay stored. -/
theorem C18_no_cascading_delete_witness :
    (System.DeleteRecipe ⟨⟨[]⟩, ⟨[("r", pasta)]⟩, fiveFiveFiveOne⟩ "r").1 = none ∧
    (System.DeleteRecipe ⟨⟨[]⟩, ⟨[("r", pasta)]⟩, fiveFiveFiveOne⟩ "r").2.ratingRepo
      = fiveFiveFiveOne :=
  ⟨by decide,
    (C18_no_cascading_delete ⟨⟨[]⟩, ⟨[("r", pasta)]⟩, fiveFiveFiveOne⟩ "r" (by decide)).1⟩

/-! ## Users: duplicate check and uniqueness -/

theorem Create.scan_eq_none (input : UserInput) (iter : GoMap User) :
    InMemoryUserRepository.Create.scan input iter = none ↔
      ∀ e ∈ iter, e.2.Username ≠ input.Username ∧ e.2.Email ≠ input.Email := by
  induction iter with
  | nil => simp [InMemoryUserRepository.Create.scan]
  | cons e rest ih =>
    obtain ⟨k, u⟩ := e
    unfold InMemoryUserRepository.Create.scan
    by_cases c1 : u.Username = input.Username
    · simp [c1]
    · by_cases c2 : u.Email = input.Email
      · simp [c1, c2]
      · simp [c1, c2, ih]

theorem Create.scan_error (input : UserInput) (iter : GoMap User) (err : String)
    (h : InMemoryUserRepository.Create.scan input iter = some err) :
    err = "username already exists" ∨ err = "email already exists" := by
  induction iter with
  | nil => simp [InMemoryUserRepository.Create.scan] at h
  | cons e rest ih =>
    obtain ⟨k, u⟩ := e
    unfold InMemoryUserRepository.Create.scan at h
    by_cases c1 : u.Username = input.Username
    · simp [c1] at h
      left; exact h.symm
    · by_cases c2 : u.Email = input.Email
      · simp [c1, c2] at h
        right; exact h.symm
      · simp only [c1, c2, if_false] at h
        exact ih h

theorem Update.usernameTaken_eq_false (id username : String) (iter : GoMap User) :
    InMemoryUserRepository.Update.usernameTaken id username iter = false ↔
      ∀ e ∈ iter, ¬ (e.2.ID ≠ id ∧ e.2.Username = username) := by
  induction iter with
  | nil => simp [InMemoryUserRepository.Update.usernameTaken]
  | cons e rest ih =>
    obtain ⟨k, u⟩ := e
    unfold InMemoryUserRepository.Update.usernameTaken
    by_cases c : u.ID ≠ id ∧ u.Username = username
    · rw [if_pos c]
      constructor
      · intro h; cases h
      · intro h
        exact absurd c (h (k, u) (List.mem_cons_self _ _))
    · rw [if_neg c, ih]
      simp only [List.mem_cons]
      constructor
      · intro h e he
        rcases he with he | he
        · subst he; exact c
        · exact h e he
      · intro h e he
        exact h e (Or.inr he)

theorem Update.emailTaken_eq_false (id email : String) (iter : GoMap User) :
    InMemoryUserRepository.Update.emailTaken id email iter = false ↔
      ∀ e ∈ iter, ¬ (e.2.ID ≠ id ∧ e.2.Email = email) := by
  induction iter with
  | nil => simp [InMemoryUserRepository.Update.emailTaken]
  | cons e rest ih =>
    obtain ⟨k, u⟩ := e
    unfold InMemoryUserRepository.Update.emailTaken
    by_cases c : u.ID ≠ id ∧ u.Email = email
    · rw [if_pos c]
      constructor
      · intro h; cases h
      · intro h
        exact absurd c (h (k, u) (List.mem_cons_self _ _))
    · rw [if_neg c, ih]
      simp only [List.mem_cons]
      constructor
      · intro h e he
        rcases he with he | he
        · subst he; exact c
        · exact h e he
      · intro h e he
        exact h e (Or.inr he)

theorem NewUser_ok (hash : String → Except String String) (now : Int) (id : String)
    (input : UserInput) (user : User) (h : NewUser hash now id input = .ok user) :
    user.ID = id ∧ user.Username = input.Username ∧ user.Email = input.Email := by
  unfold NewUser at h
  cases hh : hash input.Password with
  | error err => rw [hh] at h; cases h
  | ok hashed =>
    rw [hh] at h
    simp only [Except.ok.injEq] at h
    subst h
    exact ⟨rfl, rfl, rfl⟩

theorem UpdateUser_ok (hash : String → Except String String) (now : Int) (original : User)
    (input : UserInput) (updated : User) (h : UpdateUser hash now original input = .ok updated) :
    updated.ID = original.ID ∧ updated.Username = input.Username ∧
      updated.Email = input.Email := by
  unfold UpdateUser at h
  simp only [] at h
  split at h
  · split at h
    · cases h
    · simp only [Except.ok.injEq] at h
      subst h
      split_ifs <;> exact ⟨rfl, rfl, rfl⟩
  · simp only [Except.ok.injEq] at h
    subst h
    split_ifs <;> exact ⟨rfl, rfl, rfl⟩

/-- The outcome of the repository `Create` for users. -/
theorem UserCreate_cases (r : InMemoryUserRepository) (iter : GoMap User)
    (hash : String → Except String String) (now : Int) (id : String) (input : UserInput) :
    (∃ err, r.Create iter hash now id input = (.error err, r) ∧
      ((InMemoryUserRepository.Create.scan input iter = some err ∧
          (err = "username already exists" ∨ err = "email already exists")) ∨
        (InMemoryUserRepository.Create.scan input iter = none ∧
          hash input.Password = .error err))) ∨
    (∃ user, r.Create iter hash now id input = (.ok user, ⟨mapStore r.users id user⟩) ∧
      InMemoryUserRepository.Create.scan input iter = none ∧
      NewUser hash now id input = .ok user) := by
  unfold InMemoryUserRepository.Create
  cases hs : InMemoryUserRepository.Create.scan input iter with
  | some err =>
    left
    exact ⟨err, rfl, Or.inl ⟨rfl, Create.scan_error input iter err hs⟩⟩
  | none =>
    cases hn : NewUser hash now id input with
    | error err =>
      left
      refine ⟨err, rfl, Or.inr ⟨rfl, ?_⟩⟩
      unfold NewUser at hn
      cases hh : hash input.Password with
      | error e2 => rw [hh] at hn; simp only [Except.error.injEq] at hn; rw [hn]
      | ok hashed => rw [hh] at hn; cases hn
    | ok user =>
      right
      exact ⟨user, rfl, rfl, rfl⟩

/-- C19.  User `Create` (to which `UserService.CreateUser` delegates) fails
with a duplicate error, "username already exists" or "email already exists",
and leaves the store unchanged if some stored user has the input's `Username`
or some stored user has the input's `Email`; if no stored user shares either
and hashing succeeds, it succeeds, and the returned user, stored under the new
id, has the input's `Username` and `Email`. -/
theorem C19_user_create_duplicate (r : InMemoryUserRepository) (iter : GoMap User)
    (hash : String → Except String String) (now : Int) (id : String) (input : UserInput)
    (hiter : iter.Perm r.users) :
    UserService.CreateUser r iter hash now id input = r.Create iter hash now id input ∧
    ((∃ e ∈ r.users, e.2.Username = input.Username ∨ e.2.Email = input.Email) →
      ((r.Create iter hash now id input).1 = .error "username already exists" ∨
        (r.Create iter hash now id input).1 = .error "email already exists") ∧
      (r.Create iter hash now id input).2 = r) ∧
    ((∀ e ∈ r.users, e.2.Username ≠ input.Username ∧ e.2.Email ≠ input.Email) →
      ∀ hashed, hash input.Password = .ok hashed →
        ∃ user, (r.Create iter hash now id input).1 = .ok user ∧
          user.Username = input.Username ∧ user.Email = input.Email ∧
          mapLookup (r.Create iter hash now id input).2.users id = some user) := by
  refine ⟨rfl, ?_, ?_⟩
  · rintro ⟨e, he, hdup⟩
    have hscan : InMemoryUserRepository.Create.scan input iter ≠ none := by
      intro hn
      have := (Create.scan_eq_none input iter).1 hn e (hiter.symm.subset he)
      rcases hdup with h | h
      · exact this.1 h
      · exact this.2 h
    rcases UserCreate_cases r iter hash now id input with
      ⟨err, e1, ⟨_, h2⟩ | ⟨h1, _⟩⟩ | ⟨user, _, h1, _⟩
    · rw [e1]
      refine ⟨?_, rfl⟩
      rcases h2 with h2 | h2
      · left; rw [h2]
      · right; rw [h2]
    · exact absurd h1 hscan
    · exact absurd h1 hscan
  · intro hnone hashed hh
    have hscan : InMemoryUserRepository.Create.scan input iter = none :=
      (Create.scan_eq_none input iter).2 (fun e he => hnone e (hiter.subset he))
    rcases UserCreate_cases r iter hash now id input with
      ⟨err, _, ⟨h1, _⟩ | ⟨_, h2⟩⟩ | ⟨user, e1, _, h3⟩
    · rw [hscan] at h1; cases h1
    · rw [hh] at h2; cases h2
    · rw [e1]
      obtain ⟨_, hu, hm⟩ := NewUser_ok hash now id input user h3
      exact ⟨user, rfl, hu, hm, mapLookup_mapStore_same _ _ _⟩

/-- C19, witness: the duplicate create of `TestCreateUser`. -/
theorem C19_user_create_duplicate_witness :
    (List.Perm [("1", (⟨"1", "newuser", "new@example.com", "h", "user", 5, 5⟩ : User))]
      (⟨[("1", ⟨"1", "newuser", "new@example.com", "h", "user", 5, 5⟩)]⟩ :
        InMemoryUserRepository).users) ∧
    (InMemoryUserRepository.Create
        ⟨[("1", ⟨"1", "newuser", "new@example.com", "h", "user", 5, 5⟩)]⟩
        [("1", ⟨"1", "newuser", "new@example.com", "h", "user", 5, 5⟩)]
        (fun p => .ok p) 9 "2" ⟨"newuser", "new@example.com", "newpassword", "user"⟩).2
      = ⟨[("1", ⟨"1", "newuser", "new@example.com", "h", "user", 5, 5⟩)]⟩ :=
  ⟨List.Perm.refl _,
    ((C19_user_create_duplicate
      ⟨[("1", ⟨"1", "newuser", "new@example.com", "h", "user", 5, 5⟩)]⟩
      [("1", ⟨"1", "newuser", "new@example.com", "h", "user", 5, 5⟩)]
      (fun p => .ok p) 9 "2" ⟨"newuser", "new@example.com", "newpassword", "user"⟩
      (List.Perm.refl _)).2.1
        ⟨("1", ⟨"1", "newuser", "new@example.com", "h", "user", 5, 5⟩),
          List.mem_singleton.2 rfl, Or.inl rfl⟩).2⟩

theorem UserInv_mapStore (l : GoMap User) (k : String) (u : User) (hinv : UserInv l)
    (hid : u.ID = k)
    (hother : ∀ e ∈ l, e.1 ≠ k → e.2.Username ≠ u.Username ∧ e.2.Email ≠ u.Email) :
    UserInv (mapStore l k u) := by
  obtain ⟨hids, hpw⟩ := hinv
  constructor
  · intro e he
    rcases mem_mapStore _ _ _ _ he with h | h
    · subst h; exact hid
    · exact hids e h
  · clear hids
    induction l with
    | nil => simp [mapStore]
    | cons e rest ih =>
      obtain ⟨k0, v0⟩ := e
      rw [List.pairwise_cons] at hpw
      obtain ⟨hhead, htail⟩ := hpw
      by_cases c : k0 = k
      · simp only [mapStore, c, if_true]
        rw [List.pairwise_cons]
        refine ⟨?_, htail⟩
        intro b hb
        have hb1 : b.1 ≠ k := by
          have := (hhead b hb).1
          intro hk
          exact this (c.trans hk.symm)
        have := hother b (List.mem_cons_of_mem _ hb) hb1
        exact ⟨fun h => hb1 h.symm, fun h => this.1 h.symm, fun h => this.2 h.symm⟩
      · simp only [mapStore, c, if_false]
        rw [List.pairwise_cons]
        refine ⟨?_, ih (fun e he => hother e (List.mem_cons_of_mem _ he)) htail⟩
        intro b hb
        rcases mem_mapStore _ _ _ _ hb with h | h
        · subst h
          have := hother (k0, v0) (List.mem_cons_self _ _) c
          exact ⟨c, this.1, this.2⟩
        · exact hhead b h

theorem UserInv_mapDelete (l : GoMap User) (k : String) (hinv : UserInv l) :
    UserInv (mapDelete l k) := by
  obtain ⟨hids, hpw⟩ := hinv
  unfold mapDelete
  exact ⟨fun e he => hids e (List.mem_of_mem_filter he), hpw.filter _⟩

theorem UserInv_distinct (l : GoMap User) (hinv : UserInv l) (a b : String × User)
    (ha : a ∈ l) (hb : b ∈ l) (hab : a.1 ≠ b.1) :
    a.2.Username ≠ b.2.Username ∧ a.2.Email ≠ b.2.Email := by
  have hsymm : Symmetric (fun a b : String × User =>
      a.1 ≠ b.1 ∧ a.2.Username ≠ b.2.Username ∧ a.2.Email ≠ b.2.Email) := by
    intro x y h
    exact ⟨fun e => h.1 e.symm, fun e => h.2.1 e.symm, fun e => h.2.2 e.symm⟩
  have hne : a ≠ b := fun e => hab (by rw [e])
  exact (hinv.2.forall hsymm ha hb hne).2

theorem UserInv_create (r : InMemoryUserRepository) (iter : GoMap User)
    (hash : String → Except String String) (now : Int) (id : String) (input : UserInput)
    (hiter : iter.Perm r.users) (hinv : UserInv r.users) :
    UserInv (r.Create iter hash now id input).2.users := by
  rcases UserCreate_cases r iter hash now id input with ⟨err, e, _⟩ | ⟨user, e, hs, hn⟩
  · rw [e]; exact hinv
  · rw [e]
    obtain ⟨h1, h2, h3⟩ := NewUser_ok hash now id input user hn
    apply UserInv_mapStore _ _ _ hinv h1
    intro x hx _
    have := (Create.scan_eq_none input iter).1 hs x (hiter.symm.subset hx)
    rw [h2, h3]
    exact this

theorem UserInv_update (r : InMemoryUserRepository) (iterU iterE : GoMap User)
    (hash : String → Except String String) (now : Int) (id : String) (input : UserInput)
    (hU : iterU.Perm r.users) (hE : iterE.Perm r.users) (hinv : UserInv r.users) :
    UserInv (r.Update iterU iterE hash now id input).2.users := by
  unfold InMemoryUserRepository.Update
  cases hl : mapLookup r.users id with
  | none => exact hinv
  | some original =>
    simp only []
    have hmem : (id, original) ∈ r.users := mem_of_mapLookup _ _ _ hl
    split_ifs with c1 c2
    · exact hinv
    · exact hinv
    · cases hu : UpdateUser hash now original input with
      | error err => exact hinv
      | ok updated =>
        simp only []
        obtain ⟨h1, h2, h3⟩ := UpdateUser_ok hash now original input updated hu
        have hoid : original.ID = id := hinv.1 (id, original) hmem
        apply UserInv_mapStore _ _ _ hinv (h1.trans hoid)
        intro x hx hxk
        have hxid : x.2.ID ≠ id := by rw [hinv.1 x hx]; exact hxk
        have hd := UserInv_distinct r.users hinv x (id, original) hx hmem hxk
        constructor
        · rw [h2]
          by_cases cu : input.Username = original.Username
          · rw [cu]; exact hd.1
          · have ht : InMemoryUserRepository.Update.usernameTaken id input.Username iterU
                = false := by
              cases hb : InMemoryUserRepository.Update.usernameTaken id input.Username iterU
              · rfl
              · exact absurd ⟨cu, hb⟩ c1
            have := (Update.usernameTaken_eq_false id input.Username iterU).1 ht x
              (hU.symm.subset hx)
            intro hx2
            exact this ⟨hxid, hx2⟩
        · rw [h3]
          by_cases ce : input.Email = original.Email
          · rw [ce]; exact hd.2
          · have ht : InMemoryUserRepository.Update.emailTaken id input.Email iterE
                = false := by
              cases hb : InMemoryUserRepository.Update.emailTaken id input.Email iterE
              · rfl
              · exact absurd ⟨ce, hb⟩ c2
            have := (Update.emailTaken_eq_false id input.Email iterE).1 ht x
              (hE.symm.subset hx)
            intro hx2
            exact this ⟨hxid, hx2⟩

theorem UserInv_delete (r : InMemoryUserRepository) (id : String) (hinv : UserInv r.users) :
    UserInv (r.Delete id).2.users := by
  unfold InMemoryUserRepository.Delete
  cases hl : mapLookup r.users id with
  | none => exact hinv
  | some original => exact UserInv_mapDelete _ _ hinv

theorem UserInv_of_reachable (r : InMemoryUserRepository) (h : UserReachable r) :
    UserInv r.users := by
  induction h with
  | empty => exact ⟨fun e he => absurd he (List.not_mem_nil e), List.Pairwise.nil⟩
  | create iter hash now id input _ hiter ih =>
    exact UserInv_create _ iter hash now id input hiter ih
  | update iterU iterE hash now id input _ hU hE ih =>
    exact UserInv_update _ iterU iterE hash now id input hU hE ih
  | delete id _ ih => exact UserInv_delete _ id ih

/-- C20.  Uniqueness invariant: in every state reachable from the empty user
store by any sequence of `Create`, `Update` and `Delete` calls, successful or
failing, two users stored under different ids have different `Username`s and
different `Email`s; the same holds of any two different entries that a loop
over the store visits. -/
theorem C20_uniqueness_invariant (r : InMemoryUserRepository) (hreach : UserReachable r) :
    (∀ k1 k2 u1 u2, mapLookup r.users k1 = some u1 → mapLookup r.users k2 = some u2 →
      k1 ≠ k2 → u1.Username ≠ u2.Username ∧ u1.Email ≠ u2.Email) ∧
    (∀ a ∈ r.users, ∀ b ∈ r.users, a ≠ b →
      a.1 ≠ b.1 ∧ a.2.Username ≠ b.2.Username ∧ a.2.Email ≠ b.2.Email) := by
  have hinv := UserInv_of_reachable r hreach
  constructor
  · intro k1 k2 u1 u2 h1 h2 hne
    exact UserInv_distinct r.users hinv (k1, u1) (k2, u2) (mem_of_mapLookup _ _ _ h1)
      (mem_of_mapLookup _ _ _ h2) hne
  · intro a ha b hb hab
    have hsymm : Symmetric (fun a b : String × User =>
        a.1 ≠ b.1 ∧ a.2.Username ≠ b.2.Username ∧ a.2.Email ≠ b.2.Email) := by
      intro x y h
      exact ⟨fun e => h.1 e.symm, fun e => h.2.1 e.symm, fun e => h.2.2 e.symm⟩
    exact hinv.2.forall hsymm ha hb hab

/-- C20, witness: the store reached by creating `"alice"` and then `"bob"`. -/
theorem C20_uniqueness_invariant_witness :
    UserReachable twoUsers ∧
    mapLookup twoUsers.users "1"
      = some ⟨"1", "alice", "alice@example.com", "hashed:pw1", "user", 1, 1⟩ ∧
    mapLookup twoUsers.users "2"
      = some ⟨"2", "bob", "bob@example.com", "hashed:pw2", "admin", 2, 2⟩ ∧
    (⟨"1", "alice", "alice@example.com", "hashed:pw1", "user", 1, 1⟩ : User).Username ≠
      (⟨"2", "bob", "bob@example.com", "hashed:pw2", "admin", 2, 2⟩ : User).Username ∧
    (⟨"1", "alice", "alice@example.com", "hashed:pw1", "user", 1, 1⟩ : User).Email ≠
      (⟨"2", "bob", "bob@example.com", "hashed:pw2", "admin", 2, 2⟩ : User).Email :=
  have hreach : UserReachable twoUsers :=
    UserReachable.create oneUser.users exampleHash 2 "2"
      ⟨"bob", "bob@example.com", "pw2", "admin"⟩
      (UserReachable.create [] exampleHash 1 "1" ⟨"alice", "alice@example.com", "pw1", ""⟩
        UserReachable.empty (List.Perm.refl _))
      (List.Perm.refl _)
  ⟨hreach, by decide, by decide,
    (C20_uniqueness_invariant twoUsers hreach).1 "1" "2" _ _ (by decide) (by decide)
      (by decide)⟩

/-! ## Filter -/

/-- Appending to the slice over the last array of the memory. -/
theorem Heap.append_last {T : Type} (arrs : List (List T)) (l : List T) (x : T) :
    (Heap.mk (arrs ++ [l])).append ⟨arrs.length, l.length⟩ x
      = (⟨arrs ++ [l ++ [x]]⟩, ⟨arrs.length, l.length + 1⟩) := by
  have e1 : (arrs ++ [l]).getD arrs.length [] = l := by
    simp [List.getD_eq_getElem?_getD]
  have e2 : (arrs ++ [l]).set arrs.length (l ++ [x]) = arrs ++ [l ++ [x]] := by
    rw [List.set_append_right _ _ (le_refl _)]
    simp
  simp only [Heap.append, Heap.cells, Heap.backing, e1, List.take_length, e2]

/-- Reading a slice of the old memory after one more array was allocated. -/
theorem Heap.index_append_array {T : Type} [Inhabited T] (h : Heap T) (l : List T)
    (items : Slice) (hv : h.Valid items) (n : Nat) (hn : n < items.len) :
    (Heap.mk (h.arrays ++ [l])).index items n = (h.cells items).getD n default := by
  obtain ⟨harr, hlen⟩ := hv
  have hlt : n < (h.arrays.getD items.arr []).length := by
    simp only [Heap.backing] at hlen; omega
  simp only [Heap.index, Heap.backing, Heap.cells]
  rw [List.getD_append _ _ _ _ harr]
  simp [List.getD_eq_getElem?_getD, List.getElem?_take, hn]

/-- The state of the loop of `Filter` after `n` rounds. -/
theorem Filter.run_loop {T : Type} [Inhabited T] (h : Heap T) (items : Slice)
    (predicate : T → Bool) (hv : h.Valid items) (n : Nat) (hn : n ≤ items.len) :
    (List.range n).foldl
      (fun (st : Heap T × Slice) i =>
        let item := st.1.index items i
        if predicate item then st.1.append st.2 item else st)
      (h.make 0)
    = (⟨h.arrays ++ [((h.cells items).take n).filter predicate]⟩,
        ⟨h.arrays.length, (((h.cells items).take n).filter predicate).length⟩) := by
  induction n with
  | zero => simp [Heap.make, Heap.alloc]
  | succ n ih =>
    rw [List.range_succ, List.foldl_append, ih (by omega)]
    have hcl : n < (h.cells items).length := by
      have := hv.2
      simp only [Heap.cells, List.length_take]; omega
    have htake : (h.cells items).take (n + 1)
        = (h.cells items).take n ++ [(h.cells items).getD n default] := by
      rw [List.take_succ, List.getElem?_eq_getElem hcl, List.getD_eq_getElem _ _ hcl]; rfl
    simp only [List.foldl_cons, List.foldl_nil,
      Heap.index_append_array h _ items hv n (by omega), htake, List.filter_append]
    by_cases c : predicate ((h.cells items).getD n default) = true
    · rw [if_pos c, Heap.append_last, List.filter_cons_of_pos c]
      simp
    · rw [if_neg c, List.filter_cons_of_neg c]
      simp

/-- What `Filter` returns and what it leaves of the memory. -/
theorem Filter_run_eq {T : Type} [Inhabited T] (h : Heap T) (items : Slice)
    (predicate : T → Bool) (hv : h.Valid items) :
    Filter.run h items predicate
    = (⟨h.arrays ++ [(h.cells items).filter predicate]⟩,
        ⟨h.arrays.length, ((h.cells items).filter predicate).length⟩) := by
  unfold Filter.run
  rw [Filter.run_loop h items predicate hv items.len (le_refl _)]
  have : (h.cells items).take items.len = h.cells items := by
    simp [Heap.cells]
  rw [this]

/-- The elements `Filter` returns are those of the standard list filter. -/
theorem Filter_eq_filter {T : Type} [Inhabited T] (items : List T) (predicate : T → Bool) :
    services.Filter items predicate = items.filter predicate := by
  unfold services.Filter
  simp only [Heap.alloc]
  rw [Filter_run_eq]
  · simp [Heap.cells, Heap.backing]
  · simp [Heap.Valid, Heap.backing]

/-- C29.  The generic `Filter`, for every memory, every slice in it and every
predicate: the returned slice holds exactly the elements of the input that
satisfy the predicate, in their order and with their multiplicities (the
standard list filter); every array that existed before the call, so also the
one behind the input, is unchanged, and the input still denotes the same
elements; the result is a slice over a newly allocated array (it is not nil),
also when nothing matches, in which case it is empty; and filtering 1..10 by
evenness gives [2, 4, 6, 8, 10]. -/
theorem C29_Filter {T : Type} [Inhabited T] (h : Heap T) (items : Slice)
    (predicate : T → Bool) (hv : h.Valid items) :
    (Filter.run h items predicate).1.cells (Filter.run h items predicate).2
      = (h.cells items).filter predicate ∧
    services.Filter (h.cells items) predicate = (h.cells items).filter predicate ∧
    (∀ s : Slice, s.arr < h.arrays.length →
      (Filter.run h items predicate).1.backing s = h.backing s) ∧
    (Filter.run h items predicate).1.cells items = h.cells items ∧
    (Filter.run h items predicate).2.arr = h.arrays.length ∧
    (Filter.run h items predicate).1.Valid (Filter.run h items predicate).2 ∧
    ((∀ x ∈ h.cells items, predicate x = false) →
      (Filter.run h items predicate).2.len = 0 ∧
      (Filter.run h items predicate).1.cells (Filter.run h items predicate).2 = []) ∧
    services.Filter [1, 2, 3, 4, 5, 6, 7, 8, 9, 10] isEven = [2, 4, 6, 8, 10] := by
  rw [Filter_run_eq h items predicate hv]
  have hnil : (∀ x ∈ h.cells items, predicate x = false) →
      (h.cells items).filter predicate = [] := by
    intro hnone
    rw [List.filter_eq_nil_iff]
    intro x hx
    rw [hnone x hx]
    exact Bool.false_ne_true
  have hfil := Filter_eq_filter (h.cells items) predicate
  generalize (h.cells items).filter predicate = kept at hnil hfil ⊢
  have hback : ∀ s : Slice, s.arr < h.arrays.length →
      (Heap.mk (h.arrays ++ [kept])).backing s = h.backing s := by
    intro s hs
    simp only [Heap.backing]
    rw [List.getD_append _ _ _ _ hs]
  have hnew : (h.arrays ++ [kept]).getD h.arrays.length [] = kept := by
    simp [List.getD_eq_getElem?_getD]
  refine ⟨?_, hfil, hback, ?_, rfl, ⟨?_, ?_⟩, ?_, ?_⟩
  · simp only [Heap.cells, Heap.backing, hnew, List.take_length]
  · simp only [Heap.cells, hback items hv.1]
  · simp
  · simp only [Heap.backing, hnew, le_refl]
  · intro hnone
    rw [hnil hnone]
    simp [Heap.cells]
  · rw [Filter_eq_filter]
    decide

/-- C29, witness: the even numbers of `TestFilter`. -/
theorem C29_Filter_witness :
    (Heap.mk [[1, 2, 3, 4, 5, 6, 7, 8, 9, 10]]).Valid ⟨0, 10⟩ ∧
    (Filter.run (Heap.mk [[1, 2, 3, 4, 5, 6, 7, 8, 9, 10]]) ⟨0, 10⟩ isEven).1.cells
        (Filter.run (Heap.mk [[1, 2, 3, 4, 5, 6, 7, 8, 9, 10]]) ⟨0, 10⟩ isEven).2
      = [2, 4, 6, 8, 10] :=
  ⟨⟨by decide, by decide⟩,
    (C29_Filter (Heap.mk [[1, 2, 3, 4, 5, 6, 7, 8, 9, 10]]) ⟨0, 10⟩ isEven
      ⟨by decide, by decide⟩).1⟩

/-! ## Tag filter -/

theorem Contains_iff {T : Type} [DecidableEq T] (items : List T) (item : T) :
    Contains items item = true ↔ item ∈ items := by
  induction items with
  | nil => simp [Contains]
  | cons i rest ih =>
    unfold Contains
    by_cases c : i = item
    · simp [c]
    · simp only [c, if_false, ih, List.mem_cons]
      constructor
      · exact Or.inr
      · rintro (h | h)
        · exact absurd h.symm c
        · exact h

theorem FilterRecipesByTag_eq (iter : GoMap Recipe) (tag : String) :
    RecipeService.FilterRecipesByTag iter tag =
      (InMemoryRecipeRepository.FindAll iter).filter (fun recipe => decide (tag ∈ recipe.Tags)) := by
  unfold RecipeService.FilterRecipesByTag
  simp only [Filter_eq_filter]
  congr 1
  funext recipe
  rw [Bool.eq_iff_iff, Contains_iff]
  simp

theorem mem_FilterRecipesByTag (iter : GoMap Recipe) (tag : String) (recipe : Recipe) :
    recipe ∈ RecipeService.FilterRecipesByTag iter tag ↔
      (∃ id, (id, recipe) ∈ iter) ∧ tag ∈ recipe.Tags := by
  rw [FilterRecipesByTag_eq, FindAll_eq_values]
  simp [List.mem_filter]

/-- C26.  `FilterRecipesByTag` uses exact membership: for every visiting
order of the store and every tag, the result is the list of `FindAll`
filtered by "the `Tags` list has an element equal to the tag"; so a recipe is
in the result iff it is stored and one of its tags is the tag itself, a tag
that no stored recipe holds gives the empty result, the query "veg" does not
return a recipe tagged only "vegetarian", and in every visiting order of the
three recipes tagged {vegetarian, quick}, {meat, dinner}, {vegetarian, dinner}
the counts for vegetarian, meat, dinner, quick, nonexistent are 2, 1, 2, 1, 0. -/
theorem C26_FilterRecipesByTag_exact_membership (iter : GoMap Recipe) (tag : String) :
    RecipeService.FilterRecipesByTag iter tag =
      (InMemoryRecipeRepository.FindAll iter).filter
        (fun recipe => decide (∃ t ∈ recipe.Tags, t = tag)) ∧
    (∀ (r : InMemoryRecipeRepository), iter.Perm r.recipes → ∀ recipe,
      (recipe ∈ RecipeService.FilterRecipesByTag iter tag ↔
        (∃ id, (id, recipe) ∈ r.recipes) ∧ ∃ t ∈ recipe.Tags, t = tag)) ∧
    ((∀ e ∈ iter, tag ∉ e.2.Tags) → RecipeService.FilterRecipesByTag iter tag = []) ∧
    RecipeService.FilterRecipesByTag [("1", tagged "1" "Recipe 1" ["vegetarian"])] "veg" = [] ∧
    (iter.Perm tagStore →
      (RecipeService.FilterRecipesByTag iter "vegetarian").length = 2 ∧
      (RecipeService.FilterRecipesByTag iter "meat").length = 1 ∧
      (RecipeService.FilterRecipesByTag iter "dinner").length = 2 ∧
      (RecipeService.FilterRecipesByTag iter "quick").length = 1 ∧
      (RecipeService.FilterRecipesByTag iter "nonexistent").length = 0) := by
  refine ⟨?_, ?_, ?_, ?_, ?_⟩
  · rw [FilterRecipesByTag_eq]
    congr 1
    funext recipe
    simp
  · intro r hperm recipe
    rw [mem_FilterRecipesByTag]
    constructor
    · rintro ⟨⟨id, hid⟩, ht⟩
      exact ⟨⟨id, hperm.subset hid⟩, tag, ht, rfl⟩
    · rintro ⟨⟨id, hid⟩, t, ht, rfl⟩
      exact ⟨⟨id, hperm.symm.subset hid⟩, ht⟩
  · intro hnone
    rw [FilterRecipesByTag_eq, FindAll_eq_values, List.filter_eq_nil_iff]
    intro recipe hmem
    obtain ⟨e, he, rfl⟩ := List.mem_map.1 hmem
    simpa using hnone e he
  · rw [FilterRecipesByTag_eq, FindAll_eq_values]
    decide
  · intro hperm
    have hlen : ∀ t : String, (RecipeService.FilterRecipesByTag iter t).length
        = (RecipeService.FilterRecipesByTag tagStore t).length := by
      intro t
      rw [FilterRecipesByTag_eq, FilterRecipesByTag_eq, FindAll_eq_values, FindAll_eq_values]
      exact ((hperm.map Prod.snd).filter _).length_eq
    simp only [hlen]
    simp only [FilterRecipesByTag_eq, FindAll_eq_values]
    decide

/-- C25, counterexample: the query "Vegetarian" equals the tag "vegetarian"
when letter case is ignored, and two recipes of `TestFilterRecipesByTag` carry
that tag, yet `FilterRecipesByTag` and `SearchByTag` return nothing for it. -/
theorem C25_tag_query_in_other_case_finds_nothing :
    strings.ToLower Char.toLower "Vegetarian" = strings.ToLower Char.toLower "vegetarian" ∧
    (RecipeService.FilterRecipesByTag tagStore "vegetarian").length = 2 ∧
    RecipeService.FilterRecipesByTag tagStore "Vegetarian" = [] ∧
    SearchService.SearchByTag tagStore "Vegetarian" = [] := by
  refine ⟨by decide, ?_, ?_, ?_⟩
  · rw [FilterRecipesByTag_eq, FindAll_eq_values]; decide
  · rw [FilterRecipesByTag_eq, FindAll_eq_values]; decide
  · unfold SearchService.SearchByTag
    rw [FilterRecipesByTag_eq, FindAll_eq_values]; decide

/-- C25, amended.  `FilterRecipesByTag`, and `SearchByTag`, which delegates to
it, compare tags with `==`, so they are case-sensitive: for every visiting
order of the store and every tag query, a recipe is returned iff it is listed
by `FindAll` and one of its tags is equal to the query, character for
character; a query that differs from every stored tag, be it only in letter
case, returns nothing. -/
theorem C25_tag_filter_case_sensitive (iter : GoMap Recipe) (tag : String) :
    SearchService.SearchByTag iter tag = RecipeService.FilterRecipesByTag iter tag ∧
    (∀ recipe, recipe ∈ SearchService.SearchByTag iter tag ↔
      recipe ∈ InMemoryRecipeRepository.FindAll iter ∧ ∃ t ∈ recipe.Tags, t.data = tag.data) ∧
    ((∀ recipe ∈ InMemoryRecipeRepository.FindAll iter, ∀ t ∈ recipe.Tags, t ≠ tag) →
      SearchService.SearchByTag iter tag = []) := by
  refine ⟨rfl, ?_, ?_⟩
  · intro recipe
    unfold SearchService.SearchByTag
    rw [FilterRecipesByTag_eq, List.mem_filter]
    simp only [decide_eq_true_eq]
    constructor
    · rintro ⟨h1, h2⟩
      exact ⟨h1, tag, h2, rfl⟩
    · rintro ⟨h1, t, ht, hdata⟩
      have : t = tag := String.ext hdata
      exact ⟨h1, this ▸ ht⟩
  · intro hnone
    unfold SearchService.SearchByTag
    rw [FilterRecipesByTag_eq, List.filter_eq_nil_iff]
    intro recipe hmem
    simp only [decide_eq_true_eq]
    intro ht
    exact hnone recipe hmem tag ht rfl

/-! ## Substring search -/

theorem strings.startsWith_iff (s p : List Char) :
    strings.startsWith s p = true ↔ ∃ rest, s = p ++ rest := by
  induction s generalizing p with
  | nil =>
    cases p with
    | nil => simp [strings.startsWith]
    | cons b p => simp [strings.startsWith]
  | cons a s ih =>
    cases p with
    | nil => simp [strings.startsWith]
    | cons b p =>
      unfold strings.startsWith
      by_cases c : a = b
      · subst c
        simp only [if_true, ih, List.cons_append, List.cons.injEq, true_and]
      · simp only [c, if_false, List.cons_append, List.cons.injEq, false_and, exists_false]
        exact ⟨fun h => Bool.false_ne_true h, False.elim⟩

theorem strings.occursIn_iff (sub s : List Char) :
    strings.occursIn sub s = true ↔ ∃ a b, s = a ++ sub ++ b := by
  induction s with
  | nil =>
    unfold strings.occursIn
    rw [strings.startsWith_iff]
    constructor
    · rintro ⟨rest, h⟩
      exact ⟨[], rest, by simpa using h⟩
    · rintro ⟨a, b, h⟩
      have h2 := congrArg List.length h
      simp only [List.length_nil, List.length_append] at h2
      have ha : a = [] := List.length_eq_zero.1 (by omega)
      subst ha
      exact ⟨b, by simpa using h⟩
  | cons x s ih =>
    unfold strings.occursIn
    rw [Bool.or_eq_true, strings.startsWith_iff, ih]
    constructor
    · rintro (⟨rest, h⟩ | ⟨a, b, h⟩)
      · exact ⟨[], rest, by simpa using h⟩
      · exact ⟨x :: a, b, by simp [h]⟩
    · rintro ⟨a, b, h⟩
      cases a with
      | nil => exact Or.inl ⟨b, by simpa using h⟩
      | cons y a =>
        simp only [List.cons_append, List.cons.injEq] at h
        exact Or.inr ⟨a, b, by simpa using h.2⟩

/-- `strings.Contains` holds iff the second string is a contiguous part of the first. -/
theorem strings_Contains_iff (s substr : String) :
    strings.Contains s substr = true ↔ ∃ a b, s.data = a ++ substr.data ++ b :=
  strings.occursIn_iff substr.data s.data

theorem anyIngredient_iff (lower : Char → Char) (ingredient : String) (l : List String) :
    SearchService.SearchByIngredient.anyIngredient lower ingredient l = true ↔
      ∃ ing ∈ l, strings.Contains (strings.ToLower lower ing)
        (strings.ToLower lower ingredient) = true := by
  induction l with
  | nil => simp [SearchService.SearchByIngredient.anyIngredient]
  | cons ing rest ih =>
    unfold SearchService.SearchByIngredient.anyIngredient
    by_cases c : strings.Contains (strings.ToLower lower ing)
        (strings.ToLower lower ingredient) = true
    · simp [c]
    · rw [if_neg c, ih]
      constructor
      · rintro ⟨x, hx, h⟩
        exact ⟨x, List.mem_cons_of_mem _ hx, h⟩
      · rintro ⟨x, hx, h⟩
        rcases List.mem_cons.1 hx with e | hx
        · subst e; exact absurd h c
        · exact ⟨x, hx, h⟩

/-- On ASCII text a lower-casing that agrees with the ASCII one gives the same
result for two spellings that differ in letter case only. -/
theorem strings.ToLower_ascii (lower : Char → Char)
    (hlower : ∀ c : Char, c.toNat < 128 → lower c = c.toLower) (q q' : String)
    (hq : ∀ c ∈ q.data, c.toNat < 128) (hq' : ∀ c ∈ q'.data, c.toNat < 128)
    (hcase : q'.data.map Char.toLower = q.data.map Char.toLower) :
    strings.ToLower lower q' = strings.ToLower lower q := by
  unfold strings.ToLower
  congr 1
  have e1 : q.data.map lower = q.data.map Char.toLower :=
    List.map_congr_left (fun c hc => hlower c (hq c hc))
  have e2 : q'.data.map lower = q'.data.map Char.toLower :=
    List.map_congr_left (fun c hc => hlower c (hq' c hc))
  rw [e1, e2, hcase]

/-- C27.  `SearchByTitle`, for every lower-casing function, visiting order of
the store and query: the result is the list of `FindAll` filtered by "the
lower-cased `Title` contains the lower-cased query", so it keeps the order of
`FindAll`, and a recipe is in it iff it is stored and its lower-cased title
is `a ++ query ++ b` for the lower-cased query and some `a`, `b`.
Consequently, when the lower-casing agrees with the ASCII one on ASCII
characters, two ASCII queries that differ only in letter case give the same
result. -/
theorem C27_SearchByTitle (lower : Char → Char) (iter : GoMap Recipe) (title : String) :
    SearchService.SearchByTitle lower iter title =
      (InMemoryRecipeRepository.FindAll iter).filter (fun recipe =>
        strings.Contains (strings.ToLower lower recipe.Title) (strings.ToLower lower title)) ∧
    (SearchService.SearchByTitle lower iter title).Sublist
      (InMemoryRecipeRepository.FindAll iter) ∧
    (∀ (r : InMemoryRecipeRepository), iter.Perm r.recipes → ∀ recipe,
      (recipe ∈ SearchService.SearchByTitle lower iter title ↔
        (∃ id, (id, recipe) ∈ r.recipes) ∧
        ∃ a b, (strings.ToLower lower recipe.Title).data
          = a ++ (strings.ToLower lower title).data ++ b)) ∧
    ((∀ c : Char, c.toNat < 128 → lower c = c.toLower) →
      ∀ title' : String, (∀ c ∈ title.data, c.toNat < 128) →
        (∀ c ∈ title'.data, c.toNat < 128) →
        title'.data.map Char.toLower = title.data.map Char.toLower →
        SearchService.SearchByTitle lower iter title'
          = SearchService.SearchByTitle lower iter title) ∧
    SearchService.SearchByTitle Char.toLower tagStore "rEcIpE 2"
      = [tagged "2" "Recipe 2" ["meat", "dinner"]] := by
  have heq : ∀ q, SearchService.SearchByTitle lower iter q =
      (InMemoryRecipeRepository.FindAll iter).filter (fun recipe =>
        strings.Contains (strings.ToLower lower recipe.Title) (strings.ToLower lower q)) := by
    intro q
    unfold SearchService.SearchByTitle RecipeService.GetAllRecipes
    simp only [Filter_eq_filter]
  refine ⟨heq title, ?_, ?_, ?_, ?_⟩
  · rw [heq]
    exact List.filter_sublist _
  · intro r hperm recipe
    rw [heq, List.mem_filter, strings_Contains_iff, FindAll_eq_values]
    constructor
    · rintro ⟨hmem, hsub⟩
      obtain ⟨e, he, rfl⟩ := List.mem_map.1 hmem
      exact ⟨⟨e.1, hperm.subset he⟩, hsub⟩
    · rintro ⟨⟨id, hid⟩, hsub⟩
      exact ⟨List.mem_map.2 ⟨(id, recipe), hperm.symm.subset hid, rfl⟩, hsub⟩
  · intro hlower title' h1 h2 hcase
    rw [heq, heq, strings.ToLower_ascii lower hlower title title' h1 h2 hcase]
  · unfold SearchService.SearchByTitle RecipeService.GetAllRecipes
    simp only [Filter_eq_filter, FindAll_eq_values]
    decide

/-- C28.  `SearchByIngredient`, for every lower-casing function, visiting
order of the store and query: the result is the list of `FindAll` filtered by
"some ingredient, lower-cased, contains the lower-cased query"; so it keeps
the order of `FindAll`, a recipe is in it iff it is stored and one of its
lower-cased ingredients is `a ++ query ++ b` for the lower-cased query and
some `a`, `b`, and a recipe occurs in it as often as in `FindAll` (once, as
each stored recipe is listed once), however many of its ingredients match. -/
theorem C28_SearchByIngredient (lower : Char → Char) (iter : GoMap Recipe)
    (ingredient : String) :
    SearchService.SearchByIngredient lower iter ingredient =
      (InMemoryRecipeRepository.FindAll iter).filter (fun recipe =>
        recipe.Ingredients.any (fun ing =>
          strings.Contains (strings.ToLower lower ing) (strings.ToLower lower ingredient))) ∧
    (SearchService.SearchByIngredient lower iter ingredient).Sublist
      (InMemoryRecipeRepository.FindAll iter) ∧
    (∀ (r : InMemoryRecipeRepository), iter.Perm r.recipes → ∀ recipe,
      (recipe ∈ SearchService.SearchByIngredient lower iter ingredient ↔
        (∃ id, (id, recipe) ∈ r.recipes) ∧
        ∃ ing ∈ recipe.Ingredients, ∃ a b, (strings.ToLower lower ing).data
          = a ++ (strings.ToLower lower ingredient).data ++ b)) ∧
    (∀ recipe ∈ SearchService.SearchByIngredient lower iter ingredient,
      (SearchService.SearchByIngredient lower iter ingredient).count recipe
        = (InMemoryRecipeRepository.FindAll iter).count recipe) ∧
    (SearchService.SearchByIngredient Char.toLower tomatoStore "tomato").map (fun r => r.ID)
      = ["1"] := by
  have heq : SearchService.SearchByIngredient lower iter ingredient =
      (InMemoryRecipeRepository.FindAll iter).filter (fun recipe =>
        recipe.Ingredients.any (fun ing =>
          strings.Contains (strings.ToLower lower ing) (strings.ToLower lower ingredient))) := by
    unfold SearchService.SearchByIngredient RecipeService.GetAllRecipes
    simp only [Filter_eq_filter]
    congr 1
    funext recipe
    rw [Bool.eq_iff_iff, anyIngredient_iff, List.any_eq_true]
  refine ⟨heq, ?_, ?_, ?_, ?_⟩
  · rw [heq]
    exact List.filter_sublist _
  · intro r hperm recipe
    rw [heq, List.mem_filter, List.any_eq_true, FindAll_eq_values]
    simp only [strings_Contains_iff]
    constructor
    · rintro ⟨hmem, hsub⟩
      obtain ⟨e, he, rfl⟩ := List.mem_map.1 hmem
      exact ⟨⟨e.1, hperm.subset he⟩, hsub⟩
    · rintro ⟨⟨id, hid⟩, hsub⟩
      exact ⟨List.mem_map.2 ⟨(id, recipe), hperm.symm.subset hid, rfl⟩, hsub⟩
  · intro recipe hmem
    rw [heq] at hmem ⊢
    exact List.count_filter (List.mem_filter.1 hmem).2
  · unfold SearchService.SearchByIngredient RecipeService.GetAllRecipes
    simp only [Filter_eq_filter, FindAll_eq_values]
    decide

/-! ## Users: creation defaults and update -/

/-- C22.  For every `UserInput` that `NewUser` accepts (hashing succeeds),
the created user has the role "user" when the input `Role` is the empty
string and the input `Role` otherwise, the input's `Username` and `Email`,
`CreatedAt = UpdatedAt` (both the clock reading), the new id, and the hash of
the input's password as `Password`. -/
theorem C22_NewUser_defaults (hash : String → Except String String) (now : Int) (id : String)
    (input : UserInput) (user : User) (h : NewUser hash now id input = .ok user) :
    (input.Role = "" → user.Role = "user") ∧
    (input.Role ≠ "" → user.Role = input.Role) ∧
    user.Username = input.Username ∧ user.Email = input.Email ∧
    user.CreatedAt = user.UpdatedAt ∧ user.CreatedAt = now ∧ user.ID = id ∧
    hash input.Password = .ok user.Password := by
  unfold NewUser at h
  cases hh : hash input.Password with
  | error err => rw [hh] at h; cases h
  | ok hashed =>
    rw [hh] at h
    simp only [Except.ok.injEq] at h
    subst h
    refine ⟨?_, ?_, rfl, rfl, rfl, rfl, rfl, rfl⟩
    · intro c; simp [c]
    · intro c; simp [c]

/-- C22, witness: an input without a role, as `TestAuthenticate` could send it. -/
theorem C22_NewUser_defaults_witness :
    NewUser exampleHash 7 "1" ⟨"testuser", "test@example.com", "password123", ""⟩
      = .ok ⟨"1", "testuser", "test@example.com", "hashed:password123", "user", 7, 7⟩ ∧
    (⟨"1", "testuser", "test@example.com", "hashed:password123", "user", 7, 7⟩ : User).Role
      = "user" :=
  ⟨rfl, (C22_NewUser_defaults exampleHash 7 "1"
    ⟨"testuser", "test@example.com", "password123", ""⟩
    ⟨"1", "testuser", "test@example.com", "hashed:password123", "user", 7, 7⟩ rfl).1 rfl⟩

/-- What `UpdateUser` returns, by the input's password. -/
theorem UpdateUser_cases (hash : String → Except String String) (now : Int) (original : User)
    (input : UserInput) :
    (input.Password = "" →
      UpdateUser hash now original input = .ok
        { original with
          Username := input.Username, Email := input.Email, UpdatedAt := now,
          Role := if input.Role = "" then original.Role else input.Role }) ∧
    (∀ hashed, input.Password ≠ "" → hash input.Password = .ok hashed →
      UpdateUser hash now original input = .ok
        { original with
          Username := input.Username, Email := input.Email, UpdatedAt := now,
          Role := if input.Role = "" then original.Role else input.Role,
          Password := hashed }) ∧
    (∀ err, input.Password ≠ "" → hash input.Password = .error err →
      UpdateUser hash now original input = .error err) := by
  refine ⟨?_, ?_, ?_⟩
  · intro hp
    unfold UpdateUser
    by_cases c : input.Role = "" <;> simp [hp, c]
  · intro hashed hp hh
    unfold UpdateUser
    by_cases c : input.Role = "" <;> simp [hp, hh, c]
  · intro err hp hh
    unfold UpdateUser
    by_cases c : input.Role = "" <;> simp [hp, hh, c]

theorem Update.usernameTaken_eq_true (id username : String) (iter : GoMap User) :
    InMemoryUserRepository.Update.usernameTaken id username iter = true ↔
      ∃ e ∈ iter, e.2.ID ≠ id ∧ e.2.Username = username := by
  have h := Update.usernameTaken_eq_false id username iter
  cases hb : InMemoryUserRepository.Update.usernameTaken id username iter
  · simp only [Bool.false_eq_true, false_iff]
    rintro ⟨e, he, hc⟩
    exact (h.1 hb) e he hc
  · simp only [true_iff]
    by_contra hne
    have := h.2 (fun e he hc => hne ⟨e, he, hc⟩)
    rw [hb] at this
    cases this

theorem Update.emailTaken_eq_true (id email : String) (iter : GoMap User) :
    InMemoryUserRepository.Update.emailTaken id email iter = true ↔
      ∃ e ∈ iter, e.2.ID ≠ id ∧ e.2.Email = email := by
  have h := Update.emailTaken_eq_false id email iter
  cases hb : InMemoryUserRepository.Update.emailTaken id email iter
  · simp only [Bool.false_eq_true, false_iff]
    rintro ⟨e, he, hc⟩
    exact (h.1 hb) e he hc
  · simp only [true_iff]
    by_contra hne
    have := h.2 (fun e he hc => hne ⟨e, he, hc⟩)
    rw [hb] at this
    cases this

/-- The store of the examples is reachable. -/
theorem twoUsers_reachable : UserReachable twoUsers :=
  UserReachable.create oneUser.users exampleHash 2 "2"
    ⟨"bob", "bob@example.com", "pw2", "admin"⟩
    (UserReachable.create [] exampleHash 1 "1" ⟨"alice", "alice@example.com", "pw1", ""⟩
      UserReachable.empty (List.Perm.refl _))
    (List.Perm.refl _)

/-- C21 (amended).  User `Update` (to which `UserService.UpdateUser`
delegates) in a reachable store, whatever order the two loops visit the users
in.  If `id` is stored, no user stored under another id holds the input's
`Username` or `Email`, and the input `Password` is empty or can be hashed:
the update succeeds and stores under `id` a user with the original `ID` and
`CreatedAt`, the input's `Username` and `Email`, the input's `Role` if that
is non-empty and the original `Role` otherwise, and as `Password` the
original hash if the input `Password` is empty (so a password verifies
against the stored hash exactly when it did before) and the hash of the new
password otherwise.  If a user stored under another id holds the input's
`Username` or `Email`, the update fails and the store is unchanged.  If `id`
is not stored it fails with "user not found".  If hashing the new password
fails, the update fails and the store is unchanged. -/
theorem C21_user_update (r : InMemoryUserRepository) (iterU iterE : GoMap User)
    (hash : String → Except String String) (now : Int) (id : String) (input : UserInput)
    (hreach : UserReachable r) (hU : iterU.Perm r.users) (hE : iterE.Perm r.users) :
    UserService.UpdateUser r iterU iterE hash now id input
      = r.Update iterU iterE hash now id input ∧
    (∀ original, mapLookup r.users id = some original →
      (∀ e ∈ r.users, e.1 ≠ id →
        e.2.Username ≠ input.Username ∧ e.2.Email ≠ input.Email) →
      (input.Password = "" ∨ ∃ hashed, hash input.Password = .ok hashed) →
      ∃ updated,
        (r.Update iterU iterE hash now id input).1 = .ok updated ∧
        mapLookup (r.Update iterU iterE hash now id input).2.users id = some updated ∧
        updated.ID = original.ID ∧ updated.CreatedAt = original.CreatedAt ∧
        updated.Username = input.Username ∧ updated.Email = input.Email ∧
        (input.Role ≠ "" → updated.Role = input.Role) ∧
        (input.Role = "" → updated.Role = original.Role) ∧
        (input.Password = "" → updated.Password = original.Password ∧
          ∀ (verify : String → String → Bool) (password : String),
            updated.CheckPassword verify password = original.CheckPassword verify password) ∧
        (input.Password ≠ "" → hash input.Password = .ok updated.Password)) ∧
    ((∃ e ∈ r.users, e.1 ≠ id ∧
        (e.2.Username = input.Username ∨ e.2.Email = input.Email)) →
      (∃ err, (r.Update iterU iterE hash now id input).1 = .error err) ∧
      (r.Update iterU iterE hash now id input).2 = r) ∧
    (mapLookup r.users id = none →
      r.Update iterU iterE hash now id input = (.error "user not found", r)) ∧
    (∀ err, input.Password ≠ "" → hash input.Password = .error err →
      (∃ err', (r.Update iterU iterE hash now id input).1 = .error err') ∧
      (r.Update iterU iterE hash now id input).2 = r) := by
  have hinv := UserInv_of_reachable r hreach
  refine ⟨rfl, ?_, ?_, ?_, ?_⟩
  · intro original hl hfree hhash
    have hu : ¬ (input.Username ≠ original.Username ∧
        InMemoryUserRepository.Update.usernameTaken id input.Username iterU = true) := by
      rintro ⟨_, ht⟩
      obtain ⟨e, he, hid, hname⟩ := (Update.usernameTaken_eq_true _ _ _).1 ht
      have hmem := hU.subset he
      have hkey : e.1 ≠ id := by rw [← hinv.1 e hmem]; exact hid
      exact (hfree e hmem hkey).1 hname
    have hm : ¬ (input.Email ≠ original.Email ∧
        InMemoryUserRepository.Update.emailTaken id input.Email iterE = true) := by
      rintro ⟨_, ht⟩
      obtain ⟨e, he, hid, hmail⟩ := (Update.emailTaken_eq_true _ _ _).1 ht
      have hmem := hE.subset he
      have hkey : e.1 ≠ id := by rw [← hinv.1 e hmem]; exact hid
      exact (hfree e hmem hkey).2 hmail
    obtain ⟨h1, h2, _⟩ := UpdateUser_cases hash now original input
    unfold InMemoryUserRepository.Update
    rw [hl]
    simp only []
    rw [if_neg hu, if_neg hm]
    by_cases hp : input.Password = ""
    · rw [h1 hp]
      refine ⟨_, rfl, mapLookup_mapStore_same _ _ _, rfl, rfl, rfl, rfl, ?_, ?_, ?_, ?_⟩
      · intro c; simp [c]
      · intro c; simp [c]
      · intro _; exact ⟨rfl, fun _ _ => rfl⟩
      · intro c; exact absurd hp c
    · rcases hhash with hp2 | ⟨hashed, hh⟩
      · exact absurd hp2 hp
      · rw [h2 hashed hp hh]
        refine ⟨_, rfl, mapLookup_mapStore_same _ _ _, rfl, rfl, rfl, rfl, ?_, ?_, ?_, ?_⟩
        · intro c; simp [c]
        · intro c; simp [c]
        · intro c; exact absurd c hp
        · intro _; exact hh
  · rintro ⟨e, he, hkey, hdup⟩
    unfold InMemoryUserRepository.Update
    cases hl : mapLookup r.users id with
    | none => exact ⟨⟨_, rfl⟩, rfl⟩
    | some original =>
      simp only []
      have hmem : (id, original) ∈ r.users := mem_of_mapLookup _ _ _ hl
      have hd := UserInv_distinct r.users hinv e (id, original) he hmem hkey
      have hid : e.2.ID ≠ id := by rw [hinv.1 e he]; exact hkey
      split_ifs with c1 c2
      · exact ⟨⟨_, rfl⟩, rfl⟩
      · exact ⟨⟨_, rfl⟩, rfl⟩
      · exfalso
        rcases hdup with hname | hmail
        · apply c1
          refine ⟨fun heq => hd.1 (hname.trans heq), ?_⟩
          exact (Update.usernameTaken_eq_true _ _ _).2 ⟨e, hU.symm.subset he, hid, hname⟩
        · apply c2
          refine ⟨fun heq => hd.2 (hmail.trans heq), ?_⟩
          exact (Update.emailTaken_eq_true _ _ _).2 ⟨e, hE.symm.subset he, hid, hmail⟩
  · intro hl
    unfold InMemoryUserRepository.Update
    rw [hl]
  · intro err hp hh
    unfold InMemoryUserRepository.Update
    cases hl : mapLookup r.users id with
    | none => exact ⟨⟨_, rfl⟩, rfl⟩
    | some original =>
      simp only []
      rw [(UpdateUser_cases hash now original input).2.2 err hp hh]
      split_ifs <;> exact ⟨⟨_, rfl⟩, rfl⟩

/-- C21 (counterexample).  In the store of `"alice"` and `"bob"`, with a hash
function that, like bcrypt, refuses passwords of more than 72 bytes: `"1"` is
stored, no other user holds the input's `Username` or `Email`, and the input
`Password` has 73 bytes.  `Update` fails with the error of the hash function
and the store stays as it was: no user with a hash of the new password is
stored. -/
theorem C21_unhashable_password :
    UserReachable twoUsers ∧
    (InMemoryUserRepository.Create
      (InMemoryUserRepository.Create ⟨[]⟩ [] boundedHash 1 "1"
        ⟨"alice", "alice@example.com", "pw1", ""⟩).2
      (InMemoryUserRepository.Create ⟨[]⟩ [] boundedHash 1 "1"
        ⟨"alice", "alice@example.com", "pw1", ""⟩).2.users boundedHash 2 "2"
      ⟨"bob", "bob@example.com", "pw2", "admin"⟩).2 = twoUsers ∧
    (∃ original, mapLookup twoUsers.users "1" = some original) ∧
    (∀ e ∈ twoUsers.users, e.1 ≠ "1" →
      e.2.Username ≠ "alice" ∧ e.2.Email ≠ "alice@example.com") ∧
    String.utf8ByteSize
      "aaaaaaaaaaaaaaaaaaaaaaaaaaaaaaaaaaaaaaaaaaaaaaaaaaaaaaaaaaaaaaaaaaaaaaaaa" = 73 ∧
    twoUsers.Update twoUsers.users twoUsers.users boundedHash 9 "1"
      ⟨"alice", "alice@example.com",
        "aaaaaaaaaaaaaaaaaaaaaaaaaaaaaaaaaaaaaaaaaaaaaaaaaaaaaaaaaaaaaaaaaaaaaaaaa", ""⟩
      = (.error "bcrypt: password length exceeds 72 bytes", twoUsers) := by
  refine ⟨twoUsers_reachable, rfl, ⟨_, rfl⟩, by decide, by decide, rfl⟩

/-- C21 (amended), witness: in the store of `"alice"` and `"bob"`, giving
`"alice"` a new name, address and password succeeds and stores the hash of
the new password with the original id, role and creation time; renaming her
to `"bob"` fails and changes nothing; and so does a new password that the
hash function refuses. -/
theorem C21_user_update_witness :
    UserReachable twoUsers ∧ List.Perm twoUsers.users twoUsers.users ∧
    (∃ updated,
      (twoUsers.Update twoUsers.users twoUsers.users boundedHash 9 "1"
        ⟨"alicia", "alicia@example.com", "pw3", ""⟩).1 = .ok updated ∧
      mapLookup (twoUsers.Update twoUsers.users twoUsers.users boundedHash 9 "1"
        ⟨"alicia", "alicia@example.com", "pw3", ""⟩).2.users "1" = some updated ∧
      updated.ID = "1" ∧ updated.CreatedAt = 1 ∧ updated.Username = "alicia" ∧
      updated.Email = "alicia@example.com" ∧ updated.Role = "user" ∧
      boundedHash "pw3" = .ok updated.Password) ∧
    (twoUsers.Update twoUsers.users twoUsers.users exampleHash 9 "1"
      ⟨"bob", "alice@example.com", "", ""⟩).2 = twoUsers ∧
    (twoUsers.Update twoUsers.users twoUsers.users boundedHash 9 "1"
      ⟨"alice", "alice@example.com",
        "aaaaaaaaaaaaaaaaaaaaaaaaaaaaaaaaaaaaaaaaaaaaaaaaaaaaaaaaaaaaaaaaaaaaaaaaa", ""⟩).2
      = twoUsers := by
  obtain ⟨updated, h1, h2, h3, h4, h5, h6, _, h8, _, h10⟩ :=
    (C21_user_update twoUsers twoUsers.users twoUsers.users boundedHash 9 "1"
      ⟨"alicia", "alicia@example.com", "pw3", ""⟩ twoUsers_reachable (List.Perm.refl _)
      (List.Perm.refl _)).2.1
      ⟨"1", "alice", "alice@example.com", "hashed:pw1", "user", 1, 1⟩ rfl (by decide)
      (Or.inr ⟨"hashed:pw3", rfl⟩)
  exact ⟨twoUsers_reachable, List.Perm.refl _,
    ⟨updated, h1, h2, h3, h4, h5, h6, h8 rfl, h10 (by decide)⟩,
    ((C21_user_update twoUsers twoUsers.users twoUsers.users exampleHash 9 "1"
      ⟨"bob", "alice@example.com", "", ""⟩ twoUsers_reachable (List.Perm.refl _)
      (List.Perm.refl _)).2.2.1
      ⟨("2", ⟨"2", "bob", "bob@example.com", "hashed:pw2", "admin", 2, 2⟩),
        by decide, by decide, Or.inl rfl⟩).2,
    ((C21_user_update twoUsers twoUsers.users twoUsers.users boundedHash 9 "1"
      ⟨"alice", "alice@example.com",
        "aaaaaaaaaaaaaaaaaaaaaaaaaaaaaaaaaaaaaaaaaaaaaaaaaaaaaaaaaaaaaaaaaaaaaaaaa", ""⟩
      twoUsers_reachable (List.Perm.refl _) (List.Perm.refl _)).2.2.2.2
      "bcrypt: password length exceeds 72 bytes" (by decide) rfl).2⟩

/-! ## Authentication -/

/-- What `FindByUsername` returns. -/
theorem FindByUsername_cases (iter : GoMap User) (username : String) :
    (∃ e ∈ iter, e.2.Username = username ∧
      InMemoryUserRepository.FindByUsername iter username = .ok e.2) ∨
    ((∀ e ∈ iter, e.2.Username ≠ username) ∧
      InMemoryUserRepository.FindByUsername iter username = .error "user not found") := by
  induction iter with
  | nil =>
    right
    exact ⟨fun e he => absurd he (List.not_mem_nil e), rfl⟩
  | cons e rest ih =>
    obtain ⟨k, user⟩ := e
    unfold InMemoryUserRepository.FindByUsername
    by_cases c : user.Username = username
    · left
      exact ⟨(k, user), List.mem_cons_self _ _, c, by rw [if_pos c]⟩
    · rw [if_neg c]
      rcases ih with ⟨e, he, hname, hfind⟩ | ⟨hnone, hfind⟩
      · left
        exact ⟨e, List.mem_cons_of_mem _ he, hname, hfind⟩
      · right
        refine ⟨?_, hfind⟩
        intro e he
        rcases List.mem_cons.1 he with h | h
        · subst h; exact c
        · exact hnone e h

/-- What `Authenticate` returns. -/
theorem Authenticate_cases (lib : JWT) (verify : String → String → Bool)
    (r : InMemoryUserRepository) (iter : GoMap User) (now1 now2 : Int)
    (username password : String) :
    ((∀ e ∈ iter, e.2.Username ≠ username) ∧
      UserService.Authenticate lib verify r iter now1 now2 username password
        = (("", some "invalid credentials"), r)) ∨
    (∃ e ∈ iter, e.2.Username = username ∧ verify e.2.Password password = false ∧
      UserService.Authenticate lib verify r iter now1 now2 username password
        = (("", some "invalid credentials"), r)) ∨
    (∃ e ∈ iter, e.2.Username = username ∧ verify e.2.Password password = true ∧
      UserService.Authenticate lib verify r iter now1 now2 username password
        = (match lib.SignedString jwtSecret
            { ExpiresAt := now1 + 24 * Hour, IssuedAt := now2, UserID := e.2.ID,
              Role := e.2.Role } with
          | .error err => (("", some err), r)
          | .ok tokenString => ((tokenString, none), r))) := by
  unfold UserService.Authenticate
  rcases FindByUsername_cases iter username with ⟨e, he, hname, hfind⟩ | ⟨hnone, hfind⟩
  · rw [hfind]
    simp only [User.CheckPassword]
    cases hv : verify e.2.Password password
    · right; left
      exact ⟨e, he, hname, hv, rfl⟩
    · right; right
      exact ⟨e, he, hname, hv, rfl⟩
  · rw [hfind]
    left
    exact ⟨hnone, rfl⟩

/-- In a store that satisfies the invariant two entries with the same
username are the same entry. -/
theorem UserInv_username_unique (l : GoMap User) (hinv : UserInv l) (a b : String × User)
    (ha : a ∈ l) (hb : b ∈ l) (hname : a.2.Username = b.2.Username) : a = b := by
  by_contra hne
  have hsymm : Symmetric (fun a b : String × User =>
      a.1 ≠ b.1 ∧ a.2.Username ≠ b.2.Username ∧ a.2.Email ≠ b.2.Email) := by
    intro x y h
    exact ⟨fun e => h.1 e.symm, fun e => h.2.1 e.symm, fun e => h.2.2 e.symm⟩
  exact (hinv.2.forall hsymm ha hb hne).2.1 hname

/-- The store of `TestAuthenticate` is reachable. -/
theorem testUserStore_reachable : UserReachable testUserStore :=
  UserReachable.create [] exampleHash 0 "1"
    ⟨"testuser", "test@example.com", "password123", "user"⟩
    UserReachable.empty (List.Perm.refl _)

/-- C23.  `Authenticate` in a reachable user store, whatever order
`FindByUsername` visits the users in, with the password check as an abstract
function `verify` and a signing call that yields a non-empty token.
It returns a non-empty token and no error iff a stored user has the username
and its stored hash verifies the password.  If no stored user has the
username, and likewise if the stored user with that username has a hash that
does not verify the password, it returns the empty token and the error
"invalid credentials".  It never changes the user store.  And when
`verify (hash p) q` holds iff `p = q`: after creating the user "testuser"
with the password "password123" in an empty store, authenticating as
"testuser" with "password123" succeeds, with "wrongpassword" it fails, and as
"wronguser" it fails. -/
theorem C23_Authenticate (lib : JWT) (verify : String → String → Bool)
    (r : InMemoryUserRepository) (iter : GoMap User) (now1 now2 : Int)
    (username password : String)
    (hreach : UserReachable r) (hiter : iter.Perm r.users)
    (hsign : ∀ claims, ∃ token, lib.SignedString jwtSecret claims = .ok token ∧ token ≠ "") :
    ((∃ token, (UserService.Authenticate lib verify r iter now1 now2 username password).1
          = (token, none) ∧ token ≠ "") ↔
      ∃ e ∈ r.users, e.2.Username = username ∧ verify e.2.Password password = true) ∧
    ((∀ e ∈ r.users, e.2.Username ≠ username) →
      (UserService.Authenticate lib verify r iter now1 now2 username password).1
        = ("", some "invalid credentials")) ∧
    ((∃ e ∈ r.users, e.2.Username = username ∧ verify e.2.Password password = false) →
      (UserService.Authenticate lib verify r iter now1 now2 username password).1
        = ("", some "invalid credentials")) ∧
    (UserService.Authenticate lib verify r iter now1 now2 username password).2 = r ∧
    (∀ (hash : String → Except String String) (now : Int) (id hashed : String),
      (∀ p h q, hash p = .ok h → (verify h q = true ↔ p = q)) →
      hash "password123" = .ok hashed →
      (∃ token,
        (UserService.Authenticate lib verify
          (InMemoryUserRepository.Create ⟨[]⟩ [] hash now id
            ⟨"testuser", "test@example.com", "password123", "user"⟩).2
          (InMemoryUserRepository.Create ⟨[]⟩ [] hash now id
            ⟨"testuser", "test@example.com", "password123", "user"⟩).2.users
          now1 now2 "testuser" "password123").1 = (token, none) ∧ token ≠ "") ∧
      (UserService.Authenticate lib verify
          (InMemoryUserRepository.Create ⟨[]⟩ [] hash now id
            ⟨"testuser", "test@example.com", "password123", "user"⟩).2
          (InMemoryUserRepository.Create ⟨[]⟩ [] hash now id
            ⟨"testuser", "test@example.com", "password123", "user"⟩).2.users
          now1 now2 "testuser" "wrongpassword").1 = ("", some "invalid credentials") ∧
      (UserService.Authenticate lib verify
          (InMemoryUserRepository.Create ⟨[]⟩ [] hash now id
            ⟨"testuser", "test@example.com", "password123", "user"⟩).2
          (InMemoryUserRepository.Create ⟨[]⟩ [] hash now id
            ⟨"testuser", "test@example.com", "password123", "user"⟩).2.users
          now1 now2 "wronguser" "password123").1 = ("", some "invalid credentials")) := by
  have hinv := UserInv_of_reachable r hreach
  have hcases := Authenticate_cases lib verify r iter now1 now2 username password
  refine ⟨⟨?_, ?_⟩, ?_, ?_, ?_, ?_⟩
  · rintro ⟨token, htoken, hne⟩
    rcases hcases with ⟨_, h⟩ | ⟨e, _, _, _, h⟩ | ⟨e, he, hname, hv, _⟩
    · rw [h] at htoken; cases htoken
    · rw [h] at htoken; cases htoken
    · exact ⟨e, hiter.subset he, hname, hv⟩
  · rintro ⟨e, he, hname, hv⟩
    rcases hcases with ⟨hnone, _⟩ | ⟨e', he', hname', hv', _⟩ | ⟨e', he', hname', _, h⟩
    · exact absurd hname (hnone e (hiter.symm.subset he))
    · have : e' = e := UserInv_username_unique r.users hinv e' e (hiter.subset he') he
        (hname'.trans hname.symm)
      subst this
      rw [hv] at hv'; cases hv'
    · obtain ⟨token, hs, hne⟩ := hsign
        { ExpiresAt := now1 + 24 * Hour, IssuedAt := now2, UserID := e'.2.ID,
          Role := e'.2.Role }
      rw [hs] at h
      exact ⟨token, by rw [h], hne⟩
  · intro hnone
    rcases hcases with ⟨_, h⟩ | ⟨e, _, _, _, h⟩ | ⟨e, he, hname, _, _⟩
    · rw [h]
    · rw [h]
    · exact absurd hname (hnone e (hiter.subset he))
  · rintro ⟨e, he, hname, hv⟩
    rcases hcases with ⟨_, h⟩ | ⟨e', _, _, _, h⟩ | ⟨e', he', hname', hv', _⟩
    · rw [h]
    · rw [h]
    · have : e' = e := UserInv_username_unique r.users hinv e' e (hiter.subset he') he
        (hname'.trans hname.symm)
      subst this
      rw [hv] at hv'; cases hv'
  · rcases hcases with ⟨_, h⟩ | ⟨e, _, _, _, h⟩ | ⟨e, _, _, _, h⟩
    · rw [h]
    · rw [h]
    · rw [h]
      cases lib.SignedString jwtSecret
        { ExpiresAt := now1 + 24 * Hour, IssuedAt := now2, UserID := e.2.ID, Role := e.2.Role }
        <;> rfl
  · intro hash now id hashed hv hh
    have hstore : (InMemoryUserRepository.Create ⟨[]⟩ [] hash now id
        ⟨"testuser", "test@example.com", "password123", "user"⟩).2
        = ⟨[(id, ⟨id, "testuser", "test@example.com", hashed, "user", now, now⟩)]⟩ := by
      simp [InMemoryUserRepository.Create, InMemoryUserRepository.Create.scan, NewUser, hh,
        mapStore]
    rw [hstore]
    have hgood : verify hashed "password123" = true := (hv _ _ _ hh).2 rfl
    have hbad : verify hashed "wrongpassword" = false := by
      cases hb : verify hashed "wrongpassword"
      · rfl
      · exact absurd ((hv _ _ _ hh).1 hb) (by decide)
    refine ⟨?_, ?_, ?_⟩
    · obtain ⟨token, hs, hne⟩ := hsign
        { ExpiresAt := now1 + 24 * Hour, IssuedAt := now2, UserID := id, Role := "user" }
      refine ⟨token, ?_, hne⟩
      simp [UserService.Authenticate, InMemoryUserRepository.FindByUsername,
        User.CheckPassword, hgood, hs]
    · simp [UserService.Authenticate, InMemoryUserRepository.FindByUsername,
        User.CheckPassword, hbad]
    · simp [UserService.Authenticate, InMemoryUserRepository.FindByUsername]

/-- C23, witness: the three cases of `TestAuthenticate`, with a signing call
that always answers "token". -/
theorem C23_Authenticate_witness :
    UserReachable testUserStore ∧ List.Perm testUserStore.users testUserStore.users ∧
    (∀ claims, ∃ token, signingJWT.SignedString jwtSecret claims = .ok token ∧ token ≠ "") ∧
    (UserService.Authenticate signingJWT exampleVerify testUserStore testUserStore.users 5 5
      "testuser" "password123").1 = ("token", none) ∧
    (UserService.Authenticate signingJWT exampleVerify testUserStore testUserStore.users 5 5
      "testuser" "wrongpassword").1 = ("", some "invalid credentials") :=
  ⟨testUserStore_reachable, List.Perm.refl _, fun _ => ⟨"token", rfl, by decide⟩, by decide,
    (C23_Authenticate signingJWT exampleVerify testUserStore testUserStore.users 5 5
      "testuser" "wrongpassword" testUserStore_reachable (List.Perm.refl _)
      (fun _ => ⟨"token", rfl, by decide⟩)).2.2.1
      ⟨("1", ⟨"1", "testuser", "test@example.com", "hashed:password123", "user", 0, 0⟩),
        by decide, rfl, by decide⟩⟩

/-! ## Tokens -/

/-- What `ValidateToken` returns, by the answer of the library. -/
theorem ValidateToken_ok (lib : JWT) (now : Int) (tokenString : String) (claims : TokenClaims)
    (h : lib.ParseWithClaims jwtSecret now tokenString = .ok (true, claims)) :
    UserService.ValidateToken lib now tokenString = .ok claims := by
  unfold UserService.ValidateToken
  rw [h]
  rfl

theorem ValidateToken_error (lib : JWT) (now : Int) (tokenString : String)
    (h : ∃ err, lib.ParseWithClaims jwtSecret now tokenString = .error err) :
    ∃ err, UserService.ValidateToken lib now tokenString = .error err := by
  obtain ⟨err, h⟩ := h
  unfold UserService.ValidateToken
  rw [h]
  exact ⟨err, rfl⟩

/-- The stand-in library of the examples behaves as the model of the library says. -/
theorem exampleJWT_faithful : exampleJWT.Faithful := by
  refine ⟨?_, ?_, ?_⟩
  · intro key claims token now hs h1 h2
    simp only [exampleJWT] at hs ⊢
    split_ifs at hs with c
    obtain ⟨rfl, rfl⟩ := c
    simp only [Except.ok.injEq] at hs
    subst hs
    simp only [and_self, if_true]
    rw [if_pos ⟨h1, h2⟩]
  · intro key claims token now hs h1
    simp only [exampleJWT] at hs ⊢
    split_ifs at hs with c
    obtain ⟨rfl, rfl⟩ := c
    simp only [Except.ok.injEq] at hs
    subst hs
    simp only [and_self, if_true]
    rw [if_neg (fun h => absurd h.2 (not_lt.2 h1))]
    exact ⟨_, rfl⟩
  · intro key now token parsed hp
    simp only [exampleJWT] at hp ⊢
    split_ifs at hp with c
    obtain ⟨rfl, rfl⟩ := c
    exact ⟨exampleClaims, by simp⟩

/-- C24.  Token round trip, with the JWT library as the spec describes it
(`JWT.Faithful`), in a reachable user store.  For every stored user and
password that its hash verifies, a token that `Authenticate` returns for the
user's name is the signature, under `jwtSecret`, of claims that carry the
user's `ID` and `Role`, an expires-at 24 hours after the clock reading of
`Authenticate`, and the second clock reading as issued-at; `ValidateToken`
returns these very claims at every instant from issuance on at which fewer
than 24 hours have elapsed, and fails at every instant at which 24 hours or
more have elapsed; and `ValidateToken` fails at every instant for every
string that is not a token signed with `jwtSecret`. -/
theorem C24_token_round_trip (lib : JWT) (verify : String → String → Bool)
    (r : InMemoryUserRepository) (iter : GoMap User) (now1 now2 : Int) (password : String)
    (e : String × User) (token : String)
    (hlib : lib.Faithful) (hreach : UserReachable r) (hiter : iter.Perm r.users)
    (he : e ∈ r.users) (hpw : verify e.2.Password password = true)
    (htoken : (UserService.Authenticate lib verify r iter now1 now2 e.2.Username password).1
      = (token, none)) :
    (∃ claims, lib.SignedString jwtSecret claims = .ok token ∧
      claims.UserID = e.2.ID ∧ claims.Role = e.2.Role ∧
      claims.ExpiresAt = now1 + 24 * Hour ∧ claims.IssuedAt = now2 ∧
      (∀ now, now2 ≤ now → now < now1 + 24 * Hour →
        UserService.ValidateToken lib now token = .ok claims) ∧
      (∀ now, now1 + 24 * Hour ≤ now →
        ∃ err, UserService.ValidateToken lib now token = .error err)) ∧
    (∀ now tokenString, (∀ claims, lib.SignedString jwtSecret claims ≠ .ok tokenString) →
      ∃ err, UserService.ValidateToken lib now tokenString = .error err) := by
  have hinv := UserInv_of_reachable r hreach
  obtain ⟨hvalid, hexpired, hforged⟩ := hlib
  constructor
  · rcases Authenticate_cases lib verify r iter now1 now2 e.2.Username password with
      ⟨_, h⟩ | ⟨_, _, _, _, h⟩ | ⟨e', he', hname', _, h⟩
    · rw [h] at htoken; cases htoken
    · rw [h] at htoken; cases htoken
    · have : e' = e := UserInv_username_unique r.users hinv e' e (hiter.subset he') he hname'
      subst this
      rw [h] at htoken
      cases hs : lib.SignedString jwtSecret
        { ExpiresAt := now1 + 24 * Hour, IssuedAt := now2, UserID := e'.2.ID,
          Role := e'.2.Role } with
      | error err => rw [hs] at htoken; cases htoken
      | ok tokenString =>
        rw [hs] at htoken
        simp only [Prod.mk.injEq, and_true] at htoken
        subst htoken
        refine ⟨_, hs, rfl, rfl, rfl, rfl, ?_, ?_⟩
        · intro now h1 h2
          exact ValidateToken_ok lib now _ _ (hvalid _ _ _ now hs h1 h2)
        · intro now h1
          exact ValidateToken_error lib now _ (hexpired _ _ _ now hs h1)
  · intro now tokenString hnot
    unfold UserService.ValidateToken
    cases hp : lib.ParseWithClaims jwtSecret now tokenString with
    | error err => exact ⟨err, rfl⟩
    | ok parsed =>
      obtain ⟨claims, hs⟩ := hforged _ _ _ _ hp
      exact absurd hs (hnot claims)

/-- C24, witness: the token of the user of `TestAuthenticate`, issued at the
instant 0, validated one hour later. -/
theorem C24_token_round_trip_witness :
    exampleJWT.Faithful ∧ UserReachable testUserStore ∧
    (UserService.Authenticate exampleJWT exampleVerify testUserStore testUserStore.users 0 0
      "testuser" "password123").1 = ("token-1", none) ∧
    ∃ claims, exampleJWT.SignedString jwtSecret claims = .ok "token-1" ∧
      claims.UserID = "1" ∧ claims.Role = "user" ∧
      claims.ExpiresAt = 0 + 24 * Hour ∧ claims.IssuedAt = 0 ∧
      (∀ now, 0 ≤ now → now < 0 + 24 * Hour →
        UserService.ValidateToken exampleJWT now "token-1" = .ok claims) ∧
      (∀ now, 0 + 24 * Hour ≤ now →
        ∃ err, UserService.ValidateToken exampleJWT now "token-1" = .error err) :=
  ⟨exampleJWT_faithful, testUserStore_reachable, by decide,
    (C24_token_round_trip exampleJWT exampleVerify testUserStore testUserStore.users 0 0
      "password123"
      ("1", ⟨"1", "testuser", "test@example.com", "hashed:password123", "user", 0, 0⟩)
      "token-1" exampleJWT_faithful testUserStore_reachable (List.Perm.refl _)
      (by decide) (by decide) (by decide)).1⟩

/-! ## Middleware -/

theorem strings.startsWith_append (p rest : List Char) :
    strings.startsWith (p ++ rest) p = true :=
  (strings.startsWith_iff _ _).2 ⟨rest, rfl⟩

/-- A header `"Bearer " ++ rest` has the prefix, and trimming it leaves `rest`. -/
theorem strings.TrimPrefix_append (pre rest : String) :
    strings.HasPrefix (pre ++ rest) pre = true ∧ strings.TrimPrefix (pre ++ rest) pre = rest := by
  have h : strings.HasPrefix (pre ++ rest) pre = true := by
    unfold strings.HasPrefix
    rw [String.data_append]
    exact strings.startsWith_append _ _
  refine ⟨h, ?_⟩
  unfold strings.TrimPrefix
  rw [if_pos h]
  apply String.ext
  simp [String.data_append]

/-- C30.  `AuthMiddleware`, for every request, instant and JWT library.  The
next handler is invoked iff the `Authorization` header is non-empty, starts
with "Bearer " and `ValidateToken` succeeds on the remainder; it is then
invoked with the request whose context is the old one extended by the
validated claims' `UserID` under `UserIDKey` and `Role` under `UserRoleKey`
(so these two keys read as the claims say, every other key reads as before,
and the rest of the request is unchanged).  In every other case the
middleware answers 401 and the next handler is not invoked.  A header
`"Bearer " ++ t` starts with the prefix and has the remainder `t`. -/
theorem C30_AuthMiddleware (lib : JWT) (now : Int) (r : middleware.Request) :
    ((∃ r', middleware.AuthMiddleware lib now r = .next r') ↔
      (r.HeaderGet "Authorization" ≠ "" ∧
        strings.HasPrefix (r.HeaderGet "Authorization") "Bearer " = true ∧
        ∃ claims, UserService.ValidateToken lib now
          (strings.TrimPrefix (r.HeaderGet "Authorization") "Bearer ") = .ok claims)) ∧
    (∀ r', middleware.AuthMiddleware lib now r = .next r' →
      ∃ claims, UserService.ValidateToken lib now
          (strings.TrimPrefix (r.HeaderGet "Authorization") "Bearer ") = .ok claims ∧
        r' = { r with ctx := ((r.ctx.WithValue middleware.UserIDKey claims.UserID).WithValue
          middleware.UserRoleKey claims.Role) } ∧
        r'.ctx.Value middleware.UserIDKey = some claims.UserID ∧
        r'.ctx.Value middleware.UserRoleKey = some claims.Role ∧
        (∀ key, key ≠ middleware.UserIDKey → key ≠ middleware.UserRoleKey →
          r'.ctx.Value key = r.ctx.Value key)) ∧
    (¬ (r.HeaderGet "Authorization" ≠ "" ∧
        strings.HasPrefix (r.HeaderGet "Authorization") "Bearer " = true ∧
        ∃ claims, UserService.ValidateToken lib now
          (strings.TrimPrefix (r.HeaderGet "Authorization") "Bearer ") = .ok claims) →
      ∃ message, middleware.AuthMiddleware lib now r = .respond 401 message) ∧
    (∀ t : String, strings.HasPrefix ("Bearer " ++ t) "Bearer " = true ∧
      strings.TrimPrefix ("Bearer " ++ t) "Bearer " = t) := by
  have hcases :
      (r.HeaderGet "Authorization" = "" ∧
        middleware.AuthMiddleware lib now r = .respond 401 "Unauthorized") ∨
      (r.HeaderGet "Authorization" ≠ "" ∧
        strings.HasPrefix (r.HeaderGet "Authorization") "Bearer " = false ∧
        middleware.AuthMiddleware lib now r = .respond 401 "Invalid authorization format") ∨
      (r.HeaderGet "Authorization" ≠ "" ∧
        strings.HasPrefix (r.HeaderGet "Authorization") "Bearer " = true ∧
        (∃ err, UserService.ValidateToken lib now
          (strings.TrimPrefix (r.HeaderGet "Authorization") "Bearer ") = .error err) ∧
        middleware.AuthMiddleware lib now r = .respond 401 "Invalid token") ∨
      (r.HeaderGet "Authorization" ≠ "" ∧
        strings.HasPrefix (r.HeaderGet "Authorization") "Bearer " = true ∧
        ∃ claims, UserService.ValidateToken lib now
          (strings.TrimPrefix (r.HeaderGet "Authorization") "Bearer ") = .ok claims ∧
        middleware.AuthMiddleware lib now r = .next
          { r with ctx := ((r.ctx.WithValue middleware.UserIDKey claims.UserID).WithValue
            middleware.UserRoleKey claims.Role) }) := by
    unfold middleware.AuthMiddleware
    by_cases c1 : r.HeaderGet "Authorization" = ""
    · left
      exact ⟨c1, by simp [c1]⟩
    · right
      cases c2 : strings.HasPrefix (r.HeaderGet "Authorization") "Bearer "
      · left
        exact ⟨c1, rfl, by simp [c1, c2]⟩
      · right
        cases c3 : UserService.ValidateToken lib now
          (strings.TrimPrefix (r.HeaderGet "Authorization") "Bearer ") with
        | error err =>
          left
          exact ⟨c1, rfl, ⟨err, rfl⟩, by simp [c1, c2, c3]⟩
        | ok claims =>
          right
          exact ⟨c1, rfl, claims, rfl, by simp [c1, c2, c3]⟩
  refine ⟨⟨?_, ?_⟩, ?_, ?_, fun t => strings.TrimPrefix_append "Bearer " t⟩
  · rintro ⟨r', h⟩
    rcases hcases with ⟨_, h2⟩ | ⟨_, _, h2⟩ | ⟨_, _, _, h2⟩ | ⟨c1, c2, claims, c3, _⟩
    · rw [h2] at h; cases h
    · rw [h2] at h; cases h
    · rw [h2] at h; cases h
    · exact ⟨c1, c2, claims, c3⟩
  · rintro ⟨c1, c2, claims, c3⟩
    rcases hcases with ⟨d1, _⟩ | ⟨_, d2, _⟩ | ⟨_, _, ⟨err, d3⟩, _⟩ | ⟨_, _, _, _, h2⟩
    · exact absurd d1 c1
    · rw [c2] at d2; cases d2
    · rw [c3] at d3; cases d3
    · exact ⟨_, h2⟩
  · intro r' h
    rcases hcases with ⟨_, h2⟩ | ⟨_, _, h2⟩ | ⟨_, _, _, h2⟩ | ⟨_, _, claims, c3, h2⟩
    · rw [h2] at h; cases h
    · rw [h2] at h; cases h
    · rw [h2] at h; cases h
    · rw [h2] at h
      simp only [middleware.Action.next.injEq] at h
      subst h
      refine ⟨claims, c3, rfl, ?_, ?_, ?_⟩
      · simp [middleware.Context.Value, middleware.Context.WithValue, mapLookup,
          middleware.UserIDKey, middleware.UserRoleKey]
      · simp [middleware.Context.Value, middleware.Context.WithValue, mapLookup]
      · intro key k1 k2
        simp [middleware.Context.Value, middleware.Context.WithValue, mapLookup,
          Ne.symm k1, Ne.symm k2]
  · intro hnot
    rcases hcases with ⟨_, h2⟩ | ⟨_, _, h2⟩ | ⟨_, _, _, h2⟩ | ⟨c1, c2, claims, c3, _⟩
    · exact ⟨_, h2⟩
    · exact ⟨_, h2⟩
    · exact ⟨_, h2⟩
    · exact absurd ⟨c1, c2, claims, c3⟩ hnot

/-! ## The empty query -/

/-- Every string contains the empty string. -/
theorem strings_Contains_empty (lower : Char → Char) (s : String) :
    strings.Contains s (strings.ToLower lower "") = true := by
  rw [strings_Contains_iff]
  exact ⟨[], s.data, by simp [strings.ToLower]⟩

/-- C37.  At the service level, for every lower-casing function and every
visiting order of the store: `SearchByTitle` with the empty query returns
the whole list of `FindAll`, every stored recipe; `SearchByIngredient` with
the empty query returns the list of `FindAll` without the recipes whose
ingredient list is empty, so exactly the stored recipes that have at least
one ingredient. -/
theorem C37_empty_query (lower : Char → Char) (iter : GoMap Recipe) :
    SearchService.SearchByTitle lower iter "" = InMemoryRecipeRepository.FindAll iter ∧
    SearchService.SearchByIngredient lower iter "" =
      (InMemoryRecipeRepository.FindAll iter).filter
        (fun recipe => decide (recipe.Ingredients ≠ [])) ∧
    (∀ (r : InMemoryRecipeRepository), iter.Perm r.recipes → ∀ recipe,
      ((recipe ∈ SearchService.SearchByTitle lower iter "" ↔
        ∃ id, (id, recipe) ∈ r.recipes) ∧
      (recipe ∈ SearchService.SearchByIngredient lower iter "" ↔
        (∃ id, (id, recipe) ∈ r.recipes) ∧ ∃ ing, ing ∈ recipe.Ingredients))) ∧
    (SearchService.SearchByTitle Char.toLower tomatoStore "").map (fun r => r.ID) = ["1", "2"] ∧
    (SearchService.SearchByIngredient Char.toLower
      (("3", mkRecipe "3" "Water" 0 0 0) :: tomatoStore) "").map (fun r => r.ID) = ["1", "2"] := by
  have htitle : SearchService.SearchByTitle lower iter ""
      = InMemoryRecipeRepository.FindAll iter := by
    unfold SearchService.SearchByTitle RecipeService.GetAllRecipes
    simp only [Filter_eq_filter, strings_Contains_empty]
    exact List.filter_true _
  have hing : SearchService.SearchByIngredient lower iter "" =
      (InMemoryRecipeRepository.FindAll iter).filter
        (fun recipe => decide (recipe.Ingredients ≠ [])) := by
    unfold SearchService.SearchByIngredient RecipeService.GetAllRecipes
    simp only [Filter_eq_filter]
    congr 1
    funext recipe
    rw [Bool.eq_iff_iff, anyIngredient_iff]
    simp only [strings_Contains_empty, and_true, decide_eq_true_eq]
    cases recipe.Ingredients with
    | nil => simp
    | cons a rest => simp
  have hmem : ∀ (r : InMemoryRecipeRepository), iter.Perm r.recipes → ∀ recipe,
      (recipe ∈ InMemoryRecipeRepository.FindAll iter ↔ ∃ id, (id, recipe) ∈ r.recipes) := by
    intro r hperm recipe
    rw [FindAll_eq_values]
    constructor
    · intro h
      obtain ⟨e, he, rfl⟩ := List.mem_map.1 h
      exact ⟨e.1, hperm.subset he⟩
    · rintro ⟨id, hid⟩
      exact List.mem_map.2 ⟨(id, recipe), hperm.symm.subset hid, rfl⟩
  refine ⟨htitle, hing, ?_, ?_, ?_⟩
  · intro r hperm recipe
    rw [htitle, hing, List.mem_filter, hmem r hperm recipe]
    refine ⟨Iff.rfl, ?_⟩
    simp only [decide_eq_true_eq]
    constructor
    · rintro ⟨h1, h2⟩
      obtain ⟨ing, hing2⟩ := List.exists_mem_of_ne_nil _ h2
      exact ⟨h1, ing, hing2⟩
    · rintro ⟨h1, ing, h2⟩
      exact ⟨h1, List.ne_nil_of_mem h2⟩
  · unfold SearchService.SearchByTitle RecipeService.GetAllRecipes
    simp only [Filter_eq_filter, FindAll_eq_values]
    decide
  · unfold SearchService.SearchByIngredient RecipeService.GetAllRecipes
    simp only [Filter_eq_filter, FindAll_eq_values]
    decide

/-! ## Range of the average -/

/-- The sum of scores that all lie in 1..5 lies between the count and five
times the count. -/
theorem sum_scores_bounds (l : List Int) (h : ∀ x ∈ l, 1 ≤ x ∧ x ≤ 5) :
    (l.length : Int) ≤ l.sum ∧ l.sum ≤ 5 * (l.length : Int) := by
  induction l with
  | nil => simp
  | cons x rest ih =>
    have hx := h x (List.mem_cons_self _ _)
    have hr := ih (fun y hy => h y (List.mem_cons_of_mem _ hy))
    simp only [List.sum_cons, List.length_cons, Nat.cast_add, Nat.cast_one]
    omega

/-- The sum of scores that are all equal to `s`. -/
theorem sum_scores_const (l : List Int) (s : Int) (h : ∀ x ∈ l, x = s) :
    l.sum = s * (l.length : Int) := by
  induction l with
  | nil => simp
  | cons x rest ih =>
    have hx := h x (List.mem_cons_self _ _)
    have hr := ih (fun y hy => h y (List.mem_cons_of_mem _ hy))
    simp only [List.sum_cons, List.length_cons, Nat.cast_add, Nat.cast_one, hx, hr]
    ring

/-- C38.  For every rating store of a size that memory can hold (five times
the number of stored ratings is at most `2^53`), every visiting order and
every recipe id with at least one stored rating: if every stored rating for
that id has a `Score` in 1..5, the `float64` that `GetAverageRatingForRecipe`
returns lies in the closed interval [1, 5], and it equals the common score
when all the scores are equal.  The exact quotient of the sum of the scores
by their count lies in [1, 5] as well, and the returned value is the
`float64` nearest to it. -/
theorem C38_average_in_range (r : InMemoryRatingRepository) (iter : GoMap Rating)
    (recipeID : String) (hiter : iter.Perm r.ratings)
    (hsize : 5 * (r.ratings.length : Int) ≤ 2 ^ 53)
    (hsome : ∃ e ∈ r.ratings, e.2.RecipeID = recipeID)
    (hrange : ∀ e ∈ r.ratings, e.2.RecipeID = recipeID → 1 ≤ e.2.Score ∧ e.2.Score ≤ 5) :
    1 ≤ GetAverageRatingForRecipe iter recipeID ∧
    GetAverageRatingForRecipe iter recipeID ≤ 5 ∧
    (∀ s : Int, (∀ e ∈ r.ratings, e.2.RecipeID = recipeID → e.2.Score = s) →
      GetAverageRatingForRecipe iter recipeID = (s : ℚ)) ∧
    1 ≤ (((((r.ratings.map Prod.snd).filter
        (fun x => decide (x.RecipeID = recipeID))).map (fun x => x.Score)).sum : Int) : ℚ) /
      ((((r.ratings.map Prod.snd).filter
        (fun x => decide (x.RecipeID = recipeID))).length : Nat) : ℚ) ∧
    (((((r.ratings.map Prod.snd).filter
        (fun x => decide (x.RecipeID = recipeID))).map (fun x => x.Score)).sum : Int) : ℚ) /
      ((((r.ratings.map Prod.snd).filter
        (fun x => decide (x.RecipeID = recipeID))).length : Nat) : ℚ) ≤ 5 ∧
    GetAverageRatingForRecipe iter recipeID = float64.round
      ((((((r.ratings.map Prod.snd).filter
        (fun x => decide (x.RecipeID = recipeID))).map (fun x => x.Score)).sum : Int) : ℚ) /
      ((((r.ratings.map Prod.snd).filter
        (fun x => decide (x.RecipeID = recipeID))).length : Nat) : ℚ)) := by
  have hperm : ((iter.map Prod.snd).filter (fun x => decide (x.RecipeID = recipeID))).Perm
      ((r.ratings.map Prod.snd).filter (fun x => decide (x.RecipeID = recipeID))) :=
    (hiter.map Prod.snd).filter _
  rw [GetAverageRatingForRecipe_eq, (hperm.map (fun x => x.Score)).sum_eq, hperm.length_eq]
  generalize hsel : (r.ratings.map Prod.snd).filter (fun x => decide (x.RecipeID = recipeID))
    = sel
  have hmemsel : ∀ x ∈ sel, x.RecipeID = recipeID ∧ ∃ e ∈ r.ratings, e.2 = x := by
    intro x hx
    rw [← hsel, List.mem_filter] at hx
    obtain ⟨e, he, rfl⟩ := List.mem_map.1 hx.1
    exact ⟨by simpa using hx.2, e, he, rfl⟩
  have hpos : 0 < sel.length := by
    obtain ⟨e, he, hid⟩ := hsome
    apply List.length_pos_of_mem (a := e.2)
    rw [← hsel, List.mem_filter]
    exact ⟨List.mem_map.2 ⟨e, he, rfl⟩, by simpa using hid⟩
  have hlen : sel.length ≤ r.ratings.length := by
    rw [← hsel]
    calc (List.filter _ (r.ratings.map Prod.snd)).length ≤ (r.ratings.map Prod.snd).length :=
          List.length_filter_le _ _
      _ = r.ratings.length := List.length_map _ _
  have hscores : ∀ x ∈ sel.map (fun x => x.Score), 1 ≤ x ∧ x ≤ 5 := by
    intro x hx
    obtain ⟨y, hy, rfl⟩ := List.mem_map.1 hx
    obtain ⟨hid, e, he, rfl⟩ := hmemsel y hy
    exact hrange e he hid
  have hb := sum_scores_bounds _ hscores
  rw [List.length_map] at hb
  generalize htotal : (sel.map (fun x => x.Score)).sum = total at hb
  have hw : wrap64 total = total := by
    apply wrap64_of_range
    · unfold minInt; omega
    · unfold maxInt; omega
  have hq : (0 : ℚ) < (sel.length : ℚ) := by exact_mod_cast hpos
  have hq1 : 1 ≤ (total : ℚ) / (sel.length : ℚ) := by
    rw [le_div_iff₀ hq, one_mul]
    exact_mod_cast hb.1
  have hq5 : (total : ℚ) / (sel.length : ℚ) ≤ 5 := by
    rw [div_le_iff₀ hq]
    exact_mod_cast hb.2
  have hround : float64.div (float64.ofInt total) (float64.ofInt ((sel.length : Nat) : Int))
      = float64.round ((total : ℚ) / (sel.length : ℚ)) := by
    rw [float64.ofInt_exact total (by rw [abs_of_nonneg (by omega)]; omega),
      float64.ofInt_exact (sel.length : Int) (by rw [abs_of_nonneg (by omega)]; omega)]
    unfold float64.div
    push_cast
    rfl
  have hin := float64.round_mem_Icc ((total : ℚ) / (sel.length : ℚ)) 1 5 0 (by norm_num)
    (by
      rw [abs_of_nonneg (by linarith)]
      norm_num
      linarith)
    (by simpa using hq1) (by simpa using hq5)
  rw [if_neg (by omega), hw, hround]
  refine ⟨by simpa using hin.1, by simpa using hin.2, ?_, hq1, hq5, rfl⟩
  intro s hs
  have hconst : ∀ x ∈ sel.map (fun x => x.Score), x = s := by
    intro x hx
    obtain ⟨y, hy, rfl⟩ := List.mem_map.1 hx
    obtain ⟨hid, e, he, rfl⟩ := hmemsel y hy
    exact hs e he hid
  have hsum := sum_scores_const _ s hconst
  rw [htotal, List.length_map] at hsum
  have hs15 : 1 ≤ s ∧ s ≤ 5 := by
    obtain ⟨e, he, hid⟩ := hsome
    have := hrange e he hid
    rw [hs e he hid] at this
    exact this
  have hquot : (total : ℚ) / (sel.length : ℚ) = (s : ℚ) := by
    rw [hsum]
    push_cast
    field_simp
  rw [hquot]
  have := float64.round_exact s 0 (by norm_num)
    (by rw [abs_of_nonneg (by omega)]; omega)
  simpa using this

/-- C38, witness: the scores 5, 5, 5, 1 of the recipe `"r"`, stored next to a
rating of another recipe, average to a value between 1 and 5; three ratings
with the score 3 average to 3. -/
theorem C38_average_in_range_witness :
    (List.Perm fiveFiveFiveOne.ratings fiveFiveFiveOne.ratings ∧
      (∃ e ∈ fiveFiveFiveOne.ratings, e.2.RecipeID = "r") ∧
      1 ≤ GetAverageRatingForRecipe fiveFiveFiveOne.ratings "r" ∧
      GetAverageRatingForRecipe fiveFiveFiveOne.ratings "r" ≤ 5) ∧
    GetAverageRatingForRecipe
      [("a", ⟨"a", "r", "u1", 3, "", 0, 0⟩), ("b", ⟨"b", "r", "u2", 3, "", 0, 0⟩),
        ("c", ⟨"c", "r", "u3", 3, "", 0, 0⟩)] "r" = 3 :=
  have h := C38_average_in_range fiveFiveFiveOne fiveFiveFiveOne.ratings "r"
    (List.Perm.refl _) (by norm_num [fiveFiveFiveOne]) ⟨_, List.mem_cons_self _ _, rfl⟩
    (by decide)
  have h3 := (C38_average_in_range
    ⟨[("a", ⟨"a", "r", "u1", 3, "", 0, 0⟩), ("b", ⟨"b", "r", "u2", 3, "", 0, 0⟩),
      ("c", ⟨"c", "r", "u3", 3, "", 0, 0⟩)]⟩ _ "r"
    (List.Perm.refl _) (by norm_num) ⟨_, List.mem_cons_self _ _, rfl⟩
    (by decide)).2.2.1 3 (by decide)
  ⟨⟨List.Perm.refl _, ⟨_, List.mem_cons_self _ _, rfl⟩, h.1, h.2.1⟩, by simpa using h3⟩

/-! ## Pages -/

/-- The page `k` of size `ps` when `k * ps` fits in an `int`: `ps` elements of
the listing from position `(k - 1) * ps` on, as far as there are any. -/
theorem GetPaginatedRecipes_page_nat (iter : GoMap Recipe) (k ps : Nat) (hk : 1 ≤ k)
    (hprod : ((k * ps : Nat) : Int) ≤ maxInt) (hs : 1 ≤ ps) :
    GetPaginatedRecipes iter (k : Int) (ps : Int) =
      some (((InMemoryRecipeRepository.FindAll iter).drop ((k - 1) * ps)).take ps) := by
  have hmax : maxInt = 9223372036854775807 := by unfold maxInt; norm_num
  have hkps : k ≤ k * ps := Nat.le_mul_of_pos_right k (by omega)
  have hk1 : ((k : Int) - 1) * (ps : Int) = (((k - 1) * ps : Nat) : Int) := by
    push_cast [Nat.cast_sub hk]
    ring
  have hsplit : k * ps = (k - 1) * ps + ps := by
    have : k = (k - 1) + 1 := by omega
    conv_lhs => rw [this]
    ring
  rw [GetPaginatedRecipes_eq iter k ps (by exact_mod_cast hk) (by omega) (by omega)
    (by exact_mod_cast hprod)]
  rw [hk1]
  generalize (k - 1) * ps = start at *
  generalize InMemoryRecipeRepository.FindAll iter = L
  congr 1
  by_cases c : ((L.length : Nat) : Int) ≤ ((start : Nat) : Int)
  · rw [if_pos c]
    have : L.length ≤ start := by exact_mod_cast c
    rw [List.drop_of_length_le this, List.take_nil]
  · rw [if_neg c]
    have hlt : start < L.length := by
      have : ¬ (L.length ≤ start) := fun h => c (by exact_mod_cast h)
      omega
    simp only [Int.toNat_ofNat]
    have e : (min ((start : Int) + (ps : Int)) (L.length : Int) - (start : Int)).toNat
        = min ps (L.length - start) := by
      omega
    rw [e, ← List.take_take, List.take_of_length_le (i := L.length - start)]
    simp

/-- A page whose start does not overflow and lies at or past the end of the
listing is empty. -/
theorem GetPaginatedRecipes_past_end (iter : GoMap Recipe) (page pageSize : Int)
    (hp : 1 ≤ page) (hs : 0 ≤ pageSize) (hstart : (page - 1) * pageSize ≤ maxInt)
    (hpm : page ≤ maxInt)
    (hpast : ((InMemoryRecipeRepository.FindAll iter).length : Int) ≤ (page - 1) * pageSize) :
    GetPaginatedRecipes iter page pageSize = some [] := by
  have hmax : maxInt = 9223372036854775807 := by unfold maxInt; norm_num
  have hmin : minInt = -9223372036854775808 := by unfold minInt; norm_num
  have h0 : 0 ≤ (page - 1) * pageSize := Int.mul_nonneg (by omega) hs
  have w1 : wrap64 (page - 1) = page - 1 := wrap64_of_range _ (by omega) (by omega)
  have w2 : wrap64 ((page - 1) * pageSize) = (page - 1) * pageSize :=
    wrap64_of_range _ (by omega) hstart
  unfold GetPaginatedRecipes RecipeService.GetAllRecipes
  simp only [w1, w2]
  rw [if_pos hpast]

/-- Consecutive chunks of a list, put together, are an initial part of it. -/
theorem flatten_chunks {α : Type} (L : List α) (ps m : Nat) :
    ((List.range m).map (fun i => (L.drop (i * ps)).take ps)).flatten = L.take (m * ps) := by
  induction m with
  | zero => simp
  | succ m ih =>
    rw [List.range_succ, List.map_append, List.flatten_append, ih]
    simp only [List.map_cons, List.map_nil, List.flatten_cons, List.flatten_nil,
      List.append_nil]
    rw [Nat.succ_mul, List.take_add]

/-- The number of pages: `ceil(n / ps)` pages cover `n` elements, and one page
fewer does not. -/
theorem ceil_pages (n ps : Nat) (hs : 1 ≤ ps) :
    n ≤ ((n + ps - 1) / ps) * ps ∧ ((n + ps - 1) / ps) * ps ≤ n + ps - 1 := by
  have h1 := Nat.div_add_mod (n + ps - 1) ps
  have h2 := Nat.mod_lt (n + ps - 1) (show ps > 0 by omega)
  rw [Nat.mul_comm] at h1
  constructor <;> omega

/-- Pages partition the listing as long as no page start overflows.  For every
list `L` of length `n` that `FindAll` returns, with `2 * n` within the range
of `int`, and every `pageSize >= 1` of type `int`, with
`m = ceil(n / pageSize)`: every page `1 .. m` is returned without fault, has
at most `pageSize` elements, and has exactly `pageSize` if it is not the last
one; the pages `1 .. m` put together are exactly `L`; and every later page
whose start `(page - 1) * pageSize` fits in an `int` is empty. -/
theorem GetPaginatedRecipes_partition (iter : GoMap Recipe) (pageSize : Nat) (hs : 1 ≤ pageSize)
    (hsm : (pageSize : Int) ≤ maxInt)
    (hn : 2 * ((InMemoryRecipeRepository.FindAll iter).length : Int) ≤ maxInt) :
    (∀ k : Nat, 1 ≤ k →
      k ≤ ((InMemoryRecipeRepository.FindAll iter).length + pageSize - 1) / pageSize →
      ∃ p, GetPaginatedRecipes iter (k : Int) (pageSize : Int) = some p ∧
        p.length ≤ pageSize ∧
        (k < ((InMemoryRecipeRepository.FindAll iter).length + pageSize - 1) / pageSize →
          p.length = pageSize)) ∧
    ((List.range (((InMemoryRecipeRepository.FindAll iter).length + pageSize - 1) / pageSize)).map
      (fun i => (GetPaginatedRecipes iter ((i + 1 : Nat) : Int) (pageSize : Int)).getD [])).flatten
      = InMemoryRecipeRepository.FindAll iter ∧
    (∀ page : Int,
      ((((InMemoryRecipeRepository.FindAll iter).length + pageSize - 1) / pageSize : Nat) : Int)
        < page →
      page ≤ maxInt → (page - 1) * (pageSize : Int) ≤ maxInt →
      GetPaginatedRecipes iter page (pageSize : Int) = some []) := by
  have hmax : maxInt = 9223372036854775807 := by unfold maxInt; norm_num
  generalize hL : InMemoryRecipeRepository.FindAll iter = L at *
  obtain ⟨hc1, hc2⟩ := ceil_pages L.length pageSize hs
  generalize hm : (L.length + pageSize - 1) / pageSize = m at *
  have hfit : ∀ k : Nat, 1 ≤ k → k ≤ m → ((k * pageSize : Nat) : Int) ≤ maxInt := by
    intro k hk1 hkm
    have h1 : k * pageSize ≤ m * pageSize := Nat.mul_le_mul_right _ hkm
    by_cases c : k = 1
    · subst c; simpa using hsm
    · have h2 : 2 * pageSize ≤ k * pageSize := Nat.mul_le_mul_right _ (by omega)
      have : (k * pageSize : Nat) ≤ 2 * L.length := by omega
      have : ((k * pageSize : Nat) : Int) ≤ 2 * (L.length : Int) := by exact_mod_cast this
      omega
  have hpage : ∀ k : Nat, 1 ≤ k → k ≤ m →
      GetPaginatedRecipes iter (k : Int) (pageSize : Int)
        = some ((L.drop ((k - 1) * pageSize)).take pageSize) := by
    intro k hk1 hkm
    rw [GetPaginatedRecipes_page_nat iter k pageSize hk1 (hfit k hk1 hkm) hs, hL]
  refine ⟨?_, ?_, ?_⟩
  · intro k hk1 hkm
    refine ⟨_, hpage k hk1 hkm, ?_, ?_⟩
    · rw [List.length_take]; exact Nat.min_le_left _ _
    · intro hlt
      rw [List.length_take, List.length_drop]
      have h1 : (k - 1) * pageSize + pageSize = k * pageSize := by
        have : k = (k - 1) + 1 := by omega
        conv_rhs => rw [this]
        ring
      have h2 : (k + 1) * pageSize ≤ m * pageSize := Nat.mul_le_mul_right _ (by omega)
      have h3 : (k + 1) * pageSize = k * pageSize + pageSize := by ring
      omega
  · have hfun : (List.range m).map
        (fun i => (GetPaginatedRecipes iter ((i + 1 : Nat) : Int) (pageSize : Int)).getD [])
        = (List.range m).map (fun i => (L.drop (i * pageSize)).take pageSize) := by
      apply List.map_congr_left
      intro i hi
      have him : i < m := List.mem_range.1 hi
      rw [hpage (i + 1) (by omega) (by omega)]
      simp
    rw [hfun, flatten_chunks, List.take_of_length_le hc1]
  · intro page hlate hpm hstart
    have hp1 : 1 ≤ page := by omega
    apply GetPaginatedRecipes_past_end iter page pageSize hp1 (by omega) hstart hpm
    rw [hL]
    have h1 : ((m : Int)) * (pageSize : Int) ≤ (page - 1) * (pageSize : Int) :=
      Int.mul_le_mul_of_nonneg_right (by omega) (by omega)
    have h2 : ((L.length : Nat) : Int) ≤ ((m * pageSize : Nat) : Int) := by exact_mod_cast hc1
    push_cast at h2
    omega

/-- Five recipes in pages of two. -/
theorem GetPaginatedRecipes_partition_example :
    (1 ≤ 2) ∧
    ((List.range 3).map (fun i =>
      (GetPaginatedRecipes
        [("1", pasta), ("2", salad), ("3", stew), ("4", pasta), ("5", salad)]
        ((i + 1 : Nat) : Int) ((2 : Nat) : Int)).getD [])).flatten
      = [pasta, salad, stew, pasta, salad] :=
  ⟨by decide,
    (GetPaginatedRecipes_partition [("1", pasta), ("2", salad), ("3", stew), ("4", pasta), ("5", salad)]
      2 (by decide) (by unfold maxInt; norm_num)
      (by simp [InMemoryRecipeRepository.FindAll, maxInt])).2.1⟩

/-! ## Keys and identifiers -/

/-- The keys of a map after `m[k] = v`. -/
theorem mapStore_keys {V : Type} (l : GoMap V) (k : String) (v : V) :
    (mapStore l k v).map Prod.fst =
      if k ∈ l.map Prod.fst then l.map Prod.fst else l.map Prod.fst ++ [k] := by
  induction l with
  | nil => simp [mapStore]
  | cons e rest ih =>
    obtain ⟨k0, v0⟩ := e
    unfold mapStore
    by_cases c : k0 = k
    · subst c
      simp
    · have c2 : ¬ k = k0 := fun h => c h.symm
      simp only [c, if_false, List.map_cons, ih, List.mem_cons, c2, false_or]
      split_ifs <;> simp

theorem KeyInv_mapStore {V : Type} (ident : V → String) (l : GoMap V) (k : String) (v : V)
    (h : KeyInv ident l) (hv : ident v = k) : KeyInv ident (mapStore l k v) := by
  constructor
  · intro e he
    rcases mem_mapStore _ _ _ _ he with h1 | h1
    · subst h1; exact hv
    · exact h.1 e h1
  · rw [mapStore_keys]
    split_ifs with c
    · exact h.2
    · exact List.Nodup.append h.2 (List.nodup_singleton k)
        (by
          intro x hx hx2
          rw [List.mem_singleton] at hx2
          subst hx2
          exact c hx)

theorem KeyInv_mapDelete {V : Type} (ident : V → String) (l : GoMap V) (k : String)
    (h : KeyInv ident l) : KeyInv ident (mapDelete l k) := by
  unfold mapDelete
  exact ⟨fun e he => h.1 e (List.mem_of_mem_filter he),
    (h.2.sublist ((List.filter_sublist l).map Prod.fst))⟩

theorem KeyInv_nil {V : Type} (ident : V → String) : KeyInv ident ([] : GoMap V) :=
  ⟨fun e he => absurd he (List.not_mem_nil e), List.nodup_nil⟩

/-- What key/identifier consistency gives: the lookup of a key returns an
entity with that identifier, and a listing of the values in any visiting
order shows no identifier twice. -/
theorem KeyInv_facts {V : Type} (ident : V → String) (l : GoMap V) (h : KeyInv ident l) :
    (∀ k v, mapLookup l k = some v → ident v = k) ∧
    (∀ iter : GoMap V, iter.Perm l → ((iter.map Prod.snd).map ident).Nodup) := by
  constructor
  · intro k v hl
    exact h.1 (k, v) (mem_of_mapLookup _ _ _ hl)
  · intro iter hperm
    have e : (iter.map Prod.snd).map ident = iter.map Prod.fst := by
      rw [List.map_map]
      apply List.map_congr_left
      intro x hx
      exact h.1 x (hperm.subset hx)
    rw [e]
    exact (hperm.map Prod.fst).nodup_iff.2 h.2

theorem KeyInv_recipes (r : InMemoryRecipeRepository) (h : RecipeReachable r) :
    KeyInv (fun x : Recipe => x.ID) r.recipes := by
  induction h with
  | empty => exact KeyInv_nil _
  | create now id input _ ih =>
    exact KeyInv_mapStore _ _ _ _ ih rfl
  | @update r now id input _ ih =>
    unfold InMemoryRecipeRepository.Update
    cases hl : mapLookup r.recipes id with
    | none => exact ih
    | some original =>
      exact KeyInv_mapStore _ _ _ _ ih (ih.1 (id, original) (mem_of_mapLookup _ _ _ hl))
  | @delete r id _ ih =>
    unfold InMemoryRecipeRepository.Delete
    cases hl : mapLookup r.recipes id with
    | none => exact ih
    | some original => exact KeyInv_mapDelete _ _ _ ih

theorem KeyInv_rating_update (r : InMemoryRatingRepository) (now : Int) (id : String)
    (input : RatingInput) (ih : KeyInv (fun x : Rating => x.ID) r.ratings) :
    KeyInv (fun x : Rating => x.ID) (r.Update now id input).2.ratings := by
  unfold InMemoryRatingRepository.Update
  cases hl : mapLookup r.ratings id with
  | none => exact ih
  | some original =>
    exact KeyInv_mapStore _ _ _ _ ih (ih.1 (id, original) (mem_of_mapLookup _ _ _ hl))

theorem KeyInv_rating_delete (r : InMemoryRatingRepository) (id : String)
    (ih : KeyInv (fun x : Rating => x.ID) r.ratings) :
    KeyInv (fun x : Rating => x.ID) (r.Delete id).2.ratings := by
  unfold InMemoryRatingRepository.Delete
  cases hl : mapLookup r.ratings id with
  | none => exact ih
  | some original => exact KeyInv_mapDelete _ _ _ ih

theorem KeyInv_ratings (r : InMemoryRatingRepository) (born : GoMap Rating)
    (h : RatingReachable r born) : KeyInv (fun x : Rating => x.ID) r.ratings := by
  induction h with
  | empty => exact KeyInv_nil _
  | create now id recipeID userID input _ ih =>
    exact KeyInv_mapStore _ _ _ _ ih rfl
  | update now id input _ ih => exact KeyInv_rating_update _ now id input ih
  | delete id _ ih => exact KeyInv_rating_delete _ id ih
  | @createRating r born recipes now id recipeID userID input _ ih =>
    rcases CreateRating_cases recipes r now id recipeID userID input with ⟨_, e⟩ | ⟨_, e⟩
    · rw [e]; exact ih
    · rw [e]; exact KeyInv_mapStore _ _ _ _ ih rfl
  | @updateRating r born now id userID input _ ih =>
    rcases UpdateRating_cases r now id userID input with
      ⟨_, e⟩ | ⟨_, _, _, e⟩ | ⟨rating, hl, _, e⟩
    · rw [e]; exact ih
    · rw [e]; exact ih
    · rw [e]
      exact KeyInv_mapStore _ _ _ _ ih (ih.1 (id, rating) (mem_of_mapLookup _ _ _ hl))
  | @deleteRating r born id userID _ ih =>
    rcases DeleteRating_cases r id userID with ⟨_, e⟩ | ⟨_, _, _, e⟩ | ⟨_, _, _, e⟩
    · rw [e]; exact ih
    · rw [e]; exact ih
    · rw [e]; exact KeyInv_mapDelete _ _ _ ih

theorem KeyInv_users (r : InMemoryUserRepository) (h : UserReachable r) :
    KeyInv (fun x : User => x.ID) r.users := by
  have hinv := UserInv_of_reachable r h
  refine ⟨hinv.1, ?_⟩
  rw [List.Nodup, List.pairwise_map]
  exact hinv.2.imp (fun h => h.1)

/-- C36.  Key/identifier consistency.  In every state of the recipe store, of
the rating store and of the user store that is reachable from the empty store
by `Create`, `Update` and `Delete` calls (for ratings also by the service
calls), successful or not: every key `k` is mapped to an entity whose `ID` is
`k`; `FindByID(k)` returns no entity with another `ID`; and `FindAll`, in
whatever order it visits the map, lists no two entities with the same `ID`. -/
theorem C36_key_identifier_consistency :
    (∀ r : InMemoryRecipeRepository, RecipeReachable r →
      (∀ k recipe, mapLookup r.recipes k = some recipe → recipe.ID = k) ∧
      (∀ k recipe, r.FindByID k = .ok recipe → recipe.ID = k) ∧
      (∀ iter : GoMap Recipe, iter.Perm r.recipes →
        ((InMemoryRecipeRepository.FindAll iter).map (fun x => x.ID)).Nodup)) ∧
    (∀ (r : InMemoryRatingRepository) (born : GoMap Rating), RatingReachable r born →
      (∀ k rating, mapLookup r.ratings k = some rating → rating.ID = k) ∧
      (∀ k rating, r.FindByID k = .ok rating → rating.ID = k) ∧
      (∀ iter : GoMap Rating, iter.Perm r.ratings →
        ((InMemoryRatingRepository.FindAll iter).map (fun x => x.ID)).Nodup)) ∧
    (∀ r : InMemoryUserRepository, UserReachable r →
      (∀ k user, mapLookup r.users k = some user → user.ID = k) ∧
      (∀ k user, r.FindByID k = .ok user → user.ID = k) ∧
      (∀ iter : GoMap User, iter.Perm r.users →
        ((InMemoryUserRepository.FindAll iter).map (fun x => x.ID)).Nodup)) := by
  refine ⟨?_, ?_, ?_⟩
  · intro r hr
    obtain ⟨h1, h2⟩ := KeyInv_facts _ _ (KeyInv_recipes r hr)
    refine ⟨h1, ?_, ?_⟩
    · intro k recipe hf
      unfold InMemoryRecipeRepository.FindByID at hf
      cases hl : mapLookup r.recipes k with
      | none => rw [hl] at hf; cases hf
      | some v =>
        rw [hl] at hf
        simp only [Except.ok.injEq] at hf
        subst hf
        exact h1 k v hl
    · intro iter hperm
      unfold InMemoryRecipeRepository.FindAll
      rw [foldl_append_values, List.nil_append]
      exact h2 iter hperm
  · intro r born hr
    obtain ⟨h1, h2⟩ := KeyInv_facts _ _ (KeyInv_ratings r born hr)
    refine ⟨h1, ?_, ?_⟩
    · intro k rating hf
      unfold InMemoryRatingRepository.FindByID at hf
      cases hl : mapLookup r.ratings k with
      | none => rw [hl] at hf; cases hf
      | some v =>
        rw [hl] at hf
        simp only [Except.ok.injEq] at hf
        subst hf
        exact h1 k v hl
    · intro iter hperm
      unfold InMemoryRatingRepository.FindAll
      rw [foldl_append_values, List.nil_append]
      exact h2 iter hperm
  · intro r hr
    obtain ⟨h1, h2⟩ := KeyInv_facts _ _ (KeyInv_users r hr)
    refine ⟨h1, ?_, ?_⟩
    · intro k user hf
      unfold InMemoryUserRepository.FindByID at hf
      cases hl : mapLookup r.users k with
      | none => rw [hl] at hf; cases hf
      | some v =>
        rw [hl] at hf
        simp only [Except.ok.injEq] at hf
        subst hf
        exact h1 k v hl
    · intro iter hperm
      unfold InMemoryUserRepository.FindAll
      rw [foldl_append_values, List.nil_append]
      exact h2 iter hperm

open middleware handlers

/-! ## Handlers -/

/-- The page number `2^62 + 1` with `pageSize = 2`: `start` wraps to `-2^63`,
which is below every length, and the slice expression panics. -/
theorem GetPaginatedRecipes_overflow (iter : GoMap Recipe) :
    GetPaginatedRecipes iter 4611686018427387905 2 = none := by
  have hstart : wrap64 (wrap64 (4611686018427387905 - 1) * 2) = -9223372036854775808 := by
    unfold wrap64; norm_num
  have hend : wrap64 (-9223372036854775808 + 2) = -9223372036854775806 := by
    unfold wrap64; norm_num
  unfold GetPaginatedRecipes
  simp only [hstart, hend]
  have hlen : (0 : Int) ≤ ((RecipeService.GetAllRecipes iter).length : Int) :=
    Int.natCast_nonneg _
  split_ifs <;> first | rfl | omega

/-- C31.  The pagination handler lets `page = 4611686018427387905` (which is
`2^62 + 1`) and `pageSize = 2` through: both parse with `strconv.Atoi`,
`page >= 1` and `1 <= pageSize <= 100`.  In 64-bit arithmetic the start
`(page - 1) * pageSize` wraps to `-2^63`, the bound check `start >= len` does
not fire, and `allRecipes[start:end]` panics, whatever the store holds: the
service call faults, the handler faults, and the router answers 500 through
`RecoveryMiddleware`. -/
theorem C31_pagination_overflow_faults (env : Env)
    (other : main.HandlerName → System → Request → Response × System)
    (noMatch : Request → Response) (s : System) (iter : GoMap Recipe) :
    ((1 : Int) ≤ 4611686018427387905 ∧ (4611686018427387905 : Int) ≤ maxInt ∧
      (1 : Int) ≤ 2 ∧ (2 : Int) ≤ 100) ∧
    wrap64 (wrap64 (4611686018427387905 - 1) * 2) = minInt ∧
    GetPaginatedRecipes iter 4611686018427387905 2 = none ∧
    SearchHandler.GetPaginatedRecipes env s
      { Method := "GET", Path := "/api/search/paginated",
        Query := [("page", "4611686018427387905"), ("pageSize", "2")] } = none ∧
    main.ServeHTTP env other noMatch s
      { Method := "GET", Path := "/api/search/paginated",
        Query := [("page", "4611686018427387905"), ("pageSize", "2")] }
      = (⟨500, .text "Internal Server Error"⟩, s) := by
  have hpage : strconv.Atoi "4611686018427387905" = .ok 4611686018427387905 := by rfl
  have hsize : strconv.Atoi "2" = .ok 2 := by rfl
  have hhandler : ∀ vars : GoMap String, SearchHandler.GetPaginatedRecipes env s
      { Method := "GET", Path := "/api/search/paginated",
        Query := [("page", "4611686018427387905"), ("pageSize", "2")], Vars := vars }
      = none := by
    intro vars
    have hq1 : mapLookup [("page", "4611686018427387905"), ("pageSize", "2")] "page"
        = some "4611686018427387905" := by decide
    have hq2 : mapLookup [("page", "4611686018427387905"), ("pageSize", "2")] "pageSize"
        = some "2" := by decide
    unfold SearchHandler.GetPaginatedRecipes
    simp only [Request.QueryGet, hq1, hq2, Option.getD_some, hpage, hsize]
    simp [GetPaginatedRecipes_overflow]
  refine ⟨⟨by norm_num, by unfold maxInt; norm_num, by norm_num, by norm_num⟩, ?_,
    GetPaginatedRecipes_overflow iter, hhandler [], ?_⟩
  · unfold wrap64 minInt; norm_num
  · have hroute : (mux.segments "/api/search/paginated").bind (mux.Match main.routes "GET")
        = some (⟨[.lit "api", .lit "search", .lit "paginated"], "GET", false,
            .GetPaginatedRecipes⟩, []) := by decide
    unfold main.ServeHTTP
    simp only [hroute]
    simp [main.dispatch, hhandler]

/-- C35.  With five recipes and `pageSize = 4` there are two pages.  Page 3 is
a later page and is empty: the check `start >= len(allRecipes)` fires.  Page
`4611686018427387905` (which is `2^62 + 1`) is a later page too, and the
handler lets it through; but its start `2^62 * 4` wraps to 0 in 64-bit
arithmetic, the check does not fire, and the service, the handler and the
router answer with the first four recipes instead of an empty page. -/
theorem C35_late_page_not_empty
    (other : main.HandlerName → System → Request → Response × System)
    (noMatch : Request → Response) :
    ((5 + 4 - 1) / 4 : Nat) = 2 ∧
    GetPaginatedRecipes
        [("1", pasta), ("2", salad), ("3", stew), ("4", pasta), ("5", salad)] 3 4
      = some [] ∧
    ((2 : Int) < 4611686018427387905 ∧ (4611686018427387905 : Int) ≤ maxInt) ∧
    wrap64 (wrap64 (4611686018427387905 - 1) * 4) = 0 ∧
    GetPaginatedRecipes
        [("1", pasta), ("2", salad), ("3", stew), ("4", pasta), ("5", salad)]
        4611686018427387905 4
      = some [pasta, salad, stew, pasta] ∧
    SearchHandler.GetPaginatedRecipes exampleEnv fiveRecipeSystem
      { Method := "GET", Path := "/api/search/paginated",
        Query := [("page", "4611686018427387905"), ("pageSize", "4")] }
      = some (respondWithJSON 200 (.recipes [pasta, salad, stew, pasta]), fiveRecipeSystem) ∧
    main.ServeHTTP exampleEnv other noMatch fiveRecipeSystem
      { Method := "GET", Path := "/api/search/paginated",
        Query := [("page", "4611686018427387905"), ("pageSize", "4")] }
      = (⟨200, .recipes [pasta, salad, stew, pasta]⟩, fiveRecipeSystem) := by
  have hpage : strconv.Atoi "4611686018427387905" = .ok 4611686018427387905 := by rfl
  have hsize : strconv.Atoi "4" = .ok 4 := by rfl
  have hsvc : GetPaginatedRecipes
        [("1", pasta), ("2", salad), ("3", stew), ("4", pasta), ("5", salad)]
        4611686018427387905 4
      = some [pasta, salad, stew, pasta] := by
    simp [GetPaginatedRecipes, RecipeService.GetAllRecipes, InMemoryRecipeRepository.FindAll,
      wrap64]
  have hhandler : ∀ vars : GoMap String, SearchHandler.GetPaginatedRecipes exampleEnv
      fiveRecipeSystem
      { Method := "GET", Path := "/api/search/paginated",
        Query := [("page", "4611686018427387905"), ("pageSize", "4")], Vars := vars }
      = some (respondWithJSON 200 (.recipes [pasta, salad, stew, pasta]),
          fiveRecipeSystem) := by
    intro vars
    have hq1 : mapLookup [("page", "4611686018427387905"), ("pageSize", "4")] "page"
        = some "4611686018427387905" := by decide
    have hq2 : mapLookup [("page", "4611686018427387905"), ("pageSize", "4")] "pageSize"
        = some "4" := by decide
    have hstore : exampleEnv.orderRecipes fiveRecipeSystem.recipeRepo.recipes
        = [("1", pasta), ("2", salad), ("3", stew), ("4", pasta), ("5", salad)] := rfl
    unfold SearchHandler.GetPaginatedRecipes
    simp only [Request.QueryGet, hq1, hq2, Option.getD_some, hpage, hsize, hstore]
    simp
    rw [hsvc]
  refine ⟨by decide, ?_, ⟨by decide, by unfold maxInt; norm_num⟩, ?_, hsvc, hhandler [], ?_⟩
  · simp [GetPaginatedRecipes, RecipeService.GetAllRecipes, InMemoryRecipeRepository.FindAll,
      wrap64]
  · unfold wrap64; norm_num
  · have hroute : (mux.segments "/api/search/paginated").bind (mux.Match main.routes "GET")
        = some (⟨[.lit "api", .lit "search", .lit "paginated"], "GET", false,
            .GetPaginatedRecipes⟩, []) := by decide
    unfold main.ServeHTTP
    simp only [hroute]
    simp [main.dispatch, hhandler]
    rfl

/-- C32.  The rating handlers check the score before they call the service.
For every request that carries a user id in its context and whose body
decodes to a `RatingInput`: if the `Score` is below 1 or above 5, the
`CreateRating` handler and the `UpdateRating` handler answer 400 and return
the system, so also the rating store, as it was, without a call of
`RatingService`; if the `Score` is in 1..5, the answer and the rating store
afterwards are those of the service call made with the decoded input itself. -/
theorem C32_rating_handlers_validate_score (env : Env) (s : System) (r : Request)
    (userID : String) (input : RatingInput)
    (huser : r.ctx.Value UserIDKey = some userID)
    (hdecode : env.decodeRating r.Body = .ok input) :
    ((input.Score < 1 ∨ input.Score > 5) →
      RatingHandler.CreateRating env s r
        = (respondWithError 400 "Rating score must be between 1 and 5", s) ∧
      RatingHandler.UpdateRating env s r
        = (respondWithError 400 "Rating score must be between 1 and 5", s)) ∧
    ((1 ≤ input.Score ∧ input.Score ≤ 5) →
      RatingHandler.CreateRating env s r =
        (match (RatingService.CreateRating s.recipeRepo s.ratingRepo env.now env.id
            (r.VarsGet "recipeId") userID input).1 with
          | .error err => respondWithError 400 err
          | .ok rating => respondWithJSON 201 (.rating rating),
          { s with ratingRepo := (RatingService.CreateRating s.recipeRepo s.ratingRepo env.now
              env.id (r.VarsGet "recipeId") userID input).2 }) ∧
      RatingHandler.UpdateRating env s r =
        (match (RatingService.UpdateRating s.ratingRepo env.now (r.VarsGet "id") userID
            input).1 with
          | .error err => respondWithError 400 err
          | .ok rating => respondWithJSON 200 (.rating rating),
          { s with ratingRepo := (RatingService.UpdateRating s.ratingRepo env.now
              (r.VarsGet "id") userID input).2 })) := by
  constructor
  · intro hbad
    unfold RatingHandler.CreateRating RatingHandler.UpdateRating
    simp only [huser, hdecode, if_pos hbad, and_self]
  · intro hgood
    have hnot : ¬ (input.Score < 1 ∨ input.Score > 5) := by omega
    unfold RatingHandler.CreateRating RatingHandler.UpdateRating
    simp only [huser, hdecode, if_neg hnot]
    constructor
    · rcases h : RatingService.CreateRating s.recipeRepo s.ratingRepo env.now env.id
        (r.VarsGet "recipeId") userID input with ⟨res, repo⟩
      cases res <;> rfl
    · rcases h : RatingService.UpdateRating s.ratingRepo env.now (r.VarsGet "id") userID
        input with ⟨res, repo⟩
      cases res <;> rfl

/-- C32, witness: the score 6 sent by the user `"1"`. -/
theorem C32_rating_handlers_validate_score_witness :
    (({ Body := "six", ctx := ⟨[(UserIDKey, "1")]⟩ } : Request).ctx.Value UserIDKey
      = some "1") ∧
    ((6 : Int) < 1 ∨ (6 : Int) > 5) ∧
    RatingHandler.CreateRating exampleEnv exampleSystem
      { Body := "six", ctx := ⟨[(UserIDKey, "1")]⟩ }
      = (respondWithError 400 "Rating score must be between 1 and 5", exampleSystem) :=
  ⟨by decide, by decide,
    ((C32_rating_handlers_validate_score exampleEnv exampleSystem
      { Body := "six", ctx := ⟨[(UserIDKey, "1")]⟩ } "1" ⟨6, "too good"⟩
      (by decide) rfl).1 (by decide)).1⟩

/-! ## Routes -/

/-- What a successful match says of the route. -/
theorem Match_some {H : Type} (routes : List (mux.Route H)) (method : String)
    (segs : List String) (route : mux.Route H) (vars : GoMap String)
    (h : mux.Match routes method segs = some (route, vars)) :
    routes.find? (mux.Route.accepts method segs) = some route ∧
    route.method = method ∧ mux.matchTemplate route.template segs = some vars := by
  unfold mux.Match at h
  cases hf : routes.find? (mux.Route.accepts method segs) with
  | none => rw [hf] at h; cases h
  | some r0 =>
    rw [hf] at h
    simp only [Option.some.injEq, Prod.mk.injEq] at h
    obtain ⟨h1, h2⟩ := h
    subst h1
    have hacc := List.find?_some hf
    unfold mux.Route.accepts at hacc
    rw [Bool.and_eq_true, decide_eq_true_eq, Option.isSome_iff_exists] at hacc
    obtain ⟨hm, v, hv⟩ := hacc
    refine ⟨rfl, hm, ?_⟩
    rw [hv] at h2 ⊢
    simpa using h2

/-- Every route that leads to a handler that creates, updates or deletes a
recipe and is matched by some request is a route without `AuthMiddleware`:
the routes of the subrouter `recipes` are tried before their copies in
`protectedRecipes` and match the same requests. -/
theorem recipe_mutations_unprotected (method : String) (segs : List String)
    (route : mux.Route main.HandlerName) (vars : GoMap String)
    (h : mux.Match main.routes method segs = some (route, vars))
    (hh : route.handler = .CreateRecipe ∨ route.handler = .UpdateRecipe ∨
      route.handler = .DeleteRecipe) : route.auth = false := by
  obtain ⟨hf, _, _⟩ := Match_some _ _ _ _ _ h
  have hsplit : main.routes = main.routes.take 9 ++
      ((main.routes.drop 9).take 4 ++ main.routes.drop 13) := by decide
  rw [hsplit, List.find?_append, List.find?_append] at hf
  have hA : ∀ r ∈ main.routes.take 9, r.auth = false := by decide
  have hB : ∀ r ∈ (main.routes.drop 9).take 4, ∃ t ∈ main.routes.take 9,
      t.template = r.template ∧ t.method = r.method := by decide
  have hC : ∀ r ∈ main.routes.drop 13, ¬ (r.handler = .CreateRecipe ∨
      r.handler = .UpdateRecipe ∨ r.handler = .DeleteRecipe) := by decide
  cases hfa : (main.routes.take 9).find? (mux.Route.accepts method segs) with
  | some r0 =>
    rw [hfa] at hf
    simp only [Option.or_some, Option.some.injEq] at hf
    subst hf
    exact hA _ (List.mem_of_find?_eq_some hfa)
  | none =>
    rw [hfa] at hf
    simp only [Option.none_or] at hf
    cases hfb : ((main.routes.drop 9).take 4).find? (mux.Route.accepts method segs) with
    | some r0 =>
      exfalso
      obtain ⟨t, ht, htt, htm⟩ := hB r0 (List.mem_of_find?_eq_some hfb)
      have hacc := List.find?_some hfb
      have hnot := (List.find?_eq_none.1 hfa) t ht
      apply hnot
      unfold mux.Route.accepts at hacc ⊢
      rw [htt, htm]
      exact hacc
    | none =>
      rw [hfb] at hf
      simp only [Option.none_or] at hf
      exact absurd hh (hC route (List.mem_of_find?_eq_some hf))

/-- C33.  The routes to the handlers that create, update and delete recipes
do not pass through `AuthMiddleware`.  Whatever request is matched to one of
these handlers is matched by a route of the unprotected subrouter `recipes`,
registered before `protectedRecipes`.  So a `POST` to `/api/recipes` is
served by `CreateRecipe` itself, whatever headers it carries; and in the
example system requests without an `Authorization` header, which
`AuthMiddleware` answers with 401, create a recipe, update the recipe `"r1"`
and delete it. -/
theorem C33_recipe_mutations_bypass_auth (env : Env)
    (other : main.HandlerName → System → Request → Response × System)
    (noMatch : Request → Response) (s : System) (header query : GoMap String)
    (body : String) :
    (∀ method segs route vars, mux.Match main.routes method segs = some (route, vars) →
      (route.handler = .CreateRecipe ∨ route.handler = .UpdateRecipe ∨
        route.handler = .DeleteRecipe) → route.auth = false) ∧
    main.ServeHTTP env other noMatch s
        { Method := "POST", Path := "/api/recipes", Header := header, Body := body,
          Query := query }
      = RecipeHandler.CreateRecipe env s
        { Method := "POST", Path := "/api/recipes", Header := header, Body := body,
          Query := query } ∧
    AuthMiddleware exampleEnv.lib exampleEnv.now
        { Method := "POST", Path := "/api/recipes", Body := "soup" }
      = .respond 401 "Unauthorized" ∧
    main.ServeHTTP exampleEnv other noMatch exampleSystem
        { Method := "POST", Path := "/api/recipes", Body := "soup" }
      = (⟨201, .recipe (NewRecipe 3600 "x9" ⟨"Soup", "", ["water"], [], 1, 2, 3, []⟩)⟩,
          { exampleSystem with recipeRepo :=
            ⟨[("r1", mkRecipe "r1" "Pasta Carbonara" 15 20 4),
              ("x9", NewRecipe 3600 "x9" ⟨"Soup", "", ["water"], [], 1, 2, 3, []⟩)]⟩ }) ∧
    main.ServeHTTP exampleEnv other noMatch exampleSystem
        { Method := "PUT", Path := "/api/recipes/r1", Body := "soup" }
      = (⟨200, .recipe (UpdateRecipe 3600 (mkRecipe "r1" "Pasta Carbonara" 15 20 4)
            ⟨"Soup", "", ["water"], [], 1, 2, 3, []⟩)⟩,
          { exampleSystem with recipeRepo :=
            ⟨[("r1", UpdateRecipe 3600 (mkRecipe "r1" "Pasta Carbonara" 15 20 4)
              ⟨"Soup", "", ["water"], [], 1, 2, 3, []⟩)]⟩ }) ∧
    main.ServeHTTP exampleEnv other noMatch exampleSystem
        { Method := "DELETE", Path := "/api/recipes/r1" }
      = (⟨204, .null⟩, { exampleSystem with recipeRepo := ⟨[]⟩ }) := by
  refine ⟨recipe_mutations_unprotected, ?_, by decide, ?_, ?_, ?_⟩
  · have hroute : (mux.segments "/api/recipes").bind (mux.Match main.routes "POST")
        = some (⟨[.lit "api", .lit "recipes"], "POST", false, .CreateRecipe⟩, []) := by decide
    unfold main.ServeHTTP
    simp only [hroute]
    simp [main.dispatch]
  · have hroute : (mux.segments "/api/recipes").bind (mux.Match main.routes "POST")
        = some (⟨[.lit "api", .lit "recipes"], "POST", false, .CreateRecipe⟩, []) := by decide
    unfold main.ServeHTTP
    simp only [hroute]
    simp only [main.dispatch, Bool.false_eq_true, if_false]
    decide
  · have hroute : (mux.segments "/api/recipes/r1").bind (mux.Match main.routes "PUT")
        = some (⟨[.lit "api", .lit "recipes", .var "id"], "PUT", false, .UpdateRecipe⟩,
            [("id", "r1")]) := by decide
    unfold main.ServeHTTP
    simp only [hroute]
    simp only [main.dispatch, Bool.false_eq_true, if_false]
    decide
  · have hroute : (mux.segments "/api/recipes/r1").bind (mux.Match main.routes "DELETE")
        = some (⟨[.lit "api", .lit "recipes", .var "id"], "DELETE", false, .DeleteRecipe⟩,
            [("id", "r1")]) := by decide
    unfold main.ServeHTTP
    simp only [hroute]
    simp only [main.dispatch, Bool.false_eq_true, if_false]
    decide

/-- The variables that a match of a template reports are variables of the
template. -/
theorem matchTemplate_keys (template : List mux.Segment) (segs : List String)
    (vars : GoMap String) (h : mux.matchTemplate template segs = some vars)
    (key : String) (hkey : mux.Segment.var key ∉ template) : mapLookup vars key = none := by
  induction template generalizing segs vars with
  | nil =>
    cases segs with
    | nil =>
      simp only [mux.matchTemplate, Option.some.injEq] at h
      subst h
      rfl
    | cons seg segs => simp [mux.matchTemplate] at h
  | cons t template ih =>
    cases segs with
    | nil => cases t <;> simp [mux.matchTemplate] at h
    | cons seg segs =>
      cases t with
      | lit text =>
        simp only [mux.matchTemplate] at h
        split_ifs at h
        exact ih segs vars h (fun hm => hkey (List.mem_cons_of_mem _ hm))
      | var name =>
        simp only [mux.matchTemplate] at h
        split_ifs at h
        cases hm : mux.matchTemplate template segs with
        | none => rw [hm] at h; cases h
        | some vars0 =>
          rw [hm] at h
          simp only [Option.some.injEq] at h
          subst h
          have hne : name ≠ key := by
            intro e
            subst e
            exact hkey (List.mem_cons_self _ _)
          simp only [mapLookup, hne, if_false]
          exact ih segs vars0 hm (fun hm2 => hkey (List.mem_cons_of_mem _ hm2))

theorem matchTemplate_nil (segs : List String) (vars : GoMap String) :
    mux.matchTemplate [] segs = some vars ↔ segs = [] ∧ vars = [] := by
  cases segs with
  | nil =>
    simp only [mux.matchTemplate, Option.some.injEq, true_and]
    exact eq_comm
  | cons seg segs => simp [mux.matchTemplate]

theorem matchTemplate_lit (text : String) (template : List mux.Segment) (segs : List String)
    (vars : GoMap String) :
    mux.matchTemplate (.lit text :: template) segs = some vars ↔
      ∃ rest, segs = text :: rest ∧ mux.matchTemplate template rest = some vars := by
  cases segs with
  | nil => simp [mux.matchTemplate]
  | cons seg segs =>
    simp only [mux.matchTemplate]
    by_cases c : seg = text
    · subst c
      simp
    · simp only [c, if_false, List.cons.injEq, false_and, exists_false]
      simp

theorem matchTemplate_var (name : String) (template : List mux.Segment) (segs : List String)
    (vars : GoMap String) :
    mux.matchTemplate (.var name :: template) segs = some vars ↔
      ∃ seg rest vars0, segs = seg :: rest ∧ seg ≠ "" ∧
        mux.matchTemplate template rest = some vars0 ∧ vars = (name, seg) :: vars0 := by
  cases segs with
  | nil => simp [mux.matchTemplate]
  | cons seg segs =>
    simp only [mux.matchTemplate]
    by_cases c : seg = ""
    · subst c
      simp
    · simp only [ne_eq, c, not_false_eq_true, if_true]
      constructor
      · intro h
        cases hm : mux.matchTemplate template segs with
        | none => rw [hm] at h; cases h
        | some vars0 =>
          rw [hm] at h
          simp only [Option.some.injEq] at h
          exact ⟨seg, segs, vars0, rfl, c, hm, h.symm⟩
      · rintro ⟨seg', rest', vars', heq, _, h2, h3⟩
        simp only [List.cons.injEq] at heq
        obtain ⟨rfl, rfl⟩ := heq
        rw [h2, h3]

/-- No route of `main` has a variable called `recipeId`, so no matched request
has a value for it. -/
theorem no_recipeId_variable (method : String) (segs : List String)
    (route : mux.Route main.HandlerName) (vars : GoMap String)
    (h : mux.Match main.routes method segs = some (route, vars)) :
    mapLookup vars "recipeId" = none := by
  obtain ⟨hf, _, hv⟩ := Match_some _ _ _ _ _ h
  have hmem := List.mem_of_find?_eq_some hf
  have hall : ∀ r ∈ main.routes, mux.Segment.var "recipeId" ∉ r.template := by decide
  exact matchTemplate_keys _ _ _ hv _ (hall route hmem)

/-- The requests that reach `UpdateRating` and `DeleteRating` have the path
`/api/recipes/{id}/ratings/{ratingId}`, and the variable `id` that these
handlers read holds the recipe segment. -/
theorem rating_id_variable (method : String) (segs : List String)
    (route : mux.Route main.HandlerName) (vars : GoMap String)
    (h : mux.Match main.routes method segs = some (route, vars))
    (hh : route.handler = .UpdateRating ∨ route.handler = .DeleteRating) :
    ∃ recipeSeg ratingSeg, segs = ["api", "recipes", recipeSeg, "ratings", ratingSeg] ∧
      vars = [("id", recipeSeg), ("ratingId", ratingSeg)] ∧
      mapLookup vars "id" = some recipeSeg := by
  obtain ⟨hf, _, hv⟩ := Match_some _ _ _ _ _ h
  have hmem := List.mem_of_find?_eq_some hf
  have hall : ∀ r ∈ main.routes, (r.handler = .UpdateRating ∨ r.handler = .DeleteRating) →
      r.template = [.lit "api", .lit "recipes", .var "id", .lit "ratings", .var "ratingId"] := by
    decide
  rw [hall route hmem hh] at hv
  rw [matchTemplate_lit] at hv
  obtain ⟨rest1, rfl, hv⟩ := hv
  rw [matchTemplate_lit] at hv
  obtain ⟨rest2, rfl, hv⟩ := hv
  rw [matchTemplate_var] at hv
  obtain ⟨recipeSeg, rest3, vars3, rfl, _, hv, rfl⟩ := hv
  rw [matchTemplate_lit] at hv
  obtain ⟨rest4, rfl, hv⟩ := hv
  rw [matchTemplate_var] at hv
  obtain ⟨ratingSeg, rest5, vars5, rfl, _, hv, rfl⟩ := hv
  rw [matchTemplate_nil] at hv
  obtain ⟨rfl, rfl⟩ := hv
  exact ⟨recipeSeg, ratingSeg, rfl, rfl, by simp [mapLookup]⟩

/-- C34.  The rating handlers do not read the variables of their route
templates.  The templates of `main` name the variables `id` and `ratingId`;
`CreateRating`, `GetRatingsByRecipeID` and `GetAverageRatingForRecipe` read
`recipeId`, which no matched request has, so they pass the empty string as
recipe id; `UpdateRating` and `DeleteRating` read `id`, which holds the
recipe segment of the path, and pass it as rating id.  In the example system,
where the recipe `"r1"` has the rating `"x1"` of the user `"1"`, requests of
that user with a valid token: the `POST` of a score of 5 for `"r1"` fails
with "recipe not found" and creates nothing; the rating list of `"r1"` is
empty; the `PUT` to `/api/recipes/r1/ratings/x1` fails with "rating not
found"; and a `PUT` to `/api/recipes/x1/ratings/zz` changes the rating
`"x1"`. -/
theorem C34_rating_routes_misaddress
    (other : main.HandlerName → System → Request → Response × System)
    (noMatch : Request → Response) :
    (∀ method segs route vars, mux.Match main.routes method segs = some (route, vars) →
      ∀ r : Request, ({ r with Vars := vars } : Request).VarsGet "recipeId" = "") ∧
    (∀ method segs route vars, mux.Match main.routes method segs = some (route, vars) →
      (route.handler = .UpdateRating ∨ route.handler = .DeleteRating) →
      ∃ recipeSeg ratingSeg, segs = ["api", "recipes", recipeSeg, "ratings", ratingSeg] ∧
        ∀ r : Request, ({ r with Vars := vars } : Request).VarsGet "id" = recipeSeg) ∧
    (mapLookup exampleSystem.recipeRepo.recipes "r1"
        = some (mkRecipe "r1" "Pasta Carbonara" 15 20 4) ∧
      mapLookup exampleSystem.ratingRepo.ratings "x1"
        = some ⟨"x1", "r1", "1", 4, "fine", 10, 10⟩) ∧
    main.ServeHTTP exampleEnv other noMatch exampleSystem
        { Method := "POST", Path := "/api/recipes/r1/ratings",
          Header := [("Authorization", "Bearer token-1")], Body := "five" }
      = (⟨400, .error "recipe not found"⟩, exampleSystem) ∧
    main.ServeHTTP exampleEnv other noMatch exampleSystem
        { Method := "GET", Path := "/api/recipes/r1/ratings" }
      = (⟨200, .ratings []⟩, exampleSystem) ∧
    main.ServeHTTP exampleEnv other noMatch exampleSystem
        { Method := "PUT", Path := "/api/recipes/r1/ratings/x1",
          Header := [("Authorization", "Bearer token-1")], Body := "five" }
      = (⟨400, .error "rating not found"⟩, exampleSystem) ∧
    main.ServeHTTP exampleEnv other noMatch exampleSystem
        { Method := "PUT", Path := "/api/recipes/x1/ratings/zz",
          Header := [("Authorization", "Bearer token-1")], Body := "five" }
      = (⟨200, .rating ⟨"x1", "r1", "1", 5, "good", 10, 3600⟩⟩,
          { exampleSystem with
            ratingRepo := ⟨[("x1", ⟨"x1", "r1", "1", 5, "good", 10, 3600⟩)]⟩ }) := by
  refine ⟨?_, ?_, ⟨by decide, by decide⟩, ?_, ?_, ?_, ?_⟩
  · intro method segs route vars h r
    simp only [Request.VarsGet, no_recipeId_variable method segs route vars h]
    rfl
  · intro method segs route vars h hh
    obtain ⟨recipeSeg, ratingSeg, hs, _, hl⟩ := rating_id_variable method segs route vars h hh
    refine ⟨recipeSeg, ratingSeg, hs, ?_⟩
    intro r
    simp only [Request.VarsGet, hl]
    rfl
  · have hroute : (mux.segments "/api/recipes/r1/ratings").bind
        (mux.Match main.routes "POST")
        = some (⟨[.lit "api", .lit "recipes", .var "id", .lit "ratings"], "POST", true,
            .CreateRating⟩, [("id", "r1")]) := by decide
    unfold main.ServeHTTP
    simp only [hroute]
    simp only [main.dispatch, if_true]
    decide
  · have hroute : (mux.segments "/api/recipes/r1/ratings").bind
        (mux.Match main.routes "GET")
        = some (⟨[.lit "api", .lit "recipes", .var "id", .lit "ratings"], "GET", false,
            .GetRatingsByRecipeID⟩, [("id", "r1")]) := by decide
    unfold main.ServeHTTP
    simp only [hroute]
    simp only [main.dispatch, Bool.false_eq_true, if_false]
    decide
  · have hroute : (mux.segments "/api/recipes/r1/ratings/x1").bind
        (mux.Match main.routes "PUT")
        = some (⟨[.lit "api", .lit "recipes", .var "id", .lit "ratings", .var "ratingId"],
            "PUT", true, .UpdateRating⟩, [("id", "r1"), ("ratingId", "x1")]) := by decide
    unfold main.ServeHTTP
    simp only [hroute]
    simp only [main.dispatch, if_true]
    decide
  · have hroute : (mux.segments "/api/recipes/x1/ratings/zz").bind
        (mux.Match main.routes "PUT")
        = some (⟨[.lit "api", .lit "recipes", .var "id", .lit "ratings", .var "ratingId"],
            "PUT", true, .UpdateRating⟩, [("id", "x1"), ("ratingId", "zz")]) := by decide
    unfold main.ServeHTTP
    simp only [hroute]
    simp only [main.dispatch, if_true]
    decide

end Playground
